import Mathlib

/-!
# ssg-go: a shallow embedding of the build pipeline

Go strings and byte slices are sequences of bytes; a byte is represented by
its numeric value.  A Go `map[string]T` is represented by the list of its
entries, read in the order in which `range` visits them; lookup returns the
value of the entry whose key equals the index.  A method that mutates its
receiver returns the receiver after the call next to its Go result.  Hooks and
pipeline stages are functions of their arguments.  The functions of the Go
library the program decides on (`strings.Split`, `filepath.Ext`,
`filepath.Clean`, `bufio.Scanner`, ...) are written out; `filepath.Rel`,
`filepath.Join`, the Markdown renderer, the compiler of ignore files and the
file system are parameters, collected in `Env`.  The concurrent writer is a
transition system, run under a schedule that picks the goroutine to step; the
outcome of a write to the destination is a parameter, and the destination is
the tree the successful writes leave.  The order in which `range` visits the
entries of a map is a parameter where a result depends on it.
-/

set_option autoImplicit false
set_option maxRecDepth 8000

namespace ssg

/-- A byte slice (`[]byte`). -/
abbrev Bytes := List Nat

/-- A Go string: its bytes. -/
abbrev GoString := List Nat

/-- UTF-8 encoding of one character. -/
def utf8Encode (c : Char) : List Nat :=
  let n := c.toNat
  if n < 128 then [n]
  else if n < 2048 then [192 + n / 64, 128 + n % 64]
  else if n < 65536 then [224 + n / 4096, 128 + n / 64 % 64, 128 + n % 64]
  else [240 + n / 262144, 128 + n / 4096 % 64, 128 + n / 64 % 64, 128 + n % 64]

/-- The Go string denoted by a string literal (Go source text is UTF-8). -/
def str (s : String) : GoString :=
  s.data.flatMap utf8Encode

/-- Go builtin `len` on a string or byte slice: the number of bytes. -/
def len (s : List Nat) : Nat :=
  s.length

/-- Number of characters (runes) of a UTF-8 string, `utf8.RuneCountInString`:
every byte that is not a continuation byte starts a character. -/
def runeCount (s : GoString) : Nat :=
  (s.filter (fun b => b / 64 != 2)).length

/-! ## strings / bytes helpers -/

/-- Loop of `strings.Split` and `bytes.Split` for a non-empty separator: `cur` holds the
bytes of the current piece (reversed), `skip` the bytes of a matched separator still
to be passed over. -/
def splitLoop (sep : List Nat) : List Nat → List Nat → Nat → List (List Nat)
  | [], cur, _ => [cur.reverse]
  | _ :: cs, cur, skip + 1 => splitLoop sep cs cur skip
  | c :: cs, cur, 0 =>
    if sep.isPrefixOf (c :: cs) then cur.reverse :: splitLoop sep cs [] (sep.length - 1)
    else splitLoop sep cs (c :: cur) 0

/-- Go `strings.Split(s, sep)` and `bytes.Split(s, sep)`, for a non-empty `sep`. -/
def Split (s sep : List Nat) : List (List Nat) :=
  splitLoop sep s [] 0

/-! ## perDir (common.go) -/

/-- Go `map[string]T`: its entries in iteration order. -/
abbrev GoMap (T : Type) := List (GoString × T)

/-- Map index `m[key]` with the comma-ok form. -/
def GoMap.get {T : Type} (m : GoMap T) (key : GoString) : Option T :=
  match m with
  | [] => none
  | (k, v) :: rest => if k = key then some v else GoMap.get rest key

/-- Structure `perDir[T]` of common.go. -/
structure perDir (T : Type) where
  defaultValue : T
  values : GoMap T

/-- Function `newPerDir` of common.go. -/
def newPerDir {T : Type} (defaultValue : T) : perDir T :=
  { defaultValue := defaultValue, values := [] }

/-- A Go `error` value.  `SkipDir` and `SkipAll` are the sentinels of `io/fs`;
`wrap pre e` is `fmt.Errorf(pre + "%w", e)`; `join a b` is
`errors.Join(a, b)`; `notExist` is an error for which `os.IsNotExist` holds; `other` is
any other error, with its message. -/
inductive GoError where
  | ErrBreakPipelines
  | ErrSkipCore
  | SkipDir
  | SkipAll
  | notExist (msg : GoString)
  | other (msg : GoString)
  | wrap (pre : GoString) (inner : GoError)
  | join (a b : GoError)
  deriving DecidableEq, Repr

/-- Method `perDir.add` of common.go: the store after the call and the returned error. -/
def perDir.add {T : Type} (p : perDir T) (path : GoString) (v : T) : perDir T × Option GoError :=
  match p.values.get path with
  | some _ => (p, some (GoError.other (str "found duplicate path '" ++ path ++ str "'")))
  | none => ({ p with values := p.values ++ [(path, v)] }, none)

/-- Inner loop of `choose`: `false` when the loop leaves through `continue outer`. -/
def segmentsMatch : List GoString → List GoString → Bool
  | [], _ => true
  | _ :: _, [] => true
  | a :: as, b :: bs => if a ≠ b then false else segmentsMatch as bs

/-- Outer loop of `choose` over the entries of the map, carrying `(chosen, max)`. -/
def chooseLoop {T : Type} (parts : List GoString) : GoMap T → T × Nat → T × Nat
  | [], acc => acc
  | (pre, stored) :: rest, (chosen, max) =>
    if segmentsMatch parts (Split pre (str "/")) then
      let l := len pre
      if max > l then chooseLoop parts rest (chosen, max)
      else chooseLoop parts rest (stored, l)
    else chooseLoop parts rest (chosen, max)

/-- Function `choose` of common.go. -/
def choose {T : Type} (path : GoString) (valueDefault : T) (m : GoMap T) : T :=
  match m.get path with
  | some chosen => chosen
  | none => (chooseLoop (Split path (str "/")) m (valueDefault, 0)).1

/-- Method `perDir.choose` of common.go. -/
def perDir.choose {T : Type} (p : perDir T) (path : GoString) : T :=
  ssg.choose path p.defaultValue p.values


/-! ## Go library functions used by the program -/

/-- Go `strings.HasPrefix` and `bytes.HasPrefix`. -/
def HasPrefix (s pre : List Nat) : Bool :=
  pre.isPrefixOf s

/-- Go `strings.HasSuffix`. -/
def HasSuffix (s suf : List Nat) : Bool :=
  suf.isSuffixOf s

/-- Go `strings.TrimSuffix`. -/
def TrimSuffix (s suf : GoString) : GoString :=
  if HasSuffix s suf then s.take (len s - len suf) else s

/-- Go `bytes.Contains`. -/
def Contains (b : Bytes) (sub : Bytes) : Bool :=
  match b with
  | [] => sub.isPrefixOf []
  | c :: cs => sub.isPrefixOf (c :: cs) || Contains cs sub

/-- Go `bytes.Replace(s, old, new, 1)`: a copy of `s` with the first occurrence of `old`
replaced by `new`. -/
def ReplaceFirst (s old new : Bytes) : Bytes :=
  match s with
  | [] => if old.isPrefixOf [] then new else []
  | c :: cs =>
    if old.isPrefixOf (c :: cs) then new ++ (c :: cs).drop old.length
    else c :: ReplaceFirst cs old new

/-- Constant `bufio.MaxScanTokenSize`: the size at which the buffer of a `bufio.Scanner`
stops growing. -/
def MaxScanTokenSize : Nat := 64 * 1024

/-- Helper `dropCR` of `bufio.ScanLines`: drops one trailing carriage return. -/
def dropCR (data : Bytes) : Bytes :=
  if data.getLast? = some 13 then data.dropLast else data

/-- The tokens produced by `s.Scan()`/`s.Bytes()` for a `bufio.Scanner` with the default
split function `ScanLines` over `data`; `cur` holds the bytes of the current line
(reversed).  A line that does not fit the buffer ends the scan. -/
def scanLoop : Bytes → Bytes → List Bytes
  | [], cur =>
    if cur.isEmpty then []
    else if cur.length < MaxScanTokenSize then [dropCR cur.reverse] else []
  | c :: cs, cur =>
    if c = 10 then
      if cur.length < MaxScanTokenSize then dropCR cur.reverse :: scanLoop cs [] else []
    else scanLoop cs (c :: cur)

/-- The lines a `bufio.NewScanner(bytes.NewBuffer(data))` yields. -/
def scanLines (data : Bytes) : List Bytes :=
  scanLoop data []

/-- Go `filepath.Ext`, scanning from the end of the path; `acc` is the suffix passed so far. -/
def extLoop : List Nat → List Nat → GoString
  | [], _ => []
  | c :: rest, acc =>
    if c = 47 then [] else if c = 46 then 46 :: acc else extLoop rest (c :: acc)

/-- Go `filepath.Ext` (Unix): the suffix beginning at the final dot of the final element. -/
def Ext (path : GoString) : GoString :=
  extLoop path.reverse []

/-- Go `filepath.Base` (Unix). -/
def Base (path : GoString) : GoString :=
  if path = [] then str "."
  else
    let stripped := (path.reverse.dropWhile (fun c => c = 47)).reverse
    let last := (stripped.reverse.takeWhile (fun c => c ≠ 47)).reverse
    if last = [] then str "/" else last

/-! ## title.go -/

/-- Type `TitleFrom` of title.go. -/
inductive TitleFrom where
  | TitleFromNone
  | TitleFromH1
  | TitleFromTag
  deriving DecidableEq, Repr

open TitleFrom

def TargetFromH1 : GoString := str "{{from-h1}}"
def TargetFromTag : GoString := str "{{from-tag}}"
def keyTitleFromH1 : GoString := str "# "
def keyTitleFromTag : GoString := str ":ssg-title "

/-- Scan loop shared by `GetTitleFromH1` and `GetTitleFromTag`: the first line that has
the prefix `k` and splits on `k` into exactly two parts gives the title. -/
def titleLoop (k : Bytes) : List Bytes → Bytes
  | [] => []
  | line :: rest =>
    if !HasPrefix line k then titleLoop k rest
    else
      match Split line k with
      | [_, t] => t
      | _ => titleLoop k rest

/-- Function `GetTitleFromH1` of title.go. -/
def GetTitleFromH1 (markdown : Bytes) : Bytes :=
  titleLoop keyTitleFromH1 (scanLines markdown)

/-- Function `GetTitleFromTag` of title.go. -/
def GetTitleFromTag (markdown : Bytes) : Bytes :=
  titleLoop keyTitleFromTag (scanLines markdown)

/-- Function `AddTitleFromH1` of title.go. -/
def AddTitleFromH1 (d header markdown : Bytes) : Bytes :=
  let target := TargetFromH1
  let title := GetTitleFromH1 markdown
  if len title = 0 then ReplaceFirst header target d
  else ReplaceFirst header target title

/-- Function `trimRightWhitespace` of title.go. -/
def trimRightWhitespace (b : Bytes) : Bytes :=
  (b.reverse.dropWhile (fun r => r = 32 || r = 9)).reverse

/-- Scan loop of `AddTitleFromTag`. -/
def addTitleFromTagLoop (d header markdown : Bytes) : List Bytes → Bytes × Bytes
  | [] => (ReplaceFirst header TargetFromTag d, markdown)
  | line :: rest =>
    if !HasPrefix line keyTitleFromTag then addTitleFromTagLoop d header markdown rest
    else
      match Split line keyTitleFromTag with
      | [_, title] =>
        let line := trimRightWhitespace line
        (ReplaceFirst header TargetFromTag title, ReplaceFirst markdown (line ++ [10, 10]) [])
      | _ => addTitleFromTagLoop d header markdown rest

/-- Function `AddTitleFromTag` of title.go. -/
def AddTitleFromTag (d header markdown : Bytes) : Bytes × Bytes :=
  addTitleFromTagLoop d header markdown (scanLines markdown)

/-- Function `IsTargetFromH1` of title.go. -/
def IsTargetFromH1 (b : Bytes) : Bool :=
  Contains b TargetFromH1

/-- Function `IsTargetFromTag` of title.go. -/
def IsTargetFromTag (b : Bytes) : Bool :=
  Contains b TargetFromTag

/-- Function `GetTitleFrom` of title.go. -/
def GetTitleFrom (b : Bytes) : TitleFrom :=
  if IsTargetFromH1 b then TitleFromH1
  else if IsTargetFromTag b then TitleFromTag
  else TitleFromNone

/-! ## Errors -/

open GoError

/-- Go `errors.Is(err, target)` for a sentinel `target`: `target` occurs in the chain of
`err`. -/
def errorsIs : GoError → GoError → Bool
  | wrap pre inner, target => decide (wrap pre inner = target) || errorsIs inner target
  | join a b, target => decide (join a b = target) || errorsIs a target || errorsIs b target
  | e, target => decide (e = target)

/-- Method `Error()` of a Go error: its message. -/
def GoError.Error : GoError → GoString
  | ErrBreakPipelines => str "ssg_break_pipeline"
  | ErrSkipCore => str "ssg_skip_core"
  | SkipDir => str "skip this directory"
  | SkipAll => str "skip everything and stop the walk"
  | notExist msg => msg
  | other msg => msg
  | wrap pre inner => pre ++ inner.Error
  | join a b => a.Error ++ str "\n" ++ b.Error

/-- Go `os.IsNotExist`. -/
def IsNotExist : GoError → Bool
  | notExist _ => true
  | _ => false

/-- Decimal rendering of an index, as the verb `%d` of `fmt` prints it. -/
def fmtInt (i : Nat) : GoString :=
  str (toString i)

/-! ## Files, outputs and options (output.go, options.go, common.go) -/

/-- Go `fs.FileInfo`, reduced to its name and its `Mode()`. -/
structure FileInfo where
  name : GoString
  mode : Nat
  deriving DecidableEq, Repr

/-- Go `fs.DirEntry`: `Name()`, `IsDir()` and the result of `Info()`. -/
structure DirEntry where
  name : GoString
  isDir : Bool
  info : Except GoError FileInfo

/-- Go `fs.ModePerm`. -/
def ModePerm : Nat := 0o777

/-- Go `fs.ModeSymlink` (bit 27). -/
def ModeSymlink : Nat := 2 ^ 27

/-- Go `FileMode.Perm`: the Unix permission bits of a mode. -/
def Perm (mode : Nat) : Nat :=
  mode &&& ModePerm

/-- Function `FileIs` of common.go. -/
def FileIs (f : FileInfo) (mode : Nat) : Bool :=
  f.mode &&& mode != 0

/-- Structure `OutputFile` of output.go. -/
structure OutputFile where
  target : GoString
  originator : GoString
  data : Bytes
  perm : Nat
  deriving DecidableEq, Repr

/-- Function `Output` of common.go. -/
def Output (target originator : GoString) (data : Bytes) (perm : Nat) : OutputFile :=
  { target := target, originator := originator, data := data, perm := perm }

/-- Method `OutputFile.Perm` of common.go. -/
def OutputFile.Perm (o : OutputFile) : Nat :=
  if o.perm = 0 then ModePerm else o.perm

/-- Structure `buildOutput` of output.go.  The `writer`, when set, is represented by the
sequence of outputs it has been given so far. -/
structure buildOutput where
  cacheOutput : Bool
  writer : Option (List OutputFile)
  files : List GoString
  cache : List OutputFile
  deriving DecidableEq, Repr

/-- Method `buildOutput.Add` of output.go. -/
def buildOutput.Add (b : buildOutput) (outputs : List OutputFile) : buildOutput :=
  let b := if b.cacheOutput then { b with cache := b.cache ++ outputs } else b
  match b.writer with
  | some w => { b with writer := some (w ++ outputs) }
  | none => b

/-- Type `Hook` of options.go. -/
abbrev Hook := GoString → Bytes → Except GoError Bytes

/-- Type `HookGenerate` of options.go. -/
abbrev HookGenerate := Bytes → Except GoError Bytes

/-- Type `Pipeline` of options.go: the returned path, data and entry, and the error. -/
abbrev Pipeline := GoString → Bytes → DirEntry → GoString × Bytes × DirEntry × Option GoError

/-- Structure `options` of options.go. -/
structure options where
  hooks : List Hook
  hookGenerate : List HookGenerate
  pipelines : List Pipeline
  caching : Bool
  writers : Nat

/-- Type `Set` of common.go: the members, in insertion order. -/
abbrev Set := List GoString

/-- Method `Set.Insert` of common.go: the set after the call, and whether the value was
already a member. -/
def Set.Insert (s : Set) (v : GoString) : Set × Bool :=
  if v ∈ s then (s, true) else (s ++ [v], false)

/-- Method `Set.Contains` of common.go. -/
def Set.Contains (s : Set) (items : List GoString) : Bool :=
  items.all (fun v => decide (v ∈ s))

/-- Function `ChangeExt` of common.go. -/
def ChangeExt (path old new : GoString) : GoString :=
  TrimSuffix path old ++ new

/-- Structure `header` of common.go: the buffer contents and the title mode. -/
structure header where
  Buffer : Bytes
  titleFrom : TitleFrom
  deriving DecidableEq, Repr

/-! ## The builder (ssg.go, build.go) -/

def MarkerHeader : GoString := str "_header.html"
def MarkerFooter : GoString := str "_footer.html"
def SsgIgnore : GoString := str ".ssgignore"

def HeaderDefault : GoString :=
  str "<!DOCTYPE html>\n<html lang=\"en\">\n<head>\n<meta charset=\"UTF-8\">\n<title>{{from-h1}}</title>\n</head>\n<body>\n"

def FooterDefault : GoString :=
  str "</body>\n</html>\n"

/-- The collaborators outside the repository: the path functions `filepath.Rel` and
`filepath.Join`, the Markdown renderer called by `ToHtml`, the file system
(`os.ReadDir`, `os.ReadFile`, `os.Stat`, `os.Lstat`) and `ignore.CompileIgnoreFile`, which
gives the method `MatchesPath` of the compiled file. -/
structure Env where
  Rel : GoString → GoString → Except GoError GoString
  Join : GoString → GoString → GoString
  markdownRender : Bytes → Bytes
  ReadDir : GoString → Except GoError (List DirEntry)
  ReadFile : GoString → Except GoError Bytes
  Stat : GoString → Except GoError FileInfo
  Lstat : GoString → Except GoError FileInfo
  CompileIgnoreFile : GoString → Except GoError (GoString → Bool)

/-- Function `ToHtml` of common.go. -/
def ToHtml (env : Env) (md : Bytes) : Bytes :=
  env.markdownRender md

/-- Function `newHeaders` of common.go. -/
def newHeaders (defaultHeader : GoString) : perDir header :=
  newPerDir { Buffer := defaultHeader, titleFrom := TitleFromH1 }

/-- Function `newFooters` of common.go. -/
def newFooters (defaultFooter : GoString) : perDir Bytes :=
  newPerDir defaultFooter

/-- Structure `Ssg` of ssg.go. -/
structure Ssg where
  Src : GoString
  Dst : GoString
  Title : GoString
  Url : GoString
  options : options
  ssgignores : GoString → Bool
  headers : perDir header
  footers : perDir Bytes
  preferred : Set
  result : buildOutput

/-- Function `mirrorPath` of ssg.go. -/
def mirrorPath (env : Env) (src dst path : GoString) : Except GoError GoString :=
  match env.Rel src path with
  | .error err => .error err
  | .ok path => .ok (env.Join dst path)

/-- Loop over `s.options.hooks` in `Ssg.core`, from index `i`. -/
def runHooks (path : GoString) : List Hook → Nat → Bytes → Except GoError Bytes
  | [], _, data => .ok data
  | hook :: rest, i, data =>
    match hook path data with
    | .error err =>
      .error (wrap (str "hooks[" ++ fmtInt i ++ str "]: error when building " ++ path ++ str ": ") err)
    | .ok data => runHooks path rest (i + 1) data

/-- Loop over `s.options.hookGenerate` in `Ssg.core`, from index `i`. -/
def runHooksGenerate (path : GoString) : List HookGenerate → Nat → Bytes → Except GoError Bytes
  | [], _, buf => .ok buf
  | h :: rest, i, buf =>
    match h buf with
    | .error err =>
      .error (wrap (str "hooksGenerate[" ++ fmtInt i ++ str "] error when building " ++ path ++ str ": ") err)
    | .ok b => runHooksGenerate path rest (i + 1) b

/-- Method `Ssg.core` of ssg.go. -/
def Ssg.core (env : Env) (s : Ssg) (path : GoString) (data : Bytes) (d : DirEntry) :
    Except GoError OutputFile :=
  match d.info with
  | .error err => .error err
  | .ok info =>
    match runHooks path s.options.hooks 0 data with
    | .error err => .error err
    | .ok data =>
      if Ext path ≠ str ".md" ∨ s.preferred.Contains [ChangeExt path (str ".md") (str ".html")] then
        match mirrorPath env s.Src s.Dst path with
        | .error err => .error err
        | .ok target => .ok (Output target path data (Perm info.mode))
      else
        match mirrorPath env s.Src s.Dst path with
        | .error err => .error err
        | .ok target =>
          let target := ChangeExt target (str ".md") (str ".html")
          let header := s.headers.choose path
          let footer := s.footers.choose path
          let headerText := header.Buffer
          let titled : Bytes × Bytes :=
            match header.titleFrom with
            | TitleFromH1 => (AddTitleFromH1 s.Title headerText data, data)
            | TitleFromTag => AddTitleFromTag s.Title headerText data
            | TitleFromNone => (headerText, data)
          let buf := titled.1 ++ ToHtml env titled.2 ++ footer
          match runHooksGenerate path s.options.hookGenerate 0 buf with
          | .error err => .error err
          | .ok b => .ok (Output target path b (Perm info.mode))

/-- Function `shouldIgnore` of ssg.go. -/
def shouldIgnore (env : Env) (ignoreFn : GoString → Bool) (path base : GoString) (d : DirEntry) :
    Bool × Option GoError :=
  let isDot := HasPrefix base (str ".")
  let isDir := d.isDir
  if isDot && isDir then (true, some SkipDir)
  else if isDot || isDir then (true, none)
  else if ignoreFn path then (true, none)
  else
    match env.Stat path with
    | .error err => if IsNotExist err then (true, none) else (false, some err)
    | .ok stat => if FileIs stat ModeSymlink then (true, none) else (false, none)

/-- Loop over the children of a directory in `Ssg.collect`. -/
def collectLoop (env : Env) (path : GoString) : List DirEntry → Ssg → Ssg × Option GoError
  | [], s => (s, none)
  | child :: rest, s =>
    let base := child.name
    let pathChild := env.Join path base
    if base = MarkerHeader then
      match env.ReadFile pathChild with
      | .error err => (s, some err)
      | .ok data =>
        match s.headers.add path { Buffer := data, titleFrom := GetTitleFrom data } with
        | (hs, some err) => ({ s with headers := hs }, some err)
        | (hs, none) => collectLoop env path rest { s with headers := hs }
    else if base = MarkerFooter then
      match env.ReadFile pathChild with
      | .error err => (s, some err)
      | .ok data =>
        match s.footers.add path data with
        | (fs, some err) => ({ s with footers := fs }, some err)
        | (fs, none) => collectLoop env path rest { s with footers := fs }
    else if Ext base ≠ str ".html" then collectLoop env path rest s
    else
      match s.preferred.Insert pathChild with
      | (pref, true) =>
        ({ s with preferred := pref }, some (other (str "duplicate html file " ++ path)))
      | (pref, false) => collectLoop env path rest { s with preferred := pref }

/-- Method `Ssg.collect` of ssg.go. -/
def Ssg.collect (env : Env) (s : Ssg) (path : GoString) : Ssg × Option GoError :=
  match env.ReadDir path with
  | .error err => (s, some err)
  | .ok children => collectLoop env path children s

/-- The outcome of the loop over the pipelines in `Ssg.walk`: the current path, data and
entry when the loop is left, and the flag `skipCore`. -/
structure ChainState where
  path : GoString
  data : Bytes
  d : DirEntry
  skipCore : Bool

/-- Loop over `s.options.pipelines` in `Ssg.walk`, from index `i`; an error is the
value returned by the `return` inside the loop. -/
def runPipelines : List Pipeline → Nat → GoString → Bytes → DirEntry → Except GoError ChainState
  | [], _, path, data, d => .ok { path := path, data := data, d := d, skipCore := false }
  | p :: rest, i, path, data, d =>
    match p path data d with
    | (path, data, d, none) => runPipelines rest (i + 1) path data d
    | (path, data, d, some err) =>
      if errorsIs err ErrSkipCore then
        .ok { path := path, data := data, d := d, skipCore := true }
      else if errorsIs err ErrBreakPipelines then
        .ok { path := path, data := data, d := d, skipCore := false }
      else .error (wrap (str "[pipeline " ++ fmtInt i ++ str "] error: ") err)

/-- Method `Ssg.walk` of build.go: the builder after the call and the returned error. -/
def Ssg.walk (env : Env) (s : Ssg) (path : GoString) (d : DirEntry) (err : Option GoError) :
    Ssg × Option GoError :=
  match err with
  | some err => (s, some err)
  | none =>
    if d.isDir then s.collect env path
    else
      let base := Base path
      match shouldIgnore env s.ssgignores path base d with
      | (_, some err) => (s, some err)
      | (true, none) => (s, none)
      | (false, none) =>
        if base = MarkerHeader ∨ base = MarkerFooter ∨ base = SsgIgnore then (s, none)
        else
          match env.ReadFile path with
          | .error err => (s, some err)
          | .ok data =>
            let s := { s with result := { s.result with files := s.result.files ++ [path] } }
            match runPipelines s.options.pipelines 0 path data d with
            | .error err => (s, some err)
            | .ok st =>
              if st.skipCore then (s, none)
              else
                match s.core env st.path st.data st.d with
                | .error err => (s, some (wrap (str "core error: ") err))
                | .ok output => ({ s with result := s.result.Add [output] }, none)

/-! ## The directory walk (`filepath.WalkDir`) and `build` -/

/-- Go `fs.ModeDir` (bit 31). -/
def ModeDir : Nat := 2 ^ 31

/-- Go `fs.FileInfoToDirEntry`. -/
def FileInfoToDirEntry (info : FileInfo) : DirEntry :=
  { name := info.name, isDir := info.mode &&& ModeDir != 0, info := .ok info }

/-- The error a `walkDir` call returns once its callback has returned `err`: a `SkipDir`
from a directory counts as success. -/
def afterCallback (d : DirEntry) (err : GoError) : Option GoError :=
  if err = SkipDir ∧ d.isDir = true then none else some err

/-- Loop of `walkDir` over the entries of a directory; `recur` is `walkDir` itself.  The
result is `none` when the recursion budget is used up. -/
def walkChildren {σ : Type} (env : Env)
    (recur : GoString → DirEntry → σ → Option (σ × Option GoError)) (path : GoString) :
    List DirEntry → σ → Option (σ × Option GoError)
  | [], s => some (s, none)
  | d1 :: rest, s =>
    match recur (env.Join path d1.name) d1 s with
    | none => none
    | some (s, none) => walkChildren env recur path rest s
    | some (s, some err) => if err = SkipDir then some (s, none) else some (s, some err)

/-- Go `filepath.walkDir` with the callback `fn` acting on a state; the first argument
bounds the depth of the recursion, and the result is `none` when it is used up. -/
def walkDir {σ : Type} (env : Env)
    (fn : σ → GoString → DirEntry → Option GoError → σ × Option GoError) :
    Nat → GoString → DirEntry → σ → Option (σ × Option GoError)
  | 0, _, _, _ => none
  | fuel + 1, path, d, s =>
    match fn s path d none with
    | (s, some err) => some (s, afterCallback d err)
    | (s, none) =>
      if d.isDir = false then some (s, none)
      else
        match env.ReadDir path with
        | .error err =>
          match fn s path d (some err) with
          | (s, some err) => some (s, afterCallback d err)
          | (s, none) => some (s, none)
        | .ok dirs => walkChildren env (walkDir env fn fuel) path dirs s

/-- Go `filepath.WalkDir`. -/
def WalkDir {σ : Type} (env : Env)
    (fn : σ → GoString → DirEntry → Option GoError → σ × Option GoError)
    (fuel : Nat) (root : GoString) (s : σ) : Option (σ × Option GoError) :=
  let walked :=
    match env.Lstat root with
    | .error err =>
      some (fn s root { name := [], isDir := false, info := .error err } (some err))
    | .ok info => walkDir env fn fuel root (FileInfoToDirEntry info) s
  match walked with
  | none => none
  | some (s, some err) => if err = SkipDir ∨ err = SkipAll then some (s, none) else some (s, some err)
  | some (s, none) => some (s, none)

/-- Function `build` of build.go: the builder after the call and the three returned
values (a `nil` slice is the empty list).  The result is `none` when the depth bound of
the walk is used up. -/
def build (env : Env) (fuel : Nat) (s : Ssg) (o : Option (List OutputFile)) :
    Option (Ssg × List GoString × List OutputFile × Option GoError) :=
  let s := { s with result :=
    { cacheOutput := s.options.caching, writer := o, files := [], cache := [] } }
  match WalkDir env (fun s path d err => s.walk env path d err) fuel s.Src s with
  | none => none
  | some (s, some err) => some (s, [], [], some err)
  | some (s, none) => some (s, s.result.files, s.result.cache, none)

/-! ## Specification vocabulary for `choose` -/

/-- The segments of a path: its pieces between the separators "/". -/
def segments (p : GoString) : List GoString :=
  Split p (str "/")

/-- A stored key `k` is a candidate for the path `p` when the segments of `p` and of `k`
are equal at every index below the smaller of the two segment counts. -/
def isCandidate (p k : GoString) : Prop :=
  ∀ i, i < min (segments p).length (segments k).length → (segments p)[i]? = (segments k)[i]?

instance (p k : GoString) : Decidable (isCandidate p k) := by
  unfold isCandidate
  infer_instance

/-- The contract of `choose`, with the length of a key measured by `size`: an exact key
wins; otherwise the value of a candidate of greatest size is returned; otherwise the
default. -/
def ChooseContract {T : Type} (size : GoString → Nat) (p : GoString) (v0 : T) (m : GoMap T) : Prop :=
  (∀ v, m.get p = some v → choose p v0 m = v) ∧
  (m.get p = none → (∃ e ∈ m, isCandidate p e.1) →
    ∃ e ∈ m, isCandidate p e.1 ∧ choose p v0 m = e.2 ∧
      ∀ e' ∈ m, isCandidate p e'.1 → size e'.1 ≤ size e.1) ∧
  (m.get p = none → (¬ ∃ e ∈ m, isCandidate p e.1) → choose p v0 m = v0)

/-- The store of the test `TestPerDir`: four `add` calls on an empty store with default 0. -/
def testPerDirStore : perDir Nat :=
  ((((newPerDir 0).add (str "/1") 1).1.add (str "/1/2") 2).1.add (str "/10/20") 20).1.add
    (str "/10/20/30") 30 |>.1

/-! ## Specification vocabulary for the walk and `core` -/

deriving instance DecidableEq for Except
deriving instance DecidableEq for DirEntry

/-- A file entry that `walk` reads and hands to the chain: it is not a directory, it is
not ignored, it is none of the marker files, and reading it gives `data`. -/
def Visited (env : Env) (s : Ssg) (path : GoString) (d : DirEntry) (data : Bytes) : Prop :=
  d.isDir = false ∧ shouldIgnore env s.ssgignores path (Base path) d = (false, none) ∧
  Base path ≠ MarkerHeader ∧ Base path ≠ MarkerFooter ∧ Base path ≠ SsgIgnore ∧
  env.ReadFile path = .ok data

/-- The builder once `path` has been recorded among the input files. -/
def recordInput (s : Ssg) (path : GoString) : Ssg :=
  { s with result := { s.result with files := s.result.files ++ [path] } }

/-- One invocation of `core` on the triple `t` followed by the hand-over of its output
to the sink, as the end of `walk` does it. -/
def coreStep (env : Env) (s : Ssg) (t : GoString × Bytes × DirEntry) : Ssg × Option GoError :=
  match s.core env t.1 t.2.1 t.2.2 with
  | .error err => (s, some (wrap (str "core error: ") err))
  | .ok output => ({ s with result := s.result.Add [output] }, none)

/-- Stages applied in registration order, each to the triple returned by the stage before
it, as long as every one of them returns no error: the triple returned by the last. -/
def threadStages : List Pipeline → GoString × Bytes × DirEntry → Option (GoString × Bytes × DirEntry)
  | [], t => some t
  | p :: rest, t =>
    match p t.1 t.2.1 t.2.2 with
    | (path, data, d, none) => threadStages rest (path, data, d)
    | (_, _, _, some _) => none

/-- The header text written in front of a converted page: the header template after the
title substitution of its mode. -/
def convertedHeader (title : Bytes) (h : header) (md : Bytes) : Bytes :=
  match h.titleFrom with
  | TitleFromNone => h.Buffer
  | TitleFromH1 => AddTitleFromH1 title h.Buffer md
  | TitleFromTag => (AddTitleFromTag title h.Buffer md).1

/-- The Markdown that is rendered for a converted page: the body returned by
`AddTitleFromTag` in mode FromTag, the Markdown itself otherwise. -/
def convertedBody (title : Bytes) (h : header) (md : Bytes) : Bytes :=
  match h.titleFrom with
  | TitleFromTag => (AddTitleFromTag title h.Buffer md).2
  | _ => md

/-! ## A sample source tree -/

/-- Behaviour of `filepath.Rel(src, path)` for clean paths with `path` below `src`. -/
def relBelow (src path : GoString) : Except GoError GoString :=
  if HasPrefix path (src ++ str "/") then .ok (path.drop (len src + 1))
  else .error (other (str "Rel: can't make " ++ path ++ str " relative to " ++ src))

/-- Behaviour of `filepath.Join(a, b)` for clean, non-empty relative paths. -/
def joinClean (a b : GoString) : GoString :=
  a ++ str "/" ++ b

def fooHtml : Bytes := str "<p>hand-written</p>\n"
def fooMd : Bytes := str "# Foo\n"
def styleCss : Bytes := str "body {}\n"

/-- Directory entry of a regular file with mode 0644. -/
def fileEntry (name : GoString) : DirEntry :=
  { name := name, isDir := false, info := .ok { name := name, mode := 0o644 } }

/-- Directory entry of the source root. -/
def srcEntry : DirEntry :=
  { name := str "src", isDir := true, info := .ok { name := str "src", mode := 2 ^ 31 + 0o755 } }

/-- A source directory `src` that holds `foo.html`, `foo.md` and `style.css`; the renderer
is a stand-in that wraps its input in a paragraph. -/
def fooEnv : Env :=
  { Rel := relBelow
    Join := joinClean
    markdownRender := fun md => str "<p>" ++ md ++ str "</p>"
    ReadDir := fun p =>
      if p = str "src" then
        .ok [fileEntry (str "foo.html"), fileEntry (str "foo.md"), fileEntry (str "style.css")]
      else .error (notExist (str "open: no such file or directory"))
    ReadFile := fun p =>
      if p = str "src/foo.html" then .ok fooHtml
      else if p = str "src/foo.md" then .ok fooMd
      else if p = str "src/style.css" then .ok styleCss
      else .error (notExist (str "open: no such file or directory"))
    Stat := fun p => .ok { name := Base p, mode := 0o644 }
    Lstat := fun p =>
      if p = str "src" then .ok { name := str "src", mode := 2 ^ 31 + 0o755 }
      else .ok { name := Base p, mode := 0o644 }
    CompileIgnoreFile := fun _ => .error (notExist (str "open: no such file or directory")) }

/-- The builder that `Build("src", "dst", "Site", "https://example.com", nil)` starts
from: no hooks, no stages, caching enabled, no `.ssgignore`. -/
def fooSsg : Ssg :=
  { Src := str "src"
    Dst := str "dst"
    Title := str "Site"
    Url := str "https://example.com"
    options := { hooks := [], hookGenerate := [], pipelines := [], caching := true, writers := 0 }
    ssgignores := fun _ => false
    headers := newHeaders HeaderDefault
    footers := newFooters FooterDefault
    preferred := []
    result := { cacheOutput := true, writer := none, files := [], cache := [] } }

/-- A stage that appends the byte `b` to the data and continues. -/
def stageAppend (b : Nat) : Pipeline :=
  fun path data d => (path, data ++ [b], d, none)

/-- A stage that renames the file and returns `ErrBreakPipelines`. -/
def stageBreak : Pipeline :=
  fun path data d => (path ++ str ".txt", data ++ [33], d, some ErrBreakPipelines)

/-- A stage that returns `ErrSkipCore` wrapped with a message. -/
def stageSkip : Pipeline :=
  fun path data d => (path, data, d, some (wrap (str "skipped: ") ErrSkipCore))

/-! ## Specification vocabulary for the directory walk and `build` -/

/-- The callback `build` hands to `filepath.WalkDir`: the method value `s.walk`. -/
def walkFn (env : Env) : Ssg → GoString → DirEntry → Option GoError → Ssg × Option GoError :=
  fun s path d err => s.walk env path d err

/-- The builder as `build` resets it before the walk. -/
def resetResult (s : Ssg) (o : Option (List OutputFile)) : Ssg :=
  { s with result := { cacheOutput := s.options.caching, writer := o, files := [], cache := [] } }

/-- Every entry of `entries` has been walked by `recur` without an error: the state
after the last of them. -/
def walkedAll {σ : Type} (env : Env)
    (recur : GoString → DirEntry → σ → Option (σ × Option GoError)) (path : GoString) :
    List DirEntry → σ → Option σ
  | [], s => some s
  | d1 :: rest, s =>
    match recur (env.Join path d1.name) d1 s with
    | some (s, none) => walkedAll env recur path rest s
    | _ => none

/-- The walk started at `(path, d)` in state `s` comes to call the callback on
`(path', d')` in state `s'`: either at once, or below the directory `(path, d)` after the
callback accepted it and every earlier entry of the directory was walked without error. -/
inductive Reaches {σ : Type} (env : Env)
    (fn : σ → GoString → DirEntry → Option GoError → σ × Option GoError) :
    Nat → GoString → DirEntry → σ → GoString → DirEntry → σ → Prop where
  | start (fuel : Nat) (path : GoString) (d : DirEntry) (s : σ) :
      Reaches env fn (fuel + 1) path d s path d s
  | descend (fuel : Nat) (path : GoString) (d : DirEntry) (s s2 : σ)
      (earlier later : List DirEntry) (c : DirEntry) (path' : GoString) (d' : DirEntry) (s' : σ) :
      (fn s path d none).2 = none → d.isDir = true →
      env.ReadDir path = .ok (earlier ++ c :: later) →
      walkedAll env (walkDir env fn fuel) path earlier (fn s path d none).1 = some s2 →
      Reaches env fn fuel (env.Join path c.name) c s2 path' d' s' →
      Reaches env fn (fuel + 1) path d s path' d' s'

/-- A sequence of `Add` calls on a sink, one list of outputs per call. -/
def addAll (b : buildOutput) (calls : List (List OutputFile)) : buildOutput :=
  calls.foldl buildOutput.Add b

/-- Simple hooks that always succeed, applied in order to `data` for the file `path`. -/
def applyHooks (path : GoString) (hs : List (GoString → Bytes → Bytes)) (data : Bytes) : Bytes :=
  hs.foldl (fun acc h => h path acc) data

/-- A stage that fails with an error of its own. -/
def stageFail : Pipeline :=
  fun path data d => (path, data, d, some (other (str "boom")))

/-- The sample builder with one stage, which fails. -/
def failingSsg : Ssg :=
  { fooSsg with options := { fooSsg.options with pipelines := [stageFail] } }

/-- A hook that appends the byte `b`. -/
def hookAppend (b : Nat) : Hook :=
  fun _ data => .ok (data ++ [b])

/-- A hook that fails. -/
def hookFail : Hook :=
  fun _ _ => .error (other (str "bad hook"))

/-! ## Specification vocabulary for the title functions -/

/-- The text made of the lines `ls`, each followed by a newline. -/
def joinLines (ls : List Bytes) : Bytes :=
  (ls.map (fun l => l ++ [10])).flatten

/-- The lines `ls` come before the first line that begins with `key`, and the scanner
reads them: each is free of newlines, does not begin with `key` and is shorter than the
scanner's buffer. -/
def LinesBefore (key : Bytes) (ls : List Bytes) : Prop :=
  ∀ l ∈ ls, 10 ∉ l ∧ HasPrefix l key = false ∧ l.length < MaxScanTokenSize

/-- The remainder `t` of a line `key ++ t` from which the title functions take a title:
it is free of newlines, `key` does not occur in it again and the line is shorter than
the scanner's buffer. -/
def TitleRest (key t : Bytes) : Prop :=
  10 ∉ t ∧ ¬ key <:+: t ∧ (key ++ t).length < MaxScanTokenSize

/-- What follows a line: the end of the text or a newline. -/
def LineEnd (tail : Bytes) : Prop :=
  tail = [] ∨ tail.head? = some 10

instance (key : Bytes) (ls : List Bytes) : Decidable (LinesBefore key ls) := by
  unfold LinesBefore
  infer_instance

instance (key t : Bytes) : Decidable (TitleRest key t) := by
  unfold TitleRest
  infer_instance

instance (tail : Bytes) : Decidable (LineEnd tail) := by
  unfold LineEnd
  infer_instance

/-- No line of the text `md` begins with `key`. -/
def NoLineBegins (key md : Bytes) : Prop :=
  ∀ l ∈ Split md (str "\n"), HasPrefix l key = false

instance (key md : Bytes) : Decidable (NoLineBegins key md) := by
  unfold NoLineBegins
  infer_instance

/-- The text `out` is `s` with the first occurrence of `old` replaced by `new`, every
other byte unchanged; it is `s` itself when `old` does not occur in `s`. -/
def FirstReplaced (s old new out : Bytes) : Prop :=
  (¬ old <:+: s ∧ out = s) ∨
  ∃ p q, s = p ++ old ++ q ∧ ¬ old <:+: p ++ old.dropLast ∧ out = p ++ new ++ q

/-- Every way of inserting `a` into a list. -/
def insertAll {α : Type} (a : α) : List α → List (List α)
  | [] => [[a]]
  | b :: l => (a :: b :: l) :: (insertAll a l).map (fun r => b :: r)

/-- Every iteration order of a list of entries. -/
def orders {α : Type} : List α → List (List α)
  | [] => [[]]
  | a :: l => (orders l).flatMap (insertAll a)

/-! ## Paths (`path/filepath`, Unix) -/

/-- One element `e` of a path as `filepath.Clean` processes it; `stack` holds the elements
kept so far, the last one first.  Empty elements and "." are dropped; ".." removes the
element before it, is dropped at the root and is kept at the start of a relative path. -/
def cleanStep (rooted : Bool) (stack : List GoString) (e : GoString) : List GoString :=
  if e = [] ∨ e = str "." then stack
  else if e = str ".." then
    match stack with
    | top :: rest => if top = str ".." then e :: stack else rest
    | [] => if rooted then [] else [e]
  else e :: stack

/-- Go `filepath.Clean` (Unix). -/
def Clean (path : GoString) : GoString :=
  if path = [] then str "."
  else
    let rooted := path.head? = some 47
    let stack := (Split path (str "/")).foldl (cleanStep rooted) []
    let out := (if rooted then str "/" else []) ++ (str "/").intercalate stack.reverse
    if out = [] then str "." else out

/-- Go `filepath.Dir` (Unix): the path up to its last separator, cleaned. -/
def Dir (path : GoString) : GoString :=
  Clean (path.reverse.dropWhile (fun c => c ≠ 47)).reverse

/-! ## Getters of `OutputFile` (common.go) -/

/-- Method `OutputFile.Target` of common.go. -/
def OutputFile.Target (o : OutputFile) : GoString :=
  o.target

/-- Method `OutputFile.Originator` of common.go. -/
def OutputFile.Originator (o : OutputFile) : GoString :=
  o.originator

/-- Method `OutputFile.Data` of common.go. -/
def OutputFile.Data (o : OutputFile) : Bytes :=
  o.data

/-! ## Options and constructors (options.go, ssg.go) -/

/-- Type `Option` of options.go: an option is represented by the effect of one call of a
newly created option on the builder. -/
abbrev BuilderOption := Ssg → Ssg

/-- Function `Caching` of options.go. -/
def Caching (b : Bool) : BuilderOption :=
  fun s => { s with options := { s.options with caching := b } }

/-- Function `Writers` of options.go. -/
def Writers (u : Nat) : BuilderOption :=
  fun s => { s with options := { s.options with writers := u } }

/-- Function `WithHooks` of options.go. -/
def WithHooks (hooks : List Hook) : BuilderOption :=
  fun s => { s with options := { s.options with hooks := s.options.hooks ++ hooks } }

/-- One call of the closure returned by `PrependHooks` of options.go, whose captured
variable holds `hooks`: the captured variable and the builder after the call. -/
def PrependHooks.call (hooks : List Hook) (s : Ssg) : List Hook × Ssg :=
  let hooks := hooks ++ s.options.hooks
  (hooks, { s with options := { s.options with hooks := hooks } })

/-- Function `PrependHooks` of options.go, called once. -/
def PrependHooks (hooks : List Hook) : BuilderOption :=
  fun s => (PrependHooks.call hooks s).2

/-- Function `WithHooksGenerate` of options.go. -/
def WithHooksGenerate (hooks : List HookGenerate) : BuilderOption :=
  fun s => { s with options := { s.options with hookGenerate := s.options.hookGenerate ++ hooks } }

/-- Method `Ssg.With` of ssg.go. -/
def Ssg.With (s : Ssg) (opts : List BuilderOption) : Ssg :=
  opts.foldl (fun s opt => opt s) s

/-- Method `gitIgnorer.Ignore` of ssg.go; `none` is the nil pointer, a matcher is the
method `MatchesPath` of the compiled ignore file. -/
def gitIgnorer.Ignore (i : Option (GoString → Bool)) (path : GoString) : Bool :=
  match i with
  | none => false
  | some matchesPath => matchesPath path

/-- Function `ParseSsgIgnore` of ssg.go. -/
def ParseSsgIgnore (env : Env) (path : GoString) : Except GoError (Option (GoString → Bool)) :=
  match env.CompileIgnoreFile path with
  | .error err =>
    if IsNotExist err then .ok none
    else .error (wrap (str "failed to parse ssgignore at " ++ path ++ str ": ") err)
  | .ok ignores => .ok (some ignores)

/-- Function `prepare` of ssg.go. -/
def prepare (env : Env) (src dst : GoString) : Except GoError (Option (GoString → Bool)) :=
  if src = [] then .error (other (str "empty src"))
  else if dst = [] then .error (other (str "empty dst"))
  else if src = dst then .error (other (str "src is identical to dst: '" ++ src ++ str "'"))
  else ParseSsgIgnore env (env.Join src SsgIgnore)

/-- Function `New` of ssg.go; an error is the value `New` panics with. -/
def New (env : Env) (src dst title url : GoString) : Except GoError Ssg :=
  let src := Clean src
  let dst := Clean dst
  match prepare env src dst with
  | .error err => .error err
  | .ok ignores =>
    .ok
      { Src := src
        Dst := dst
        Title := title
        Url := url
        options := { hooks := [], hookGenerate := [], pipelines := [], caching := false, writers := 0 }
        ssgignores := gitIgnorer.Ignore ignores
        headers := newHeaders HeaderDefault
        footers := newFooters FooterDefault
        preferred := []
        result := { cacheOutput := false, writer := none, files := [], cache := [] } }

/-- Function `NewWithOptions` of ssg.go. -/
def NewWithOptions (env : Env) (src dst title url : GoString) (opts : List BuilderOption) :
    Except GoError Ssg :=
  match New env src dst title url with
  | .error err => .error err
  | .ok s => .ok (s.With opts)

/-- Function `Build` of ssg.go; an error is the value the constructor panics with, and
the result of `build` is `none` when the depth bound of the walk is used up. -/
def Build (env : Env) (fuel : Nat) (src dst title url : GoString)
    (outputs : Option (List OutputFile)) (opts : List BuilderOption) :
    Except GoError (Option (Ssg × List GoString × List OutputFile × Option GoError)) :=
  let withCachePrepended := [Caching true] ++ opts
  match NewWithOptions env src dst title url withCachePrepended with
  | .error err => .error err
  | .ok s => .ok (build env fuel s outputs)

/-! ## Metadata (metadata.go) -/

/-- The text `Sitemap` starts its buffer with. -/
def sitemapHead : GoString :=
  str "<?xml version=\"1.0\" encoding=\"UTF-8\"?>\n<urlset\nxmlns:xsi=\"https://www.w3.org/2001/XMLSchema-instance\"\nxsi:schemaLocation=\"https://www.sitemaps.org/schemas/sitemap/0.9\nhttps://www.sitemaps.org/schemas/sitemap/0.9/sitemap.xsd\"\nxmlns=\"https://www.sitemaps.org/schemas/sitemap/0.9\">\n"

/-- Loop of `Sitemap` over the outputs; `sm` is the buffer. -/
def sitemapLoop (env : Env) (dst url dateStr : GoString) :
    List OutputFile → GoString → GoString × Option GoError
  | [], sm => (sm ++ str "</urlset>\n", none)
  | o :: rest, sm =>
    match env.Rel dst o.target with
    | .error err => (sm, some err)
    | .ok target =>
      let sm := sm ++ str "<url><loc>" ++ url ++ str "/"
      let base := Base target
      let sm :=
        if base = str "index.html" then
          let d := Dir target
          if d ≠ str "." then sm ++ d ++ str "/" else sm
        else sm ++ target
      sitemapLoop env dst url dateStr rest
        (sm ++ str "><lastmod>" ++ dateStr ++ str "</lastmod><priority>1.0</priority></url>\n")

/-- Function `Sitemap` of metadata.go; `dateStr` is `modTime.Format(time.DateOnly)`, the
date as YYYY-MM-DD. -/
def Sitemap (env : Env) (dst url dateStr : GoString) (outputs : List OutputFile) :
    GoString × Option GoError :=
  sitemapLoop env dst url dateStr outputs sitemapHead

/-- Loop of `DotFiles` over the input files; `list` is the buffer. -/
def dotFilesLoop (env : Env) (src : GoString) : List GoString → GoString → Except GoError GoString
  | [], list => .ok list
  | f :: rest, list =>
    match env.Rel src f with
    | .error err => .error err
    | .ok rel => dotFilesLoop env src rest (list ++ str "./" ++ rel ++ str "\n")

/-- Function `DotFiles` of metadata.go, for non-empty file names (the function panics on
an empty one). -/
def DotFiles (env : Env) (src : GoString) (files : List GoString) : Except GoError GoString :=
  dotFilesLoop env src files []

/-! ## Sample trees with a hidden directory and with a file named like a marker -/

/-- Directory entry of a directory with mode 0755. -/
def dirEntry (name : GoString) : DirEntry :=
  { name := name, isDir := true, info := .ok { name := name, mode := 2 ^ 31 + 0o755 } }

def gitConfig : Bytes := str "[core]\n"

/-- A source directory `src` whose only entry is the hidden directory `.git`, which holds
the file `config`. -/
def hiddenEnv : Env :=
  { fooEnv with
    ReadDir := fun p =>
      if p = str "src" then .ok [dirEntry (str ".git")]
      else if p = str "src/.git" then .ok [fileEntry (str "config")]
      else .error (notExist (str "open: no such file or directory"))
    ReadFile := fun p =>
      if p = str "src/.git/config" then .ok gitConfig
      else .error (notExist (str "open: no such file or directory")) }

/-- A source directory `src` whose only entry is the Markdown file `_header.md`. -/
def headerMdEnv : Env :=
  { fooEnv with
    ReadDir := fun p =>
      if p = str "src" then .ok [fileEntry (str "_header.md")]
      else .error (notExist (str "open: no such file or directory"))
    ReadFile := fun p =>
      if p = str "src/_header.md" then .ok (str "# Head\n")
      else .error (notExist (str "open: no such file or directory")) }

/-- The base name of a path is none of the names the walk passes over: it is neither
marker, and it does not begin with a dot (which covers the ignore file). -/
def NotMarker (path : GoString) : Prop :=
  Base path ≠ MarkerHeader ∧ Base path ≠ MarkerFooter ∧ Base path ≠ SsgIgnore ∧
  HasPrefix (Base path) (str ".") = false

instance (path : GoString) : Decidable (NotMarker path) := by
  unfold NotMarker
  infer_instance

/-! ## The concurrent writer (`WriteOut` of ssg_generate.go)

`WriteOut` is embedded as a transition system.  The goroutine that runs `WriteOut`
itself is "main"; each streamed item gets a goroutine of its own, a "worker".  The stream
delivers the items of a list and is then closed.  The outcome of `os.MkdirAll` followed
by `os.WriteFile` for an item is given by a function `write`. -/

/-- Structure `errorWrite` of common.go. -/
structure errorWrite where
  err : GoError
  target : GoString
  originator : GoString
  deriving DecidableEq, Repr

/-- Method `errorWrite.Error` of common.go. -/
def errorWrite.Error (e : errorWrite) : GoString :=
  str "WriteError(target='" ++ e.target ++ str "',originator='" ++ e.originator ++ str "'): " ++
    e.err.Error

/-- Where the goroutine started for one item stands: before `os.MkdirAll` and
`os.WriteFile`, or blocked in the send `errs <- errorWrite` after one of them failed.  A
goroutine that has run its deferred function (`<-guard`, `wg.Done()`) is gone. -/
inductive Worker where
  | writing (w : OutputFile)
  | sending (e : errorWrite)
  deriving DecidableEq, Repr

/-- Where main stands: at the head of `for w := range stream`, at `guard <- struct` with
the item `w` received, in `for err := range errs`, or returned with the metadata (`none`
is the nil slice) and the errors that were joined (no error when there is none). -/
inductive Main where
  | ranging
  | acquiring (w : OutputFile)
  | collecting
  | returned (written : Option (List OutputFile)) (joined : List errorWrite)
  deriving DecidableEq, Repr

/-- The state of a call of `WriteOut`: the items the stream has yet to deliver, the writer
count, main, the number of values held by the channel `guard`, the workers that have not
finished (the counter of `wg` is their number), the variables `written` and `wErrs`, and
the outputs for which `os.MkdirAll` and `os.WriteFile` have succeeded since the call began,
in the order of the writes. -/
structure WriteOutState where
  stream : List OutputFile
  concurrent : Nat
  main : Main
  guard : Nat
  workers : List Worker
  written : List OutputFile
  wErrs : List errorWrite
  disk : List OutputFile
  deriving DecidableEq, Repr

/-- The state in which `WriteOut(stream, concurrent)` enters its loop. -/
def WriteOut.start (stream : List OutputFile) (concurrent : Nat) : WriteOutState :=
  { stream := stream
    concurrent := if concurrent = 0 then 1 else concurrent
    main := Main.ranging
    guard := 0
    workers := []
    written := []
    wErrs := []
    disk := [] }

/-- The steps main can take.  At the head of the loop it receives the next item, or
leaves the loop when the stream is closed.  With an item in hand it puts a value into
`guard` when there is room and starts the worker.  After the loop it returns once every
worker has finished, which is when `errs` is closed. -/
def WriteOut.mainSteps (st : WriteOutState) : List WriteOutState :=
  match st.main with
  | Main.ranging =>
    match st.stream with
    | w :: rest => [{ st with stream := rest, main := Main.acquiring w }]
    | [] => [{ st with main := Main.collecting }]
  | Main.acquiring w =>
    if st.guard < st.concurrent then
      [{ st with main := Main.ranging, guard := st.guard + 1,
                 workers := st.workers ++ [Worker.writing w] }]
    else []
  | Main.collecting =>
    if st.workers = [] then
      [{ st with main :=
          if 0 < st.wErrs.length then Main.returned none st.wErrs
          else Main.returned (some st.written) [] }]
    else []
  | Main.returned _ _ => []

/-- The step the worker at position `i` can take.  A worker about to write either fails
and goes on to send its error, or succeeds, which puts its item on the disk, appends the
metadata of its item to `written` and finishes, taking a value out of `guard`.  A worker that sends its error gets through
only while main receives from `errs`, the channel having no buffer; it then finishes. -/
def WriteOut.workerSteps (write : OutputFile → Option GoError) (st : WriteOutState) (i : Nat) :
    List WriteOutState :=
  match st.workers.get? i with
  | none => []
  | some (Worker.writing w) =>
    match write w with
    | some err =>
      [{ st with workers :=
          st.workers.set i (Worker.sending { err := err, target := w.target, originator := w.originator }) }]
    | none =>
      [{ st with workers := st.workers.eraseIdx i, guard := st.guard - 1,
                 written := st.written ++ [Output w.target w.originator [] w.perm],
                 disk := st.disk ++ [w] }]
  | some (Worker.sending e) =>
    if st.main = Main.collecting then
      [{ st with workers := st.workers.eraseIdx i, guard := st.guard - 1,
                 wErrs := st.wErrs ++ [e] }]
    else []

/-- Every state one step of one goroutine away. -/
def WriteOut.step (write : OutputFile → Option GoError) (st : WriteOutState) : List WriteOutState :=
  WriteOut.mainSteps st ++ (List.range st.workers.length).flatMap (WriteOut.workerSteps write st)

/-- The states `n` steps away from `st`, one for each schedule. -/
def WriteOut.runs (write : OutputFile → Option GoError) : Nat → WriteOutState → List WriteOutState
  | 0, st => [st]
  | n + 1, st => (WriteOut.runs write n st).flatMap (WriteOut.step write)

/-- Whether main has returned. -/
def WriteOutState.hasReturned (st : WriteOutState) : Bool :=
  match st.main with
  | Main.returned _ _ => true
  | _ => false

/-- Two outputs for the stream, and a file system on which the first cannot be written. -/
def badOutput : OutputFile := Output (str "dst/a.html") (str "src/a.md") (str "a") 0o644

def goodOutput : OutputFile := Output (str "dst/b.html") (str "src/b.md") (str "b") 0o644

def failFirst (w : OutputFile) : Option GoError :=
  if w.target = str "dst/a.html" then some (other (str "permission denied")) else none

/-- The state in which main has the second item in hand and waits for room in `guard`,
while the worker of the first item holds the only value of `guard` and waits to send its
error. -/
def stuckState : WriteOutState :=
  { stream := []
    concurrent := 1
    main := Main.acquiring goodOutput
    guard := 1
    workers := [Worker.sending
      { err := other (str "permission denied"), target := str "dst/a.html",
        originator := str "src/a.md" }]
    written := []
    wErrs := []
    disk := [] }

/-- The state after the steps a schedule picks.  An entry of the schedule is the index,
among the steps the goroutines can take in the current state, of the step taken next; an
index that picks no step is passed over. -/
def WriteOut.exec (write : OutputFile → Option GoError) : List Nat → WriteOutState → WriteOutState
  | [], st => st
  | i :: rest, st =>
    match (WriteOut.step write st).get? i with
    | some next => WriteOut.exec write rest next
    | none => WriteOut.exec write rest st

/-- Function `WriteOut` of ssg_generate.go under a schedule: the returned metadata (`none`
is the nil slice), the errors that were joined (none when the returned error is nil), and
the outputs written to the disk, in the order of the writes.  The result is `none` when
`WriteOut` has not returned at the end of the schedule. -/
def WriteOut (write : OutputFile → Option GoError) (stream : List OutputFile) (concurrent : Nat)
    (sched : List Nat) : Option (Option (List OutputFile) × List errorWrite × List OutputFile) :=
  let st := WriteOut.exec write sched (WriteOut.start stream concurrent)
  match st.main with
  | Main.returned written joined => some (written, joined, st.disk)
  | _ => none

/-- Function `WriteOutSlice` of common.go under a schedule: the errors that were joined and
the outputs written to the disk.  Its loop, its channels `guard` and `errs` and its
goroutines are those of `WriteOut`, with the slice in the place of the stream and without
the variable `written`. -/
def WriteOutSlice (write : OutputFile → Option GoError) (writes : List OutputFile)
    (concurrent : Nat) (sched : List Nat) : Option (List errorWrite × List OutputFile) :=
  (WriteOut write writes concurrent sched).map (fun r => r.2)

/-- The error `errors.Join(wErrs...)` of a non-empty list of write errors. -/
def joinWrites : List errorWrite → GoError
  | [] => other []
  | [e] => other e.Error
  | e :: rest => join (other e.Error) (joinWrites rest)

/-! ## The iteration order of the stores

Go leaves the order in which `range` visits the entries of a map open.  The order in
which `choose` meets the entries of the header and footer stores is made a parameter: an
order function gives, for the entries of a store, the sequence in which they are visited. -/

/-- An order function returns the entries it is given, in some order. -/
def IsOrder {T : Type} (f : GoMap T → GoMap T) : Prop :=
  ∀ m, (f m).Perm m

/-- The order that visits the entries with the key `k` after all others. -/
def visitLast {T : Type} (k : GoString) : GoMap T → GoMap T :=
  fun m => m.filter (fun e => e.1 ≠ k) ++ m.filter (fun e => e.1 = k)

/-- The builder `s` with the entries `hv` and `fv` in its header and footer stores. -/
def Ssg.withStores (s : Ssg) (hv : GoMap header) (fv : GoMap Bytes) : Ssg :=
  { s with headers := { s.headers with values := hv }
           footers := { s.footers with values := fv } }

/-- The builder with the entries of its header and footer stores in the orders `oh` and
`ofn` visit them. -/
def Ssg.reorder (oh : GoMap header → GoMap header) (ofn : GoMap Bytes → GoMap Bytes) (s : Ssg) :
    Ssg :=
  s.withStores (oh s.headers.values) (ofn s.footers.values)

/-- Function `build` of build.go when the entries of the stores are visited in the orders
`oh` and `ofn`. -/
def buildIn (env : Env) (oh : GoMap header → GoMap header) (ofn : GoMap Bytes → GoMap Bytes)
    (fuel : Nat) (s : Ssg) (o : Option (List OutputFile)) :
    Option (Ssg × List GoString × List OutputFile × Option GoError) :=
  let s := { s with result :=
    { cacheOutput := s.options.caching, writer := o, files := [], cache := [] } }
  match WalkDir env (fun s path d err => (s.reorder oh ofn).walk env path d err) fuel s.Src s with
  | none => none
  | some (s, some err) => some (s, [], [], some err)
  | some (s, none) => some (s, s.result.files, s.result.cache, none)

/-- A directory of the tree that is a candidate for the path of a file of the tree has no
more segments than that path: directories do not lie below files. -/
def DirsNotBelowFiles (env : Env) : Prop :=
  ∀ p k data l, env.ReadFile p = .ok data → env.ReadDir k = .ok l → isCandidate p k →
    (segments k).length ≤ (segments p).length

/-- The stages leave the path as it is. -/
def KeepPath (stages : List Pipeline) : Prop :=
  ∀ p ∈ stages, ∀ path data d, (p path data d).1 = path

/-- The keys of a store are pairwise different directories of the tree. -/
def KeysOk {T : Type} (env : Env) (m : GoMap T) : Prop :=
  (m.map Prod.fst).Nodup ∧ ∀ k ∈ m.map Prod.fst, ∃ l, env.ReadDir k = .ok l

/-- The builder `t` is the builder `s` with the entries of its stores in another order;
the keys of the stores are pairwise different directories of the tree and the stages
leave the path as it is. -/
def SameUpToOrder (env : Env) (s t : Ssg) : Prop :=
  KeysOk env s.headers.values ∧ KeysOk env s.footers.values ∧ KeepPath s.options.pipelines ∧
  ∃ hv fv, hv.Perm s.headers.values ∧ fv.Perm s.footers.values ∧ t = s.withStores hv fv

/-- Two results of a walk agree: both use up the depth bound, or both return, with the
same error and states related by `R`. -/
def WalkRel {σ τ : Type} (R : σ → τ → Prop) :
    Option (σ × Option GoError) → Option (τ × Option GoError) → Prop
  | none, none => True
  | some a, some b => R a.1 b.1 ∧ a.2 = b.2
  | _, _ => False

/-- A source tree in which the directory `x.md` holds the directories `a` and `b`, each
with a header of its own, next to the file `z.md`. -/
def tieEnv : Env :=
  { fooEnv with
    ReadDir := fun p =>
      if p = str "src" then .ok [dirEntry (str "x.md"), fileEntry (str "z.md")]
      else if p = str "src/x.md" then .ok [dirEntry (str "a"), dirEntry (str "b")]
      else if p = str "src/x.md/a" then .ok [fileEntry (str "_header.html")]
      else if p = str "src/x.md/b" then .ok [fileEntry (str "_header.html")]
      else .error (notExist (str "open: no such file or directory"))
    ReadFile := fun p =>
      if p = str "src/x.md/a/_header.html" then .ok (str "<A>\n")
      else if p = str "src/x.md/b/_header.html" then .ok (str "<B>\n")
      else if p = str "src/z.md" then .ok (str "text\n")
      else .error (notExist (str "open: no such file or directory")) }

/-- A stage that files `src/z.md` under the path `src/x.md`. -/
def stageRename : Pipeline :=
  fun path data d => (if path = str "src/z.md" then str "src/x.md" else path, data, d, none)

/-- The sample builder with the stage `stageRename`. -/
def tieSsg : Ssg :=
  { fooSsg with options := { fooSsg.options with pipelines := [stageRename] } }

/-- A source tree with a header and a footer in the root and in the directory `a`: `src`
holds `_footer.html`, `_header.html`, the directory `a` and `index.md`, and `src/a` holds
`_footer.html`, `_header.html` and `page.md`. -/
def nestedEnv : Env :=
  { fooEnv with
    ReadDir := fun p =>
      if p = str "src" then
        .ok [fileEntry (str "_footer.html"), fileEntry (str "_header.html"), dirEntry (str "a"),
          fileEntry (str "index.md")]
      else if p = str "src/a" then
        .ok [fileEntry (str "_footer.html"), fileEntry (str "_header.html"),
          fileEntry (str "page.md")]
      else .error (notExist (str "open: no such file or directory"))
    ReadFile := fun p =>
      if p = str "src/_footer.html" then .ok (str "<f0>\n")
      else if p = str "src/_header.html" then .ok (str "<h0>\n")
      else if p = str "src/index.md" then .ok (str "index\n")
      else if p = str "src/a/_footer.html" then .ok (str "<f1>\n")
      else if p = str "src/a/_header.html" then .ok (str "<h1>\n")
      else if p = str "src/a/page.md" then .ok (str "page\n")
      else .error (notExist (str "open: no such file or directory")) }

/-- The sample builder with a stage that appends "!" to the data and leaves the path as it
is. -/
def nestedSsg : Ssg :=
  { fooSsg with options := { fooSsg.options with pipelines := [stageAppend 33] } }

/-! ## Metadata and the two ways of writing a site (metadata.go, ssg_generate.go) -/

/-- The call `sort.Slice(dist, ...)` of `Metadata`: the outputs in ascending order of
their targets, compared byte by byte.  `sort.Slice` is not stable: the order it leaves
between outputs of equal target is not fixed by the code, and here it is the order an
insertion sort leaves.  What `Metadata` returns depends on the targets only. -/
def sortByTarget (dist : List OutputFile) : List OutputFile :=
  dist.insertionSort (fun a b => a.target ≤ b.target)

/-- Function `Metadata` of metadata.go: the slice `dist` after the call, which sorts it in
place, and the returned values; `dateStr` is the formatted `srcModTime`. -/
def Metadata (env : Env) (src dst url : GoString) (files : List GoString)
    (dist : List OutputFile) (dateStr : GoString) :
    List OutputFile × Except GoError (List OutputFile) :=
  let dist := sortByTarget dist
  (dist,
    match DotFiles env src files with
    | .error err => .error err
    | .ok dotFiles =>
      match Sitemap env dst url dateStr dist with
      | (_, some err) => .error err
      | (sitemap, none) =>
        .ok [Output (env.Join dst (str "sitemap.xml")) [] sitemap 0o644,
             Output (env.Join dst (str ".files")) [] dotFiles 0o644])

/-! ## The destination tree -/

/-- The regular files of the destination: the bytes of the file at a path, if there is
one. -/
abbrev DestTree := GoString → Option Bytes

/-- The destination after `os.MkdirAll` and `os.WriteFile` have succeeded for the output
`w`. -/
def DestTree.write (t : DestTree) (w : OutputFile) : DestTree :=
  fun p => if p = w.target then some w.data else t p

/-- The destination after the writes `ws`, in order. -/
def DestTree.writeAll (t : DestTree) (ws : List OutputFile) : DestTree :=
  ws.foldl DestTree.write t

/-! ## The two modes -/

/-- Function `GenerateMetadata` of metadata.go under a schedule of its two writers: the
outputs written to the disk and the returned error.  The result is `none` when
`WriteOutSlice` has not returned at the end of the schedule. -/
def GenerateMetadata (env : Env) (write : OutputFile → Option GoError) (src dst url : GoString)
    (files : List GoString) (dist : List OutputFile) (dateStr : GoString) (sched : List Nat) :
    Option (List OutputFile × Option GoError) :=
  match (Metadata env src dst url files dist dateStr).2 with
  | .error err => some ([], some err)
  | .ok metadata =>
    match WriteOutSlice write metadata 2 sched with
    | none => none
    | some ([], disk) => some (disk, none)
    | some (e :: es, disk) => some (disk, some (joinWrites (e :: es)))

/-- Function `generate` of ssg_generate.go: the outputs written to the disk, in the order
of the writes, and the returned error; the destination the writes leave is given by
`DestTree.writeAll`.  The walk visits the entries of the header and footer stores in the
orders `oh` and `ofn`.  The stream is the writer handed to `Build`; it delivers to
`WriteOut` the outputs the walk has added, also when the walk fails later on, and is then
closed.  `sched` is the schedule of the goroutines of `WriteOut`, `schedMeta` that of the
writers of the metadata files, `write` the outcome of `os.MkdirAll` and `os.WriteFile` for
an output, and `dateStr` the formatted modification time of the source root.  The error
that wraps both a build error and a write error is given by its message.  The result is
`none` when the depth bound of the walk is used up or a writer has not returned at the end
of its schedule. -/
def generate (env : Env) (oh : GoMap header → GoMap header) (ofn : GoMap Bytes → GoMap Bytes)
    (fuel : Nat) (s : Ssg) (dateStr : GoString) (write : OutputFile → Option GoError)
    (sched schedMeta : List Nat) : Option (List OutputFile × Option GoError) :=
  match env.Stat s.Src with
  | .error err =>
    some ([], some (wrap (str "failed to stat src '" ++ s.Src ++ str "': ") err))
  | .ok _ =>
    match buildIn env oh ofn fuel s (some []) with
    | none => none
    | some (s, files, _, errBuild) =>
      match WriteOut write (s.result.writer.getD []) s.options.writers sched with
      | none => none
      | some (written, joined, disk) =>
        match errBuild, joined with
        | some errBuild, e :: es =>
          some (disk, some (other (str "streaming_build_error='" ++ errBuild.Error ++
            str "', streaming_write_error='" ++ (joinWrites (e :: es)).Error ++ str "'")))
        | some errBuild, [] => some (disk, some (wrap (str "streaming_build_error: ") errBuild))
        | none, e :: es =>
          some (disk, some (wrap (str "streaming_write_error: ") (joinWrites (e :: es))))
        | none, [] =>
          match GenerateMetadata env write s.Src s.Dst s.Url files (written.getD []) dateStr
            schedMeta with
          | none => none
          | some (diskMeta, err) => some (disk ++ diskMeta, err)

/-- The flow of the test `TestBuildAndWriteOut` on the builder `New` returned: `Build` with
no writer, which builds with `Caching(true)`, then `WriteOutSlice` on the cache with one
writer, then `os.Stat` of the source root and `GenerateMetadata`; the outputs written to
the disk, in the order of the writes, and the error the flow stops with; the destination
the writes leave is given by `DestTree.writeAll`.  The walk visits the entries of the
header and footer stores in the orders `oh` and `ofn`; `sched` and `schedMeta` are the
schedules of the two calls of `WriteOutSlice`, and `write` is the outcome of `os.MkdirAll`
and `os.WriteFile` for an output.  The result is `none` when the depth bound of the walk is
used up or a writer has not returned at the end of its schedule. -/
def buildAndWriteOut (env : Env) (oh : GoMap header → GoMap header)
    (ofn : GoMap Bytes → GoMap Bytes) (fuel : Nat) (s : Ssg) (dateStr : GoString)
    (write : OutputFile → Option GoError) (sched schedMeta : List Nat) :
    Option (List OutputFile × Option GoError) :=
  match buildIn env oh ofn fuel (s.With [Caching true]) none with
  | none => none
  | some (_, _, _, some err) => some ([], some err)
  | some (_, files, cache, none) =>
    match WriteOutSlice write cache 1 sched with
    | none => none
    | some (e :: es, disk) => some (disk, some (joinWrites (e :: es)))
    | some ([], disk) =>
      match env.Stat s.Src with
      | .error err => some (disk, some err)
      | .ok _ =>
        match GenerateMetadata env write s.Src s.Dst s.Url files cache dateStr schedMeta with
        | none => none
        | some (diskMeta, err) => some (disk ++ diskMeta, err)

/-- The items of a call of `WriteOut` that are not written yet: those held by the workers
and by main, and those the stream has yet to deliver. -/
def WriteOutState.pending (st : WriteOutState) : List OutputFile :=
  st.workers.flatMap (fun wk => match wk with
    | Worker.writing w => [w]
    | Worker.sending _ => []) ++
  (match st.main with
    | Main.acquiring w => [w]
    | _ => []) ++ st.stream

/-- What holds of every state of a call of `WriteOut` on the items `l` when no write
fails: no error is recorded, every worker is about to write, `guard` holds one value for
each worker, `written` is the metadata of the disk, the disk and the items not written yet
are the items `l`, and main returns the variable `written` and no error once the stream is
closed and the workers are gone. -/
def WriteOut.Inv (l : List OutputFile) (st : WriteOutState) : Prop :=
  st.wErrs = [] ∧ st.guard = st.workers.length ∧ 0 < st.concurrent ∧
  (∀ wk ∈ st.workers, ∃ w, wk = Worker.writing w) ∧
  st.written = st.disk.map (fun w => Output w.target w.originator [] w.perm) ∧
  (st.disk ++ st.pending).Perm l ∧
  (match st.main with
    | Main.returned written joined =>
      st.workers = [] ∧ st.stream = [] ∧ written = some st.written ∧ joined = []
    | Main.collecting => st.stream = []
    | _ => True)

/-- A bound on the number of steps a call of `WriteOut` can still take when no write
fails. -/
def WriteOutState.size (st : WriteOutState) : Nat :=
  3 * st.stream.length + st.workers.length +
  (match st.main with
    | Main.ranging => 2
    | Main.acquiring _ => 4
    | Main.collecting => 1
    | Main.returned _ _ => 0)

/-- The builder `s` with the caching flag `cg` and a sink with the flag `co`, the writer
`wr` and the cache `ca`. -/
def Ssg.withSink (s : Ssg) (cg co : Bool) (wr : Option (List OutputFile))
    (ca : List OutputFile) : Ssg :=
  { s with options := { s.options with caching := cg }
           result := { s.result with cacheOutput := co, writer := wr, cache := ca } }

/-- The builder `t` of a build with a writer next to the builder `s` of a caching build
without writer: they differ in the caching flag and the sink only, and the writer of `t`
has received the cache of `s`. -/
def StreamOf (s t : Ssg) : Prop :=
  s.result.cacheOutput = true ∧ s.result.writer = none ∧
  ∃ cg co ca, t = s.withSink cg co (some s.result.cache) ca

/-- A source directory `src` that holds `a.txt` and `b.txt`, of which `b.txt` cannot be
read. -/
def unreadableEnv : Env :=
  { fooEnv with
    ReadDir := fun p =>
      if p = str "src" then .ok [fileEntry (str "a.txt"), fileEntry (str "b.txt")]
      else .error (notExist (str "open: no such file or directory"))
    ReadFile := fun p =>
      if p = str "src/a.txt" then .ok (str "a\n")
      else .error (other (str "permission denied")) }

/-! ## Specification vocabulary for wrapped errors -/

/-- The error `target` occurs in the chain of an error: it is the error itself, or it
occurs in the chain of an error that the error wraps (`join a b` wraps both `a` and `b`,
as `errors.Join(a, b)` and `fmt.Errorf` with two verbs `%w` do). -/
inductive InChain (target : GoError) : GoError → Prop where
  | self : InChain target target
  | wrapped (pre : GoString) (inner : GoError) : InChain target inner →
      InChain target (wrap pre inner)
  | joinedLeft (a b : GoError) : InChain target a → InChain target (join a b)
  | joinedRight (a b : GoError) : InChain target b → InChain target (join a b)

/-- A stage that returns an error wrapping both control signals, `ErrBreakPipelines`
first. -/
def stageBoth : Pipeline :=
  fun path data d => (path, data, d, some (join ErrBreakPipelines ErrSkipCore))

/-! ## Specification vocabulary for targets -/

/-- Function `mirrorPath` maps a path `src/r` to `dst/r`, as its comment describes, and
returns nothing else. -/
def Mirrors (env : Env) (src dst : GoString) : Prop :=
  ∀ p t, mirrorPath env src dst p = .ok t →
    ∃ r, p = src ++ str "/" ++ r ∧ t = dst ++ str "/" ++ r

/-! ## A second build on the same builder -/

/-- The errors of a duplicate registration: that of `perDir.add` for a header or footer
marker, and that of `collect` for an .html file. -/
def IsDuplicate (err : GoError) : Prop :=
  (∃ path, err = other (str "found duplicate path '" ++ path ++ str "'")) ∨
  (∃ path, err = other (str "duplicate html file " ++ path))

/-- No generate hook of the list fails, whatever the page. -/
def HooksGenerateTotal (gs : List HookGenerate) : Prop :=
  ∀ h ∈ gs, ∀ b, ∃ b', h b = .ok b'

/-- The header store, the footer store and the preferred set of `t` are those of `a`. -/
def SameStores (t a : Ssg) : Prop :=
  t.headers = a.headers ∧ t.footers = a.footers ∧ t.preferred = a.preferred

/-- Every directory with a header or a footer in the stores of `a` has one in the stores
of `t`, and every member of the preferred set of `a` is a member of that of `t`. -/
def StoresSub (a t : Ssg) : Prop :=
  (∀ k ∈ a.headers.values.map Prod.fst, k ∈ t.headers.values.map Prod.fst) ∧
  (∀ k ∈ a.footers.values.map Prod.fst, k ∈ t.footers.values.map Prod.fst) ∧
  (∀ x ∈ a.preferred, x ∈ t.preferred)

/-- The builder `a` with the stores of `S` and the sink `rb`: where the second build stands
when the first stood at `a` and has left the stores `S`. -/
def Ssg.second (a S : Ssg) (rb : buildOutput) : Ssg :=
  { a with headers := S.headers, footers := S.footers, preferred := S.preferred, result := rb }

/-- How a piece of the second walk relates to the same piece `r1` of the first, begun at
`a`: either it returns the same error from the matching builder, and the first has
registered nothing, or it returns a duplicate-registration error. -/
def SecondOutcome (S : Ssg) (r1 : Ssg × Option GoError) (a : Ssg)
    (r2 : Option (Ssg × Option GoError)) : Prop :=
  (∃ rb, r2 = some (r1.1.second S rb, r1.2) ∧ SameStores r1.1 a) ∨
  (∃ b e, r2 = some (b, some e) ∧ IsDuplicate e)

/-- A source tree in which the file `a.md` is walked before the directory `z`, which holds
a header. -/
def lateEnv : Env :=
  { fooEnv with
    ReadDir := fun p =>
      if p = str "src" then .ok [fileEntry (str "a.md"), dirEntry (str "z")]
      else if p = str "src/z" then .ok [fileEntry (str "_header.html")]
      else .error (notExist (str "open: no such file or directory"))
    ReadFile := fun p =>
      if p = str "src/z/_header.html" then .ok (str "<Z>\n")
      else if p = str "src/a.md" then .ok (str "text\n")
      else .error (notExist (str "open: no such file or directory")) }

/-- A stage that files `src/a.md` under the directory `src/z`. -/
def stageMove : Pipeline :=
  fun path data d => (if path = str "src/a.md" then str "src/z/a.md" else path, data, d, none)

/-- A generate hook that rejects the pages that begin with the header of `src/z`. -/
def hookRejectZ : HookGenerate :=
  fun b => if HasPrefix b (str "<Z>") then .error (other (str "unexpected header")) else .ok b

/-- The sample builder with the stage `stageMove` and the generate hook `hookRejectZ`. -/
def lateSsg : Ssg :=
  { fooSsg with
    options := { fooSsg.options with pipelines := [stageMove], hookGenerate := [hookRejectZ] } }

/-! # Theorems -/

theorem mem_insertAll {α : Type} (a : α) (s t : List α) : s ++ a :: t ∈ insertAll a (s ++ t) := by
  induction s with
  | nil => cases t <;> simp [insertAll]
  | cons b s ih =>
    simp only [List.cons_append, insertAll, List.mem_cons, List.mem_map]
    right
    exact ⟨_, ih, rfl⟩

theorem mem_orders_of_perm {α : Type} (l m : List α) (h : m.Perm l) : m ∈ orders l := by
  induction l generalizing m with
  | nil => simp [orders, List.Perm.eq_nil h]
  | cons a l ih =>
    have ha : a ∈ m := h.symm.subset (List.mem_cons_self a l)
    obtain ⟨s, t, rfl⟩ := List.append_of_mem ha
    have h2 : (s ++ t).Perm l := (List.perm_middle.symm.trans h).cons_inv
    simp only [orders, List.mem_flatMap]
    exact ⟨s ++ t, ih _ h2, mem_insertAll a s t⟩

/-! ## choose -/

theorem segmentsMatch_iff (a b : List GoString) :
    segmentsMatch a b = true ↔ ∀ i, i < min a.length b.length → a[i]? = b[i]? := by
  induction a generalizing b with
  | nil => simp [segmentsMatch]
  | cons x xs ih =>
    cases b with
    | nil => simp [segmentsMatch]
    | cons y ys =>
      by_cases hxy : x = y
      · subst hxy
        simp only [segmentsMatch, ne_eq, not_true_eq_false, if_false, ih, List.length_cons]
        constructor
        · intro h i hi
          cases i with
          | zero => simp
          | succ j =>
            simp only [List.getElem?_cons_succ]
            exact h j (by omega)
        · intro h i hi
          have := h (i + 1) (by omega)
          simpa using this
      · simp only [segmentsMatch, ne_eq, hxy, not_false_eq_true, if_true, List.length_cons]
        constructor
        · intro h; cases h
        · intro h
          have := h 0 (by omega)
          simp at this
          exact absurd this hxy

theorem segmentsMatch_iff_isCandidate (p k : GoString) :
    segmentsMatch (Split p (str "/")) (Split k (str "/")) = true ↔ isCandidate p k := by
  rw [segmentsMatch_iff]
  rfl

theorem segmentsMatch_append (a ext : List GoString) : segmentsMatch a (a ++ ext) = true := by
  induction a with
  | nil => simp [segmentsMatch]
  | cons x xs ih => simpa [segmentsMatch] using ih

/-- Invariant of the outer loop: either no entry was taken and every candidate is shorter
than the running maximum, or the result is a candidate at least as long as every
candidate of the map and as the initial maximum. -/
theorem chooseLoop_result {T : Type} (parts : List GoString) (m : GoMap T) (c : T) (mx : Nat) :
    (chooseLoop parts m (c, mx) = (c, mx) ∧
        ∀ e ∈ m, segmentsMatch parts (Split e.1 (str "/")) = true → len e.1 < mx) ∨
    (∃ e ∈ m, segmentsMatch parts (Split e.1 (str "/")) = true ∧
        chooseLoop parts m (c, mx) = (e.2, len e.1) ∧ mx ≤ len e.1 ∧
        ∀ e' ∈ m, segmentsMatch parts (Split e'.1 (str "/")) = true → len e'.1 ≤ len e.1) := by
  induction m generalizing c mx with
  | nil => left; simp [chooseLoop]
  | cons hd tl ih =>
    obtain ⟨k, v⟩ := hd
    by_cases hk : segmentsMatch parts (Split k (str "/")) = true
    · by_cases hmx : mx > len k
      · have hstep : chooseLoop parts ((k, v) :: tl) (c, mx) = chooseLoop parts tl (c, mx) := by
          simp [chooseLoop, hk, hmx]
        rw [hstep]
        rcases ih c mx with ⟨h1, h2⟩ | ⟨e, he, hc, hr, hle, hmax⟩
        · left
          refine ⟨h1, ?_⟩
          intro e he hc
          rcases List.mem_cons.1 he with rfl | he
          · exact hmx
          · exact h2 e he hc
        · right
          refine ⟨e, List.mem_cons_of_mem _ he, hc, hr, hle, ?_⟩
          intro e' he' hc'
          rcases List.mem_cons.1 he' with rfl | he'
          · show len k ≤ len e.1
            omega
          · exact hmax e' he' hc'
      · have hstep : chooseLoop parts ((k, v) :: tl) (c, mx) = chooseLoop parts tl (v, len k) := by
          simp [chooseLoop, hk, hmx]
        rw [hstep]
        right
        rcases ih v (len k) with ⟨h1, h2⟩ | ⟨e, he, hc, hr, hle, hmax⟩
        · refine ⟨(k, v), List.mem_cons_self _ _, hk, h1, Nat.le_of_not_gt hmx, ?_⟩
          intro e' he' hc'
          rcases List.mem_cons.1 he' with rfl | he'
          · exact Nat.le_refl _
          · exact Nat.le_of_lt (h2 e' he' hc')
        · refine ⟨e, List.mem_cons_of_mem _ he, hc, hr, by omega, ?_⟩
          intro e' he' hc'
          rcases List.mem_cons.1 he' with rfl | he'
          · exact hle
          · exact hmax e' he' hc'
    · have hstep : chooseLoop parts ((k, v) :: tl) (c, mx) = chooseLoop parts tl (c, mx) := by
        simp [chooseLoop, hk]
      rw [hstep]
      rcases ih c mx with ⟨h1, h2⟩ | ⟨e, he, hc, hr, hle, hmax⟩
      · left
        refine ⟨h1, ?_⟩
        intro e he hc
        rcases List.mem_cons.1 he with rfl | he
        · exact absurd hc hk
        · exact h2 e he hc
      · right
        refine ⟨e, List.mem_cons_of_mem _ he, hc, hr, hle, ?_⟩
        intro e' he' hc'
        rcases List.mem_cons.1 he' with rfl | he'
        · exact absurd hc' hk
        · exact hmax e' he' hc'

theorem chooseLoop_append {T : Type} (parts : List GoString) (a b : GoMap T) (acc : T × Nat) :
    chooseLoop parts (a ++ b) acc = chooseLoop parts b (chooseLoop parts a acc) := by
  induction a generalizing acc with
  | nil => simp [chooseLoop]
  | cons hd tl ih =>
    obtain ⟨k, v⟩ := hd
    obtain ⟨c, mx⟩ := acc
    simp only [List.cons_append, chooseLoop]
    split
    · split <;> exact ih _
    · exact ih _


theorem chooseLoop_keep {T : Type} (parts : List GoString) (m : GoMap T) (c : T) (mx : Nat)
    (h : ∀ e ∈ m, segmentsMatch parts (Split e.1 (str "/")) = true → len e.1 < mx) :
    chooseLoop parts m (c, mx) = (c, mx) := by
  rcases chooseLoop_result parts m c mx with ⟨h1, _⟩ | ⟨e, he, hc, _, hle, _⟩
  · exact h1
  · have := h e he hc
    omega

theorem chooseLoop_max_le {T : Type} (parts : List GoString) (m : GoMap T) (c : T) (mx B : Nat)
    (hmx : mx ≤ B)
    (h : ∀ e ∈ m, segmentsMatch parts (Split e.1 (str "/")) = true → len e.1 ≤ B) :
    (chooseLoop parts m (c, mx)).2 ≤ B := by
  rcases chooseLoop_result parts m c mx with ⟨h1, _⟩ | ⟨e, he, hc, hr, _, _⟩
  · rw [h1]; exact hmx
  · rw [hr]; exact h e he hc

theorem GoMap.get_isSome_iff {T : Type} (m : GoMap T) (key : GoString) :
    (m.get key).isSome = true ↔ key ∈ m.map Prod.fst := by
  induction m with
  | nil => simp [GoMap.get]
  | cons hd tl ih =>
    obtain ⟨k, v⟩ := hd
    by_cases hk : k = key
    · simp [GoMap.get, hk]
    · have hk2 : ¬ key = k := fun h => hk h.symm
      simp only [GoMap.get, hk, if_false, ih, List.map_cons, List.mem_cons, hk2, false_or]

theorem GoMap.get_append_single {T : Type} (m : GoMap T) (path key : GoString) (v : T) :
    GoMap.get (m ++ [(path, v)]) key =
      match m.get key with
      | some w => some w
      | none => if path = key then some v else none := by
  induction m with
  | nil => simp [GoMap.get]
  | cons hd tl ih =>
    obtain ⟨k, w⟩ := hd
    by_cases hk : k = key
    · simp [GoMap.get, hk]
    · simp only [List.cons_append, GoMap.get, hk, if_false]
      exact ih

/-- Claim C1, as amended: for every store, default and path, `choose` returns the value
stored under the path when the path is a key; otherwise, when some key is a candidate,
the value of a candidate whose key has the greatest length in bytes (Go `len`) among
all candidates; otherwise the default. -/
theorem choose_contract_len {T : Type} (p : GoString) (v0 : T) (m : GoMap T) :
    ChooseContract len p v0 m := by
  refine ⟨?_, ?_, ?_⟩
  · intro v hv
    simp [choose, hv]
  · intro hnone ⟨e0, he0, hc0⟩
    have hch : choose p v0 m = (chooseLoop (Split p (str "/")) m (v0, 0)).1 := by
      simp [choose, hnone]
    rcases chooseLoop_result (Split p (str "/")) m v0 0 with ⟨_, h2⟩ | ⟨e, he, hc, hr, _, hmax⟩
    · have := h2 e0 he0 ((segmentsMatch_iff_isCandidate p e0.1).2 hc0)
      omega
    · refine ⟨e, he, (segmentsMatch_iff_isCandidate p e.1).1 hc, ?_, ?_⟩
      · rw [hch, hr]
      · intro e' he' hc'
        exact hmax e' he' ((segmentsMatch_iff_isCandidate p e'.1).2 hc')
  · intro hnone hno
    have hch : choose p v0 m = (chooseLoop (Split p (str "/")) m (v0, 0)).1 := by
      simp [choose, hnone]
    rcases chooseLoop_result (Split p (str "/")) m v0 0 with ⟨h1, _⟩ | ⟨e, he, hc, _, _, _⟩
    · rw [hch, h1]
    · exact absurd ⟨e, he, (segmentsMatch_iff_isCandidate p e.1).1 hc⟩ hno

/-- Instance of the amended claim C1 on a two-entry store queried at the empty path. -/
theorem choose_contract_len_witness :
    ChooseContract len (str "") 0 [(str "/éé", 1), (str "/abc", 2)] :=
  choose_contract_len (str "") 0 [(str "/éé", 1), (str "/abc", 2)]

/-- Claim C1 as stated fails when length is counted in characters: with the keys "/éé"
(3 characters, 5 bytes) and "/abc" (4 characters, 4 bytes), both candidates for the
empty path, `choose` returns the value of "/éé", which has fewer characters. -/
theorem choose_contract_runeCount_counterexample :
    choose (str "") 0 [(str "/éé", 1), (str "/abc", 2)] = 1 ∧
    choose (str "") 0 [(str "/abc", 2), (str "/éé", 1)] = 1 ∧
    runeCount (str "/éé") = 3 ∧ runeCount (str "/abc") = 4 ∧
    len (str "/éé") = 5 ∧ len (str "/abc") = 4 ∧
    ¬ ChooseContract runeCount (str "") 0 [(str "/éé", 1), (str "/abc", 2)] := by
  refine ⟨by decide, by decide, by decide, by decide, by decide, by decide, ?_⟩
  intro h
  obtain ⟨e, he, _, hval, hmax⟩ := h.2.1 (by decide) ⟨(str "/abc", 2), by decide, by decide⟩
  have hch : choose (str "") 0 [(str "/éé", 1), (str "/abc", 2)] = 1 := by decide
  rw [hch] at hval
  have h2 := hmax (str "/abc", 2) (by decide) (by decide)
  simp only [List.mem_cons, List.mem_singleton, List.not_mem_nil, or_false] at he
  rcases he with rfl | rfl
  · revert h2; decide
  · revert hval; decide

/-- Claim C2: on the store built by the four `add` calls of `TestPerDir`, read in any
iteration order, `choose` with default 0 returns the ten expected values. -/
theorem choose_testPerDir (m : GoMap Nat) (h : m.Perm testPerDirStore.values) :
    choose (str "/") 0 m = 0 ∧ choose (str "/1") 0 m = 1 ∧ choose (str "/1/3") 0 m = 1 ∧
    choose (str "/1/2") 0 m = 2 ∧ choose (str "/1/2.d") 0 m = 1 ∧
    choose (str "/1/2/foo") 0 m = 2 ∧ choose (str "/10/20/foo") 0 m = 20 ∧
    choose (str "/10.1/20/foo") 0 m = 0 ∧
    choose (str "/10.1/20/30/foo/bar/baz/1") 0 m = 0 ∧
    choose (str "/10/20/30/foo/bar/baz/1") 0 m = 30 := by
  have hm : m ∈ orders testPerDirStore.values := mem_orders_of_perm _ _ h
  clear h
  revert m
  decide

/-- Claim C2 at the insertion order of the test. -/
theorem choose_testPerDir_witness :
    testPerDirStore.values.Perm testPerDirStore.values ∧
    choose (str "/") 0 testPerDirStore.values = 0 ∧
    choose (str "/1/2.d") 0 testPerDirStore.values = 1 ∧
    choose (str "/10/20/30/foo/bar/baz/1") 0 testPerDirStore.values = 30 :=
  have h := choose_testPerDir testPerDirStore.values (List.Perm.refl _)
  ⟨List.Perm.refl _, h.1, h.2.2.2.2.1, h.2.2.2.2.2.2.2.2.2⟩

/-- Claim C3 as stated fails: with the entries "/a" -> 1 and "/b" -> 2 visited in this
order, both keys are candidates for the empty path and share the greatest length, the
path is not a key, and `choose` returns 2, the value of the entry seen last, not the
value 1 of the entry seen first. -/
theorem choose_first_seen_counterexample :
    GoMap.get [(str "/a", 1), (str "/b", 2)] (str "") = none ∧
    isCandidate (str "") (str "/a") ∧ isCandidate (str "") (str "/b") ∧
    runeCount (str "/a") = runeCount (str "/b") ∧ len (str "/a") = len (str "/b") ∧
    choose (str "") 0 [(str "/a", 1), (str "/b", 2)] = 2 ∧
    choose (str "") 0 [(str "/a", 1), (str "/b", 2)] ≠ 1 := by
  decide

/-- Claim C3, as amended: when the path is not a key and the entry `e` is a candidate
such that no candidate visited before it is longer (in bytes) and every candidate visited
after it is strictly shorter, that is, `e` is the last visited among the candidates of
greatest length, then `choose` returns the value of `e`: on a tie the entry seen last
wins. -/
theorem choose_last_seen_wins {T : Type} (p : GoString) (v0 : T) (before after : GoMap T)
    (e : GoString × T) (hnone : GoMap.get (before ++ e :: after) p = none)
    (hc : isCandidate p e.1)
    (hbefore : ∀ e' ∈ before, isCandidate p e'.1 → len e'.1 ≤ len e.1)
    (hafter : ∀ e' ∈ after, isCandidate p e'.1 → len e'.1 < len e.1) :
    choose p v0 (before ++ e :: after) = e.2 := by
  have hch : choose p v0 (before ++ e :: after) =
      (chooseLoop (Split p (str "/")) (before ++ e :: after) (v0, 0)).1 := by
    simp [choose, hnone]
  rw [hch, chooseLoop_append]
  have hle : (chooseLoop (Split p (str "/")) before (v0, 0)).2 ≤ len e.1 :=
    chooseLoop_max_le _ before v0 0 (len e.1) (Nat.zero_le _)
      (fun e' he' hc' => hbefore e' he' ((segmentsMatch_iff_isCandidate p e'.1).1 hc'))
  generalize chooseLoop (Split p (str "/")) before (v0, 0) = acc at hle ⊢
  obtain ⟨c1, m1⟩ := acc
  obtain ⟨k, v⟩ := e
  have hk : segmentsMatch (Split p (str "/")) (Split k (str "/")) = true :=
    (segmentsMatch_iff_isCandidate p k).2 hc
  have hnot : ¬ m1 > len k := Nat.not_lt.2 hle
  have hstep : chooseLoop (Split p (str "/")) ((k, v) :: after) (c1, m1) =
      chooseLoop (Split p (str "/")) after (v, len k) := by
    simp [chooseLoop, hk, hnot]
  rw [hstep, chooseLoop_keep _ after v (len k)
    (fun e' he' hc' => hafter e' he' ((segmentsMatch_iff_isCandidate p e'.1).1 hc'))]

/-- Instance of the amended claim C3: of the tied candidates "x/a" and "x/b" for the path
"x", the one visited last gives the result, the shorter candidate "x/" after it changing
nothing. -/
theorem choose_last_seen_wins_witness :
    choose (str "x") 0 ([(str "x/a", 1)] ++ (str "x/b", 2) :: [(str "x/", 3)]) = 2 :=
  choose_last_seen_wins (str "x") 0 [(str "x/a", 1)] [(str "x/", 3)] (str "x/b", 2) (by decide)
    (by decide) (by decide) (by decide)

/-- Claim C4: when the only entry of the store is a key `k` whose segments are the
segments of the path `p` followed by further segments, `choose` returns the value stored
under `k`, whatever the default. -/
theorem choose_longer_key {T : Type} (p k : GoString) (v v0 : T) (ext : List GoString)
    (hext : segments k = segments p ++ ext) : choose p v0 [(k, v)] = v := by
  by_cases hkp : k = p
  · simp [choose, GoMap.get, hkp]
  · have hk : segmentsMatch (Split p (str "/")) (Split k (str "/")) = true := by
      have := segmentsMatch_append (segments p) ext
      rw [← hext] at this
      exact this
    simp [choose, GoMap.get, hkp, chooseLoop, hk]

/-- Instance of claim C4: with the single entry "/1/2" -> 2 and default 0, the path "/1"
is not a key and resolves to 2. -/
theorem choose_longer_key_witness :
    segments (str "/1/2") = segments (str "/1") ++ [str "2"] ∧
    GoMap.get [(str "/1/2", 2)] (str "/1") = none ∧
    choose (str "/1") 0 [(str "/1/2", 2)] = 2 :=
  ⟨by decide, by decide, choose_longer_key (str "/1") (str "/1/2") 2 0 [str "2"] (by decide)⟩

/-! ## perDir.add -/

/-- Claim C5: `add` returns an error exactly when the path is already a key.  On error
the store is unchanged; on success the entries are the old entries followed by the new
one, the new key maps to the new value, and every other key maps as before. -/
theorem perDir_add_spec {T : Type} (p : perDir T) (path : GoString) (v : T) :
    ((p.add path v).2 ≠ none ↔ path ∈ p.values.map Prod.fst) ∧
    ((p.add path v).2 ≠ none → (p.add path v).1 = p) ∧
    ((p.add path v).2 = none →
      (p.add path v).1.defaultValue = p.defaultValue ∧
      (p.add path v).1.values = p.values ++ [(path, v)] ∧
      (p.add path v).1.values.get path = some v ∧
      ∀ k, k ≠ path → (p.add path v).1.values.get k = p.values.get k) := by
  have hkey := GoMap.get_isSome_iff p.values path
  cases hget : p.values.get path with
  | some w =>
    have hmem : path ∈ p.values.map Prod.fst := hkey.1 (by simp [hget])
    simp [perDir.add, hget, hmem]
  | none =>
    have hmem : ¬ path ∈ p.values.map Prod.fst := fun h => by
      have := hkey.2 h
      simp [hget] at this
    refine ⟨?_, ?_, ?_⟩
    · simp only [perDir.add, hget, ne_eq, not_true_eq_false, false_iff]
      exact hmem
    · simp [perDir.add, hget]
    · intro _
      refine ⟨by simp [perDir.add, hget], by simp [perDir.add, hget], ?_, ?_⟩
      · simp [perDir.add, hget, GoMap.get_append_single]
      · intro k hk
        have hk2 : ¬ path = k := fun h => hk h.symm
        simp only [perDir.add, hget, GoMap.get_append_single, hk2, if_false]
        cases p.values.get k <;> rfl

/-- Instance of claim C5: a second `add` of "/1" to a store that holds "/1" fails and
keeps the store, and an `add` of the new key "/1/2" succeeds. -/
theorem perDir_add_spec_witness :
    (((newPerDir 0).add (str "/1") 1).1.add (str "/1") 7).2 ≠ none ∧
    (((newPerDir 0).add (str "/1") 1).1.add (str "/1") 7).1 = ((newPerDir 0).add (str "/1") 1).1 ∧
    (((newPerDir 0).add (str "/1") 1).1.add (str "/1/2") 2).1.values.get (str "/1/2") = some 2 :=
  have h1 := perDir_add_spec ((newPerDir 0).add (str "/1") 1).1 (str "/1") 7
  have h2 := perDir_add_spec ((newPerDir 0).add (str "/1") 1).1 (str "/1/2") 2
  ⟨h1.1.2 (by decide), h1.2.1 (h1.1.2 (by decide)), (h2.2.2 (by decide)).2.2.1⟩

/-! ## core -/

theorem runHooksGenerate_total (path : GoString) (gs : List (Bytes → Bytes)) (i : Nat)
    (buf : Bytes) :
    runHooksGenerate path (gs.map (fun g b => Except.ok (g b))) i buf =
      .ok (gs.foldl (fun acc g => g acc) buf) := by
  induction gs generalizing i buf with
  | nil => rfl
  | cons g rest ih => simp only [List.map_cons, runHooksGenerate, List.foldl_cons, ih]

/-- Claim C6 (copy rule): when the entry's info is available, the simple hooks produce
`data'` and the path is relative to the source root as `rel`, a file whose extension is
not ".md", or whose ".html" sibling is in the preferred set, gives exactly the output with
target `Join(Dst, rel)`, the file's path as originator, the bytes `data'` as data and the
permission bits of the entry; with no hook registered `data'` is the input. -/
theorem core_copy (env : Env) (s : Ssg) (path : GoString) (data data' : Bytes) (d : DirEntry)
    (info : FileInfo) (rel : GoString)
    (hinfo : d.info = .ok info)
    (hhooks : runHooks path s.options.hooks 0 data = .ok data')
    (hcopy : Ext path ≠ str ".md" ∨ ChangeExt path (str ".md") (str ".html") ∈ s.preferred)
    (hrel : env.Rel s.Src path = .ok rel) :
    s.core env path data d =
      .ok { target := env.Join s.Dst rel, originator := path, data := data',
            perm := info.mode &&& 0o777 } ∧
    (s.options.hooks = [] → data' = data) := by
  have hcond : Ext path ≠ str ".md" ∨
      s.preferred.Contains [ChangeExt path (str ".md") (str ".html")] = true := by
    rcases hcopy with h | h
    · exact Or.inl h
    · exact Or.inr (by simp [Set.Contains, h])
  refine ⟨?_, ?_⟩
  · simp only [Ssg.core, hinfo, hhooks, mirrorPath, hrel]
    rw [if_pos hcond]
    rfl
  · intro hnil
    rw [hnil] at hhooks
    simp only [runHooks, Except.ok.injEq] at hhooks
    exact hhooks.symm

/-- Instance of claim C6 on the sample tree: the style sheet is copied as it is. -/
theorem core_copy_witness :
    fooSsg.core fooEnv (str "src/style.css") styleCss (fileEntry (str "style.css")) =
      .ok { target := str "dst/style.css", originator := str "src/style.css", data := styleCss,
            perm := 0o644 } :=
  (core_copy fooEnv fooSsg (str "src/style.css") styleCss styleCss (fileEntry (str "style.css"))
    { name := str "style.css", mode := 0o644 } (str "style.css") rfl rfl
    (Or.inl (by decide)) (by decide)).1

/-- Claim C8 (convert rule): when the entry's info is available, the simple hooks produce
the Markdown `md`, the path is relative to the source root as `rel` and the full-output
hooks are the functions `gs`, a file with extension ".md" whose ".html" sibling is not in
the preferred set gives exactly the output whose target is `Join(Dst, rel)` with ".md"
replaced by ".html" and whose data is `gs` applied in order to header ++ rendered body ++
footer, with header and footer chosen for the file's path, the header after the title
substitution of its mode and the body as left by that substitution. -/
theorem core_convert (env : Env) (s : Ssg) (path : GoString) (data md : Bytes) (d : DirEntry)
    (info : FileInfo) (rel : GoString) (gs : List (Bytes → Bytes))
    (hinfo : d.info = .ok info)
    (hhooks : runHooks path s.options.hooks 0 data = .ok md)
    (hmd : Ext path = str ".md")
    (hpref : ChangeExt path (str ".md") (str ".html") ∉ s.preferred)
    (hrel : env.Rel s.Src path = .ok rel)
    (hgen : s.options.hookGenerate = gs.map (fun g b => Except.ok (g b))) :
    s.core env path data d =
      .ok { target := ChangeExt (env.Join s.Dst rel) (str ".md") (str ".html"),
            originator := path,
            data := gs.foldl (fun acc g => g acc)
              (convertedHeader s.Title (s.headers.choose path) md ++
                env.markdownRender (convertedBody s.Title (s.headers.choose path) md) ++
                s.footers.choose path),
            perm := info.mode &&& 0o777 } := by
  have hcond : ¬ (Ext path ≠ str ".md" ∨
      s.preferred.Contains [ChangeExt path (str ".md") (str ".html")] = true) := by
    intro h
    rcases h with h | h
    · exact h hmd
    · simp [Set.Contains] at h
      exact hpref h
  simp only [Ssg.core, hinfo, hhooks, mirrorPath, hrel]
  rw [if_neg hcond, hgen]
  cases hmode : (s.headers.choose path).titleFrom <;>
    simp only [runHooksGenerate_total, convertedHeader, convertedBody, hmode, ToHtml] <;> rfl

/-- Instance of claim C8 on the sample tree without the preferred set: foo.md is converted
under the default header (mode FromH1) and footer. -/
theorem core_convert_witness :
    fooSsg.core fooEnv (str "src/foo.md") fooMd (fileEntry (str "foo.md")) =
      .ok { target := str "dst/foo.html", originator := str "src/foo.md",
            data := str "<!DOCTYPE html>\n<html lang=\"en\">\n<head>\n<meta charset=\"UTF-8\">\n<title>Foo</title>\n</head>\n<body>\n<p># Foo\n</p></body>\n</html>\n",
            perm := 0o644 } :=
  (core_convert fooEnv fooSsg (str "src/foo.md") fooMd fooMd (fileEntry (str "foo.md"))
    { name := str "foo.md", mode := 0o644 } (str "foo.md") [] rfl rfl (by decide) (by decide)
    (by decide) rfl).trans (by decide)

/-- Claim C7, evaluated on the sample tree: the walk enters `src` (recording foo.html in
the preferred set), then visits foo.html and foo.md.  Both visits succeed and the sink
holds two outputs: the copy of foo.html at dst/foo.html and a copy of foo.md, unrendered,
at dst/foo.md. -/
theorem md_beside_html_is_copied :
    (fooSsg.walk fooEnv (str "src") srcEntry none).2 = none ∧
    (fooSsg.walk fooEnv (str "src") srcEntry none).1.preferred = [str "src/foo.html"] ∧
    (((fooSsg.walk fooEnv (str "src") srcEntry none).1.walk fooEnv (str "src/foo.html")
      (fileEntry (str "foo.html")) none).1.walk fooEnv (str "src/foo.md")
      (fileEntry (str "foo.md")) none).2 = none ∧
    (((fooSsg.walk fooEnv (str "src") srcEntry none).1.walk fooEnv (str "src/foo.html")
      (fileEntry (str "foo.html")) none).1.walk fooEnv (str "src/foo.md")
      (fileEntry (str "foo.md")) none).1.result.cache =
      [Output (str "dst/foo.html") (str "src/foo.html") fooHtml 0o644,
       Output (str "dst/foo.md") (str "src/foo.md") fooMd 0o644] := by
  decide

/-! ## walk -/

theorem walk_visited (env : Env) (s : Ssg) (path : GoString) (d : DirEntry) (data : Bytes)
    (hv : Visited env s path d data) :
    s.walk env path d none =
      match runPipelines s.options.pipelines 0 path data d with
      | .error err => (recordInput s path, some err)
      | .ok st =>
        if st.skipCore then (recordInput s path, none)
        else coreStep env (recordInput s path) (st.path, st.data, st.d) := by
  obtain ⟨hd, hign, h1, h2, h3, hread⟩ := hv
  have hbase : ¬ (Base path = MarkerHeader ∨ Base path = MarkerFooter ∨ Base path = SsgIgnore) := by
    rintro (h | h | h)
    · exact h1 h
    · exact h2 h
    · exact h3 h
  simp only [Ssg.walk, hd, hign, hread, Bool.false_eq_true, if_false]
  rw [if_neg hbase]
  cases hrun : runPipelines s.options.pipelines 0 path data d with
  | error err => rfl
  | ok st =>
    by_cases hskip : st.skipCore = true
    · simp only [hskip, if_true, recordInput]
    · simp only [hskip, if_false, recordInput, coreStep]

theorem runPipelines_append_thread (pre rest : List Pipeline) (i : Nat)
    (t tk : GoString × Bytes × DirEntry) (h : threadStages pre t = some tk) :
    runPipelines (pre ++ rest) i t.1 t.2.1 t.2.2 =
      runPipelines rest (i + pre.length) tk.1 tk.2.1 tk.2.2 := by
  induction pre generalizing i t with
  | nil =>
    simp only [threadStages, Option.some.injEq] at h
    subst h
    rfl
  | cons p ps ih =>
    simp only [threadStages] at h
    rcases hp : p t.1 t.2.1 t.2.2 with ⟨a, b, c, e⟩
    rw [hp] at h
    cases e with
    | some err => simp at h
    | none =>
      simp only at h
      have h2 := ih (i + 1) (a, b, c) h
      simp only at h2
      have harith : i + (ps.length + 1) = i + 1 + ps.length := by omega
      simp only [List.cons_append, runPipelines, hp, List.length_cons]
      rw [harith]
      exact h2

theorem runPipelines_thread (st : List Pipeline) (i : Nat) (t t' : GoString × Bytes × DirEntry)
    (h : threadStages st t = some t') :
    runPipelines st i t.1 t.2.1 t.2.2 =
      .ok { path := t'.1, data := t'.2.1, d := t'.2.2, skipCore := false } := by
  have := runPipelines_append_thread st [] i t t' h
  simpa [runPipelines] using this

/-- Claim C9 (SkipCore): for a visited file and a chain `before ++ stage :: later` in which
the stages of `before` return no error and `stage` returns an error that is `ErrSkipCore`,
the walk step returns no error and leaves the builder as it was except that the file's
original path is appended to the input files: the sink is unchanged, and neither the
stages of `later` nor `core` have any part in the result. -/
theorem walk_skipCore (env : Env) (s : Ssg) (path : GoString) (d : DirEntry) (data : Bytes)
    (before later : List Pipeline) (stage : Pipeline) (tk out : GoString × Bytes × DirEntry)
    (err : GoError)
    (hv : Visited env s path d data)
    (hchain : s.options.pipelines = before ++ stage :: later)
    (hbefore : threadStages before (path, data, d) = some tk)
    (hstage : stage tk.1 tk.2.1 tk.2.2 = (out.1, out.2.1, out.2.2, some err))
    (hskip : errorsIs err ErrSkipCore = true) :
    s.walk env path d none = (recordInput s path, none) ∧
    (s.walk env path d none).2 = none ∧
    (s.walk env path d none).1.result.files = s.result.files ++ [path] ∧
    (s.walk env path d none).1.result.cache = s.result.cache ∧
    (s.walk env path d none).1.result.writer = s.result.writer := by
  have hw : s.walk env path d none = (recordInput s path, none) := by
    rw [walk_visited env s path d data hv, hchain]
    have := runPipelines_append_thread before (stage :: later) 0 (path, data, d) tk hbefore
    simp only at this
    rw [this]
    simp only [runPipelines, hstage, hskip, if_true]
  rw [hw]
  exact ⟨rfl, rfl, rfl, rfl, rfl⟩

/-- Instance of claim C9 on the sample tree: the second of three stages returns a wrapped
`ErrSkipCore`; foo.md is recorded as input and nothing reaches the sink. -/
theorem walk_skipCore_witness :
    ({ fooSsg with options := { fooSsg.options with
        pipelines := [stageAppend 65] ++ stageSkip :: [stageAppend 66] } }.walk fooEnv
      (str "src/foo.md") (fileEntry (str "foo.md")) none).1.result.files = [str "src/foo.md"] ∧
    ({ fooSsg with options := { fooSsg.options with
        pipelines := [stageAppend 65] ++ stageSkip :: [stageAppend 66] } }.walk fooEnv
      (str "src/foo.md") (fileEntry (str "foo.md")) none).1.result.cache = [] :=
  have h := walk_skipCore fooEnv
    { fooSsg with options := { fooSsg.options with
        pipelines := [stageAppend 65] ++ stageSkip :: [stageAppend 66] } }
    (str "src/foo.md") (fileEntry (str "foo.md")) fooMd [stageAppend 65] [stageAppend 66]
    stageSkip (str "src/foo.md", fooMd ++ [65], fileEntry (str "foo.md"))
    (str "src/foo.md", fooMd ++ [65], fileEntry (str "foo.md"))
    (wrap (str "skipped: ") ErrSkipCore)
    ⟨rfl, by decide, by decide, by decide, by decide, rfl⟩ rfl rfl rfl (by decide)
  ⟨h.2.2.1, h.2.2.2.1⟩

/-- Claim C10 (chain order and BreakChain): for a visited file, once its path is recorded
the walk step is one invocation of `core` followed by the hand-over of its output.  When
every stage continues, `core` receives the triple obtained by applying the stages in
registration order, each to the triple returned by the one before; when the chain is
`before ++ stage :: later`, the stages of `before` continue and `stage` returns an error
that is `ErrBreakPipelines` (and not `ErrSkipCore`), `core` receives the triple returned
by `stage` and the stages of `later` have no part in the result; with an empty chain
`core` receives the original path, data and entry. -/
theorem walk_chain_order (env : Env) (s : Ssg) (path : GoString) (d : DirEntry) (data : Bytes)
    (hv : Visited env s path d data) :
    (∀ out, threadStages s.options.pipelines (path, data, d) = some out →
      s.walk env path d none = coreStep env (recordInput s path) out) ∧
    (∀ before later stage tk out err,
      s.options.pipelines = before ++ stage :: later →
      threadStages before (path, data, d) = some tk →
      stage tk.1 tk.2.1 tk.2.2 = (out.1, out.2.1, out.2.2, some err) →
      errorsIs err ErrSkipCore = false → errorsIs err ErrBreakPipelines = true →
      s.walk env path d none = coreStep env (recordInput s path) out) ∧
    (s.options.pipelines = [] →
      s.walk env path d none = coreStep env (recordInput s path) (path, data, d)) := by
  refine ⟨?_, ?_, ?_⟩
  · intro out hall
    rw [walk_visited env s path d data hv]
    have := runPipelines_thread s.options.pipelines 0 (path, data, d) out hall
    simp only at this
    rw [this]
    simp
  · intro before later stage tk out err hchain hbefore hstage hns hbr
    rw [walk_visited env s path d data hv, hchain]
    have := runPipelines_append_thread before (stage :: later) 0 (path, data, d) tk hbefore
    simp only at this
    rw [this]
    simp [runPipelines, hstage, hns, hbr]
  · intro hnil
    rw [walk_visited env s path d data hv, hnil]
    simp [runPipelines]

/-- Instance of claim C10 on the sample tree: the first stage appends a byte, the second
renames the file and breaks the chain, the third never takes part; `core` copies the
renamed file with the data returned by the second stage. -/
theorem walk_chain_order_witness :
    ({ fooSsg with options := { fooSsg.options with
        pipelines := [stageAppend 65] ++ stageBreak :: [stageAppend 66] } }.walk fooEnv
      (str "src/foo.md") (fileEntry (str "foo.md")) none).1.result.cache =
      [Output (str "dst/foo.md.txt") (str "src/foo.md.txt") (fooMd ++ [65, 33]) 0o644] :=
  have h := (walk_chain_order fooEnv
    { fooSsg with options := { fooSsg.options with
        pipelines := [stageAppend 65] ++ stageBreak :: [stageAppend 66] } }
    (str "src/foo.md") (fileEntry (str "foo.md")) fooMd
    ⟨rfl, by decide, by decide, by decide, by decide, rfl⟩).2.1
    [stageAppend 65] [stageAppend 66] stageBreak
    (str "src/foo.md", fooMd ++ [65], fileEntry (str "foo.md"))
    (str "src/foo.md.txt", fooMd ++ [65, 33], fileEntry (str "foo.md"))
    ErrBreakPipelines rfl rfl (by decide) (by decide) (by decide)
  (congrArg (fun r => r.1.result.cache) h).trans (by decide)

/-! ## The sink -/

theorem buildOutput_Add_fields (b : buildOutput) (outputs : List OutputFile) :
    (b.Add outputs).cacheOutput = b.cacheOutput ∧
    (b.Add outputs).files = b.files ∧
    (b.Add outputs).cache = (if b.cacheOutput then b.cache ++ outputs else b.cache) ∧
    (b.Add outputs).writer = b.writer.map (fun w => w ++ outputs) := by
  cases hc : b.cacheOutput <;> cases hw : b.writer <;> simp [buildOutput.Add, hc, hw]

/-- Claim C20: after any sequence of `Add` calls the cache is the old cache followed by
all outputs added, in call order, when caching is enabled, and the old cache otherwise;
a writer, when set, has received exactly those outputs in the same order after what it
held before; the caching flag and the input files are unchanged.  With both enabled on a
fresh sink the cached and the forwarded sequences are equal. -/
theorem addAll_spec (b : buildOutput) (calls : List (List OutputFile)) :
    (addAll b calls).cache = (if b.cacheOutput then b.cache ++ calls.flatten else b.cache) ∧
    (addAll b calls).writer = b.writer.map (fun w => w ++ calls.flatten) ∧
    (addAll b calls).files = b.files ∧
    (addAll b calls).cacheOutput = b.cacheOutput ∧
    (b.cacheOutput = true → b.cache = [] → b.writer = some [] →
      (addAll b calls).writer = some (addAll b calls).cache) := by
  have key : ∀ (calls : List (List OutputFile)) (b : buildOutput),
      (addAll b calls).cache = (if b.cacheOutput then b.cache ++ calls.flatten else b.cache) ∧
      (addAll b calls).writer = b.writer.map (fun w => w ++ calls.flatten) ∧
      (addAll b calls).files = b.files ∧
      (addAll b calls).cacheOutput = b.cacheOutput := by
    intro calls
    induction calls with
    | nil =>
      intro b
      cases hc : b.cacheOutput <;> cases hw : b.writer <;> simp [addAll, hc, hw]
    | cons c rest ih =>
      intro b
      obtain ⟨h1, h2, h3, h4⟩ := buildOutput_Add_fields b c
      obtain ⟨i1, i2, i3, i4⟩ := ih (b.Add c)
      have hfold : addAll b (c :: rest) = addAll (b.Add c) rest := rfl
      rw [hfold, i1, i2, i3, i4, h1, h2, h3, h4]
      refine ⟨?_, ?_, rfl, rfl⟩
      · cases b.cacheOutput <;> simp
      · cases b.writer <;> simp
  obtain ⟨k1, k2, k3, k4⟩ := key calls b
  refine ⟨k1, k2, k3, k4, ?_⟩
  intro hc hcache hw
  rw [k1, k2, hc, hcache, hw]
  simp

/-- Instance of claim C20: two `Add` calls on a fresh sink that caches and forwards. -/
theorem addAll_spec_witness :
    (addAll { cacheOutput := true, writer := some [], files := [str "a"], cache := [] }
      [[Output (str "x") (str "a") [1] 0o644], [Output (str "y") (str "a") [2] 0o644]]).writer =
    some (addAll { cacheOutput := true, writer := some [], files := [str "a"], cache := [] }
      [[Output (str "x") (str "a") [1] 0o644], [Output (str "y") (str "a") [2] 0o644]]).cache :=
  (addAll_spec { cacheOutput := true, writer := some [], files := [str "a"], cache := [] }
    [[Output (str "x") (str "a") [1] 0o644], [Output (str "y") (str "a") [2] 0o644]]).2.2.2.2
    rfl rfl rfl

/-! ## Occurrences -/

theorem contains_iff_occurs (b sub : Bytes) : Contains b sub = true ↔ sub <:+: b := by
  induction b with
  | nil =>
    cases sub with
    | nil => simp [Contains]
    | cons x xs => simp [Contains, List.isPrefixOf]
  | cons c cs ih =>
    rw [Contains, Bool.or_eq_true, ih, List.infix_cons_iff, List.isPrefixOf_iff_prefix]

theorem contains_eq_false_iff (b sub : Bytes) : Contains b sub = false ↔ ¬ sub <:+: b := by
  rw [← contains_iff_occurs]
  cases Contains b sub <;> simp

/-! ## Title mode of a header -/

/-- Claim C14: `GetTitleFrom b` is `TitleFromH1` exactly when `b` contains "{{from-h1}}",
`TitleFromTag` exactly when `b` contains "{{from-tag}}" and not "{{from-h1}}", and
`TitleFromNone` exactly when it contains neither; a header with both tokens is FromH1. -/
theorem getTitleFrom_spec (b : Bytes) :
    (GetTitleFrom b = TitleFromH1 ↔ TargetFromH1 <:+: b) ∧
    (GetTitleFrom b = TitleFromTag ↔ TargetFromTag <:+: b ∧ ¬ TargetFromH1 <:+: b) ∧
    (GetTitleFrom b = TitleFromNone ↔ ¬ TargetFromH1 <:+: b ∧ ¬ TargetFromTag <:+: b) ∧
    (TargetFromH1 <:+: b → TargetFromTag <:+: b → GetTitleFrom b = TitleFromH1) := by
  rw [← contains_iff_occurs, ← contains_iff_occurs]
  cases h1 : Contains b TargetFromH1 <;> cases h2 : Contains b TargetFromTag <;>
    simp [GetTitleFrom, IsTargetFromH1, IsTargetFromTag, h1, h2]

/-- Instance of claim C14: a header that holds both tokens. -/
theorem getTitleFrom_spec_witness :
    GetTitleFrom (str "<title>{{from-tag}} {{from-h1}}</title>") = TitleFromH1 :=
  (getTitleFrom_spec (str "<title>{{from-tag}} {{from-h1}}</title>")).2.2.2
    ((contains_iff_occurs _ _).1 (by decide)) ((contains_iff_occurs _ _).1 (by decide))

/-! ## Simple hooks -/

theorem runHooks_total (path : GoString) (hs : List (GoString → Bytes → Bytes)) (i : Nat)
    (data : Bytes) :
    runHooks path (hs.map (fun h p b => Except.ok (h p b))) i data =
      .ok (applyHooks path hs data) := by
  induction hs generalizing i data with
  | nil => rfl
  | cons h rest ih => simp only [List.map_cons, runHooks, applyHooks, List.foldl_cons, ih]

theorem runHooks_append (path : GoString) (before rest : List Hook) (i : Nat) (data dk : Bytes)
    (h : runHooks path before i data = .ok dk) :
    runHooks path (before ++ rest) i data = runHooks path rest (i + before.length) dk := by
  induction before generalizing i data with
  | nil =>
    simp only [runHooks, Except.ok.injEq] at h
    subst h
    rfl
  | cons hk more ih =>
    simp only [runHooks] at h
    cases hres : hk path data with
    | error e => rw [hres] at h; cases h
    | ok d1 =>
      rw [hres] at h
      have h2 := ih (i + 1) d1 h
      have harith : i + (more.length + 1) = i + 1 + more.length := by omega
      simp only [List.cons_append, runHooks, hres, List.length_cons]
      rw [harith]
      exact h2

theorem infix_middle (a x b : Bytes) : x <:+: a ++ x ++ b :=
  ⟨a, b, rfl⟩

/-- Claim C13: hooks that succeed are applied in registration order, each to the output
of the one before, and `core` then treats the file as a hook-free `core` treats the
resulting bytes, on the copy and on the convert branch alike.  When the hooks before
index `i` succeed and hook `i` fails, `core` returns no output but the error
"hooks[i]: error when building <path>: " wrapped around the hook's error; its message
contains the index and the path, and the later hooks have no part in the result. -/
theorem core_hooks (env : Env) (s : Ssg) (path : GoString) (data : Bytes) (d : DirEntry) :
    (∀ hs : List (GoString → Bytes → Bytes),
      s.options.hooks = hs.map (fun h p b => Except.ok (h p b)) →
      s.core env path data d =
        Ssg.core env { s with options := { s.options with hooks := [] } } path
          (applyHooks path hs data) d) ∧
    (∀ (info : FileInfo) (before later : List Hook) (hook : Hook) (dk : Bytes) (err : GoError),
      d.info = .ok info →
      s.options.hooks = before ++ hook :: later →
      runHooks path before 0 data = .ok dk → hook path dk = .error err →
      s.core env path data d =
        .error (wrap (str "hooks[" ++ fmtInt before.length ++ str "]: error when building " ++
          path ++ str ": ") err) ∧
      fmtInt before.length <:+: (wrap (str "hooks[" ++ fmtInt before.length ++
          str "]: error when building " ++ path ++ str ": ") err).Error ∧
      path <:+: (wrap (str "hooks[" ++ fmtInt before.length ++
          str "]: error when building " ++ path ++ str ": ") err).Error) := by
  refine ⟨?_, ?_⟩
  · intro hs hhooks
    simp only [Ssg.core, hhooks, runHooks_total, runHooks]
  · intro info before later hook dk err hinfo hhooks hbefore hfail
    refine ⟨?_, ?_, ?_⟩
    · have := runHooks_append path before (hook :: later) 0 data dk hbefore
      simp only [Ssg.core, hinfo, hhooks, this, runHooks, hfail, Nat.zero_add]
    · simp only [GoError.Error]
      exact ⟨str "hooks[", str "]: error when building " ++ path ++ str ": " ++ err.Error,
        by simp [List.append_assoc]⟩
    · simp only [GoError.Error]
      exact ⟨str "hooks[" ++ fmtInt before.length ++ str "]: error when building ",
        str ": " ++ err.Error, by simp [List.append_assoc]⟩

/-- Instance of claim C13 on the sample tree: the second of three hooks fails on foo.md. -/
theorem core_hooks_witness :
    Ssg.core fooEnv { fooSsg with options := { fooSsg.options with
        hooks := [hookAppend 65] ++ hookFail :: [hookAppend 66] } }
      (str "src/foo.md") fooMd (fileEntry (str "foo.md")) =
      .error (wrap (str "hooks[1]: error when building src/foo.md: ") (other (str "bad hook"))) :=
  ((core_hooks fooEnv { fooSsg with options := { fooSsg.options with
        hooks := [hookAppend 65] ++ hookFail :: [hookAppend 66] } }
      (str "src/foo.md") fooMd (fileEntry (str "foo.md"))).2
    { name := str "foo.md", mode := 0o644 } [hookAppend 65] [hookAppend 66] hookFail
    (fooMd ++ [65]) (other (str "bad hook")) rfl rfl rfl rfl).1.trans (by decide)

/-! ## Failing stages -/

theorem walk_stage_error (env : Env) (s : Ssg) (path : GoString) (d : DirEntry) (data : Bytes)
    (before later : List Pipeline) (stage : Pipeline) (tk out : GoString × Bytes × DirEntry)
    (err : GoError)
    (hv : Visited env s path d data)
    (hchain : s.options.pipelines = before ++ stage :: later)
    (hbefore : threadStages before (path, data, d) = some tk)
    (hstage : stage tk.1 tk.2.1 tk.2.2 = (out.1, out.2.1, out.2.2, some err))
    (hskip : errorsIs err ErrSkipCore = false)
    (hbreak : errorsIs err ErrBreakPipelines = false) :
    s.walk env path d none =
      (recordInput s path,
        some (wrap (str "[pipeline " ++ fmtInt before.length ++ str "] error: ") err)) := by
  rw [walk_visited env s path d data hv, hchain]
  have := runPipelines_append_thread before (stage :: later) 0 (path, data, d) tk hbefore
  simp only at this
  rw [this]
  simp [runPipelines, hstage, hskip, hbreak]

/-- Claim C12, evaluated on the sample tree with one stage that fails with "boom": the
error returned for src/foo.md is "[pipeline 0] error: boom"; it carries the index of the
stage and neither the path nor the name of the file. -/
theorem pipeline_error_lacks_path :
    (failingSsg.walk fooEnv (str "src/foo.md") (fileEntry (str "foo.md")) none).2 =
      some (wrap (str "[pipeline 0] error: ") (other (str "boom"))) ∧
    (wrap (str "[pipeline 0] error: ") (other (str "boom"))).Error =
      str "[pipeline 0] error: boom" ∧
    Contains (wrap (str "[pipeline 0] error: ") (other (str "boom"))).Error (fmtInt 0) = true ∧
    Contains (wrap (str "[pipeline 0] error: ") (other (str "boom"))).Error (str "src/foo.md") =
      false ∧
    Contains (wrap (str "[pipeline 0] error: ") (other (str "boom"))).Error (str "foo.md") =
      false := by
  decide

theorem walkChildren_walkedAll {σ : Type} (env : Env)
    (recur : GoString → DirEntry → σ → Option (σ × Option GoError)) (path : GoString)
    (earlier rest : List DirEntry) (s1 s2 : σ)
    (h : walkedAll env recur path earlier s1 = some s2) :
    walkChildren env recur path (earlier ++ rest) s1 = walkChildren env recur path rest s2 := by
  induction earlier generalizing s1 with
  | nil =>
    simp only [walkedAll, Option.some.injEq] at h
    subst h
    rfl
  | cons c more ih =>
    simp only [walkedAll] at h
    cases hr : recur (env.Join path c.name) c s1 with
    | none => rw [hr] at h; cases h
    | some r =>
      obtain ⟨s', e⟩ := r
      cases e with
      | some e => rw [hr] at h; cases h
      | none =>
        rw [hr] at h
        simp only [List.cons_append, walkChildren, hr]
        exact ih s' h

theorem walkDir_reaches_error {σ : Type} (env : Env)
    (fn : σ → GoString → DirEntry → Option GoError → σ × Option GoError)
    (fuel : Nat) (path : GoString) (d : DirEntry) (s : σ) (path' : GoString) (d' : DirEntry)
    (s' s'' : σ) (e : GoError)
    (hreach : Reaches env fn fuel path d s path' d' s')
    (hfn : fn s' path' d' none = (s'', some e)) (hne : e ≠ SkipDir) :
    walkDir env fn fuel path d s = some (s'', some e) := by
  induction hreach with
  | start fuel path d s =>
    have : afterCallback d e = some e := by simp [afterCallback, hne]
    simp only [walkDir, hfn, this]
  | descend fuel path d s s2 earlier later c path' d' s' hok hdir hread hall _ ih =>
    have hchild := ih hfn
    have hfst : fn s path d none = ((fn s path d none).1, none) := Prod.ext rfl hok
    rw [walkDir, hfst]
    simp only [hdir, hread, Bool.true_eq_false, if_false]
    rw [walkChildren_walkedAll env _ path earlier (c :: later) _ s2 hall]
    simp only [walkChildren, hchild, hne, if_false]

/-- Claim C11 (stage error): when the walk of `build` comes to a visited file on which
the stages before index `i` continue and stage `i` returns an error that is neither
`ErrSkipCore` nor `ErrBreakPipelines`, `build` returns no input files, no outputs and the
error "[pipeline i] error: " wrapped around the stage's error.  The builder is left as it
was when the file was reached, with the file recorded: no later stage, no `core` and no
later entry of the tree has any part in the result. -/
theorem build_stage_error (env : Env) (fuel : Nat) (s : Ssg) (o : Option (List OutputFile))
    (info : FileInfo) (path : GoString) (d : DirEntry) (data : Bytes) (s' : Ssg)
    (before later : List Pipeline) (stage : Pipeline) (tk out : GoString × Bytes × DirEntry)
    (err : GoError)
    (hroot : env.Lstat s.Src = .ok info)
    (hreach : Reaches env (walkFn env) fuel s.Src (FileInfoToDirEntry info) (resetResult s o)
      path d s')
    (hv : Visited env s' path d data)
    (hchain : s'.options.pipelines = before ++ stage :: later)
    (hbefore : threadStages before (path, data, d) = some tk)
    (hstage : stage tk.1 tk.2.1 tk.2.2 = (out.1, out.2.1, out.2.2, some err))
    (hskip : errorsIs err ErrSkipCore = false)
    (hbreak : errorsIs err ErrBreakPipelines = false) :
    build env fuel s o =
      some (recordInput s' path, [], [],
        some (wrap (str "[pipeline " ++ fmtInt before.length ++ str "] error: ") err)) := by
  have hwalk := walk_stage_error env s' path d data before later stage tk out err hv hchain
    hbefore hstage hskip hbreak
  have hdir := walkDir_reaches_error env (walkFn env) fuel s.Src (FileInfoToDirEntry info)
    (resetResult s o) path d s' (recordInput s' path) _ hreach hwalk (by intro h; cases h)
  have hb : build env fuel s o =
      (match WalkDir env (walkFn env) fuel s.Src (resetResult s o) with
      | none => none
      | some (s, some err) => some (s, [], [], some err)
      | some (s, none) => some (s, s.result.files, s.result.cache, none)) := rfl
  have hW : WalkDir env (walkFn env) fuel s.Src (resetResult s o) =
      some (recordInput s' path,
        some (wrap (str "[pipeline " ++ fmtInt before.length ++ str "] error: ") err)) := by
    simp only [WalkDir, hroot, hdir]
    simp
  rw [hb, hW]

/-- Instance of claim C11 on the sample tree: the only stage fails on the first file of
`src`, and `build` returns the wrapped error with no input files and no outputs. -/
theorem build_stage_error_witness :
    (build fooEnv 2 failingSsg none).map (fun r => r.2) =
      some ([], [], some (wrap (str "[pipeline 0] error: ") (other (str "boom")))) :=
  congrArg (Option.map (fun r => r.2))
    (build_stage_error fooEnv 2 failingSsg none { name := str "src", mode := 2 ^ 31 + 0o755 }
      (str "src/foo.html") (fileEntry (str "foo.html")) fooHtml
      (walkFn fooEnv (resetResult failingSsg none) (str "src")
        (FileInfoToDirEntry { name := str "src", mode := 2 ^ 31 + 0o755 }) none).1
      [] [] stageFail (str "src/foo.html", fooHtml, fileEntry (str "foo.html"))
      (str "src/foo.html", fooHtml, fileEntry (str "foo.html")) (other (str "boom"))
      rfl
      (Reaches.descend 1 _ _ _ _ [] [fileEntry (str "foo.md"), fileEntry (str "style.css")]
        (fileEntry (str "foo.html")) _ _ _ (by decide) (by decide) rfl rfl
        (Reaches.start 0 _ _ _))
      ⟨rfl, by decide, by decide, by decide, by decide, rfl⟩ rfl rfl rfl (by decide) (by decide))

/-! ## Lines read by the scanner -/

theorem scanLoop_line (l rest cur : Bytes) (hl : 10 ∉ l) :
    scanLoop (l ++ 10 :: rest) cur =
      if cur.length + l.length < MaxScanTokenSize then
        dropCR (cur.reverse ++ l) :: scanLoop rest []
      else [] := by
  induction l generalizing cur with
  | nil => simp [scanLoop]
  | cons c l ih =>
    have hc : c ≠ 10 := fun h => hl (by simp [h])
    have hl2 : 10 ∉ l := fun h => hl (List.mem_cons_of_mem _ h)
    have harith : cur.length + 1 + l.length = cur.length + (l.length + 1) := by omega
    rw [List.cons_append, scanLoop, if_neg hc, ih (c :: cur) hl2]
    simp only [List.length_cons, List.reverse_cons, List.append_assoc, List.singleton_append,
      harith]

theorem scanLoop_last (l cur : Bytes) (hl : 10 ∉ l) :
    scanLoop l cur =
      if cur.reverse ++ l = [] then []
      else if cur.length + l.length < MaxScanTokenSize then [dropCR (cur.reverse ++ l)]
      else [] := by
  induction l generalizing cur with
  | nil =>
    cases cur with
    | nil => simp [scanLoop]
    | cons x xs => simp [scanLoop]
  | cons c l ih =>
    have hc : c ≠ 10 := fun h => hl (by simp [h])
    have hl2 : 10 ∉ l := fun h => hl (List.mem_cons_of_mem _ h)
    have harith : cur.length + 1 + l.length = cur.length + (l.length + 1) := by omega
    rw [scanLoop, if_neg hc, ih (c :: cur) hl2]
    simp only [List.length_cons, List.reverse_cons, List.append_assoc, List.singleton_append,
      harith]

theorem joinLines_cons (l : Bytes) (ls : List Bytes) :
    joinLines (l :: ls) = l ++ 10 :: joinLines ls := by
  simp [joinLines]

theorem scanLines_joinLines (ls : List Bytes) (rest : Bytes)
    (h : ∀ l ∈ ls, 10 ∉ l ∧ l.length < MaxScanTokenSize) :
    scanLines (joinLines ls ++ rest) = ls.map dropCR ++ scanLines rest := by
  induction ls with
  | nil => simp [joinLines]
  | cons l ls ih =>
    obtain ⟨h1, h2⟩ := h l (List.mem_cons_self _ _)
    have ih2 := ih (fun l' hl' => h l' (List.mem_cons_of_mem _ hl'))
    simp only [scanLines] at ih2 ⊢
    rw [joinLines_cons, List.append_assoc, List.cons_append, scanLoop_line _ _ _ h1]
    simp only [List.length_nil, Nat.zero_add, h2, if_true, List.reverse_nil, List.nil_append,
      List.map_cons, List.cons_append, ih2]

theorem scanLoop_sub (md cur : Bytes) :
    ∀ l ∈ scanLoop md cur, ∃ r ∈ splitLoop (str "\n") md cur 0, l = dropCR r := by
  induction md generalizing cur with
  | nil =>
    intro l hl
    refine ⟨cur.reverse, by simp [splitLoop], ?_⟩
    simp only [scanLoop] at hl
    split at hl
    · cases hl
    · split at hl
      · simpa using hl
      · cases hl
  | cons c cs ih =>
    intro l hl
    by_cases hc : c = 10
    · subst hc
      have hpre : (str "\n").isPrefixOf (10 :: cs) = true := by
        show ([10] : List Nat).isPrefixOf (10 :: cs) = true
        simp [List.isPrefixOf]
      have hlen : (str "\n").length - 1 = 0 := by decide
      simp only [scanLoop, if_true] at hl
      simp only [splitLoop, hpre, if_true, hlen]
      split at hl
      · rcases List.mem_cons.1 hl with h | h
        · exact ⟨cur.reverse, List.mem_cons_self _ _, h⟩
        · obtain ⟨r, hr, hrl⟩ := ih [] l h
          exact ⟨r, List.mem_cons_of_mem _ hr, hrl⟩
      · cases hl
    · have hpre : (str "\n").isPrefixOf (c :: cs) = false := by
        show ([10] : List Nat).isPrefixOf (c :: cs) = false
        have : ¬ (10 = c) := fun h => hc h.symm
        simp [List.isPrefixOf, this]
      simp only [scanLoop, hc, if_false] at hl
      simp only [splitLoop, hpre]
      exact ih (c :: cur) l hl

theorem dropCR_initial (l : Bytes) : dropCR l <+: l := by
  unfold dropCR
  split
  · exact List.dropLast_prefix l
  · exact List.prefix_refl l

theorem dropCR_append (key t : Bytes) (hkey : key.getLast? ≠ some 13) :
    dropCR (key ++ t) = key ++ dropCR t := by
  cases t with
  | nil => simp [dropCR, hkey]
  | cons x xs =>
    have hne : x :: xs ≠ [] := by simp
    have hlast : (key ++ x :: xs).getLast? = (x :: xs).getLast? := by
      rw [List.getLast?_append, List.getLast?_eq_getLast _ hne]
      rfl
    unfold dropCR
    rw [hlast]
    split
    · rw [List.dropLast_append_of_ne_nil key hne]
    · rfl

theorem scanned_none_begin (key md : Bytes) (h : NoLineBegins key md) :
    ∀ l ∈ scanLines md, HasPrefix l key = false := by
  intro l hl
  obtain ⟨r, hr, hrl⟩ := scanLoop_sub md [] l hl
  have hr2 := h r hr
  cases hp : HasPrefix l key with
  | false => rfl
  | true =>
    have h1 : key <+: l := List.isPrefixOf_iff_prefix.1 hp
    have h2 : key <+: r := h1.trans (hrl ▸ dropCR_initial r)
    have h3 : HasPrefix r key = true := List.isPrefixOf_iff_prefix.2 h2
    rw [hr2] at h3
    cases h3

/-! ## Splitting a title line -/

theorem splitLoop_skip (sep a b cur : List Nat) :
    splitLoop sep (a ++ b) cur a.length = splitLoop sep b cur 0 := by
  induction a with
  | nil => rfl
  | cons x a ih => simpa [splitLoop] using ih

theorem splitLoop_no_sep (sep t cur : List Nat) (h : ¬ sep <:+: t) :
    splitLoop sep t cur 0 = [cur.reverse ++ t] := by
  induction t generalizing cur with
  | nil => simp [splitLoop]
  | cons c cs ih =>
    rw [List.infix_cons_iff, not_or] at h
    have hp : sep.isPrefixOf (c :: cs) = false := by
      cases hq : sep.isPrefixOf (c :: cs) with
      | false => rfl
      | true => exact absurd (List.isPrefixOf_iff_prefix.1 hq) h.1
    rw [splitLoop, hp]
    simp only [Bool.false_eq_true, if_false]
    rw [ih (c :: cur) h.2]
    simp

theorem Split_title_line (key t : List Nat) (hkey : key ≠ []) (h : ¬ key <:+: t) :
    Split (key ++ t) key = [[], t] := by
  cases key with
  | nil => exact absurd rfl hkey
  | cons k ks =>
    have hp : (k :: ks).isPrefixOf (k :: (ks ++ t)) = true :=
      List.isPrefixOf_iff_prefix.2 ⟨t, by simp⟩
    have hlen : (k :: ks).length - 1 = ks.length := by simp
    simp only [Split, List.cons_append]
    rw [splitLoop, hp]
    simp only [if_true, List.reverse_nil, hlen]
    rw [splitLoop_skip, splitLoop_no_sep _ _ _ h]
    simp

theorem titleLoop_skip (key : Bytes) (ls rest : List Bytes)
    (h : ∀ l ∈ ls, HasPrefix l key = false) :
    titleLoop key (ls ++ rest) = titleLoop key rest := by
  induction ls with
  | nil => rfl
  | cons l ls ih =>
    have hl := h l (List.mem_cons_self _ _)
    simp only [List.cons_append, titleLoop, hl, Bool.not_false, if_true]
    exact ih (fun l' hl' => h l' (List.mem_cons_of_mem _ hl'))

theorem addTitleFromTagLoop_skip (d header md : Bytes) (ls rest : List Bytes)
    (h : ∀ l ∈ ls, HasPrefix l keyTitleFromTag = false) :
    addTitleFromTagLoop d header md (ls ++ rest) = addTitleFromTagLoop d header md rest := by
  induction ls with
  | nil => rfl
  | cons l ls ih =>
    have hl := h l (List.mem_cons_self _ _)
    simp only [List.cons_append, addTitleFromTagLoop, hl, Bool.not_false, if_true]
    exact ih (fun l' hl' => h l' (List.mem_cons_of_mem _ hl'))

theorem dropCR_not_begin (key l : Bytes) (h : HasPrefix l key = false) :
    HasPrefix (dropCR l) key = false := by
  cases hp : HasPrefix (dropCR l) key with
  | false => rfl
  | true =>
    have h2 : key <+: l := (List.isPrefixOf_iff_prefix.1 hp).trans (dropCR_initial l)
    have h3 : HasPrefix l key = true := List.isPrefixOf_iff_prefix.2 h2
    rw [h] at h3
    cases h3

/-- The lines the scanner yields for a text whose first line beginning with `key` is
`key ++ t`: the lines before it, then that line, without carriage returns. -/
theorem scanLines_title_line (key : Bytes) (ls : List Bytes) (t tail : Bytes)
    (hkey : key ≠ []) (hkey10 : 10 ∉ key) (hkeyCR : key.getLast? ≠ some 13)
    (hls : LinesBefore key ls) (ht : TitleRest key t) (htail : LineEnd tail) :
    ∃ more, scanLines (joinLines ls ++ (key ++ t) ++ tail) =
      ls.map dropCR ++ (key ++ dropCR t) :: more := by
  obtain ⟨ht10, _, htlen⟩ := ht
  have hline10 : 10 ∉ key ++ t := by
    intro h
    rcases List.mem_append.1 h with h | h
    · exact hkey10 h
    · exact ht10 h
  have hjoin : scanLines (joinLines ls ++ ((key ++ t) ++ tail)) =
      ls.map dropCR ++ scanLines ((key ++ t) ++ tail) :=
    scanLines_joinLines ls _ (fun l hl => ⟨(hls l hl).1, (hls l hl).2.2⟩)
  rw [List.append_assoc, hjoin]
  have htail2 : tail = [] ∨ ∃ rest, tail = 10 :: rest := by
    rcases htail with h | h
    · exact Or.inl h
    · cases tail with
      | nil => exact Or.inl rfl
      | cons x rest =>
        simp only [List.head?_cons, Option.some.injEq] at h
        exact Or.inr ⟨rest, by rw [h]⟩
  rcases htail2 with rfl | ⟨rest, rfl⟩
  · refine ⟨[], ?_⟩
    have hne : ¬ ([] : Bytes).reverse ++ (key ++ t) = [] := by
      cases key with
      | nil => exact absurd rfl hkey
      | cons k ks => simp
    have hlen : ([] : Bytes).length + (key ++ t).length < MaxScanTokenSize := by simpa using htlen
    simp only [scanLines, List.append_nil]
    rw [scanLoop_last _ _ hline10, if_neg hne, if_pos hlen]
    simp [dropCR_append key t hkeyCR]
  · refine ⟨scanLoop rest [], ?_⟩
    have hlen : ([] : Bytes).length + (key ++ t).length < MaxScanTokenSize := by simpa using htlen
    simp only [scanLines]
    rw [scanLoop_line _ _ _ hline10, if_pos hlen]
    simp [dropCR_append key t hkeyCR]

theorem not_infix_dropCR (key t : Bytes) (h : ¬ key <:+: t) : ¬ key <:+: dropCR t :=
  fun h2 => h (h2.trans (dropCR_initial t).isInfix)

/-- The title found by the scan loop in a text whose first line beginning with `key` is
`key ++ t`. -/
theorem titleLoop_title_line (key : Bytes) (ls : List Bytes) (t tail : Bytes)
    (hkey : key ≠ []) (hkey10 : 10 ∉ key) (hkeyCR : key.getLast? ≠ some 13)
    (hls : LinesBefore key ls) (ht : TitleRest key t) (htail : LineEnd tail) :
    titleLoop key (scanLines (joinLines ls ++ (key ++ t) ++ tail)) = dropCR t := by
  obtain ⟨more, hscan⟩ := scanLines_title_line key ls t tail hkey hkey10 hkeyCR hls ht htail
  rw [hscan, titleLoop_skip key (ls.map dropCR)]
  · have hp : HasPrefix (key ++ dropCR t) key = true :=
      List.isPrefixOf_iff_prefix.2 ⟨dropCR t, rfl⟩
    simp only [titleLoop, hp, Bool.not_true, Bool.false_eq_true, if_false,
      Split_title_line key (dropCR t) hkey (not_infix_dropCR key t ht.2.1)]
  · intro l hl
    obtain ⟨r, hr, rfl⟩ := List.mem_map.1 hl
    exact dropCR_not_begin key r (hls r hr).2.1

theorem titleLoop_none (key : Bytes) (ls : List Bytes)
    (h : ∀ l ∈ ls, HasPrefix l key = false) : titleLoop key ls = [] := by
  have := titleLoop_skip key ls [] h
  simpa [titleLoop] using this

/-! ## Replacing the first occurrence -/

theorem replaceFirst_absent (s old new : Bytes) (h : ¬ old <:+: s) :
    ReplaceFirst s old new = s := by
  induction s with
  | nil =>
    have hp : old.isPrefixOf [] = false := by
      cases hq : old.isPrefixOf [] with
      | false => rfl
      | true => exact absurd (List.isPrefixOf_iff_prefix.1 hq).isInfix h
    simp [ReplaceFirst, hp]
  | cons c cs ih =>
    rw [List.infix_cons_iff, not_or] at h
    have hp : old.isPrefixOf (c :: cs) = false := by
      cases hq : old.isPrefixOf (c :: cs) with
      | false => rfl
      | true => exact absurd (List.isPrefixOf_iff_prefix.1 hq) h.1
    simp [ReplaceFirst, hp, ih h.2]

theorem replaceFirst_at_head (old q new : Bytes) (hold : old ≠ []) :
    ReplaceFirst (old ++ q) old new = new ++ q := by
  cases old with
  | nil => exact absurd rfl hold
  | cons x xs =>
    have hp : (x :: xs).isPrefixOf (x :: (xs ++ q)) = true :=
      List.isPrefixOf_iff_prefix.2 ⟨q, by simp⟩
    simp only [List.cons_append]
    rw [ReplaceFirst, hp]
    simp

theorem replaceFirst_append (p r old new : Bytes)
    (h : ∀ i, i < p.length → ¬ old <+: p.drop i ++ r) :
    ReplaceFirst (p ++ r) old new = p ++ ReplaceFirst r old new := by
  induction p with
  | nil => rfl
  | cons c cs ih =>
    have h0 := h 0 (by simp)
    have hp : old.isPrefixOf (c :: (cs ++ r)) = false := by
      cases hq : old.isPrefixOf (c :: (cs ++ r)) with
      | false => rfl
      | true => exact absurd (List.isPrefixOf_iff_prefix.1 hq) (by simpa using h0)
    have ih2 := ih (fun i hi => by
      have := h (i + 1) (by simp; omega)
      simpa using this)
    simp only [List.cons_append]
    rw [ReplaceFirst, hp]
    simp [ih2]

theorem replaceFirst_firstReplaced (s old new : Bytes) (hold : old ≠ []) :
    FirstReplaced s old new (ReplaceFirst s old new) := by
  induction s with
  | nil =>
    left
    have hni : ¬ old <:+: [] := by
      intro h
      exact hold (List.infix_nil.1 h)
    exact ⟨hni, replaceFirst_absent [] old new hni⟩
  | cons c cs ih =>
    by_cases hp : old <+: c :: cs
    · right
      obtain ⟨q, hq⟩ := hp
      refine ⟨[], q, by simpa using hq.symm, ?_, ?_⟩
      · intro h
        have h1 := h.length_le
        have h2 : old.dropLast.length < old.length := by
          rw [List.length_dropLast]
          have : 0 < old.length := List.length_pos.2 hold
          omega
        simp only [List.nil_append] at h1
        omega
      · rw [← hq, replaceFirst_at_head old q new hold]
        simp
    · have hpb : old.isPrefixOf (c :: cs) = false := by
        cases hq : old.isPrefixOf (c :: cs) with
        | false => rfl
        | true => exact absurd (List.isPrefixOf_iff_prefix.1 hq) hp
      have hstep : ReplaceFirst (c :: cs) old new = c :: ReplaceFirst cs old new := by
        rw [ReplaceFirst, hpb]
        simp
      rw [hstep]
      rcases ih with ⟨hni, hout⟩ | ⟨p, q, hs, hfirst, hout⟩
      · left
        refine ⟨?_, by rw [hout]⟩
        rw [List.infix_cons_iff, not_or]
        exact ⟨hp, hni⟩
      · right
        refine ⟨c :: p, q, by simp [hs], ?_, by simp [hout]⟩
        intro h
        simp only [List.cons_append] at h
        rcases List.infix_cons_iff.1 h with h | h
        · apply hp
          refine h.trans ?_
          rw [hs]
          refine ⟨[old.getLast hold] ++ q, ?_⟩
          have : old.dropLast ++ [old.getLast hold] = old := List.dropLast_append_getLast hold
          calc c :: (p ++ old.dropLast) ++ ([old.getLast hold] ++ q)
              = c :: (p ++ (old.dropLast ++ [old.getLast hold]) ++ q) := by simp
            _ = c :: (p ++ old ++ q) := by rw [this]
        · exact hfirst h

/-! ## Titles -/

/-- The title `GetTitleFromH1` returns: when the first line that begins with "# " is
`"# " ++ t`, contains no further "# ", and it and every line before it are shorter than the
scanner's buffer (65536 bytes), it returns `t` (a trailing carriage return dropped); for a
document with no line beginning with "# " it returns an empty title. -/
theorem getTitleFromH1_spec :
    (∀ (ls : List Bytes) (t tail : Bytes),
      LinesBefore keyTitleFromH1 ls → TitleRest keyTitleFromH1 t → LineEnd tail →
      GetTitleFromH1 (joinLines ls ++ (keyTitleFromH1 ++ t) ++ tail) = dropCR t) ∧
    (∀ md : Bytes, NoLineBegins keyTitleFromH1 md → GetTitleFromH1 md = []) := by
  refine ⟨?_, ?_⟩
  · intro ls t tail hls ht htail
    exact titleLoop_title_line keyTitleFromH1 ls t tail (by decide) (by decide) (by decide)
      hls ht htail
  · intro md h
    exact titleLoop_none keyTitleFromH1 _ (scanned_none_begin keyTitleFromH1 md h)

/-- The first H1 line of the test document is its title. -/
theorem getTitleFromH1_spec_witness :
    GetTitleFromH1 (joinLines [str "", str "Mar 24 1998", str ""] ++
      (keyTitleFromH1 ++ str "Some h1") ++ str "\n\nSome para") = str "Some h1" :=
  getTitleFromH1_spec.1 [str "", str "Mar 24 1998", str ""] (str "Some h1") (str "\n\nSome para")
    (by decide) (by decide) (by decide)

/-- Claim C15 fails on the document "# C# intro\nbody": its first line begins with "# "
and is followed by "C# intro", yet `GetTitleFromH1` returns an empty title, because the
line splits on "# " into three parts and is passed over.  The comment of title.go has the
first h1 tag used as the title. -/
theorem getTitleFromH1_counterexample :
    HasPrefix (str "# C# intro") keyTitleFromH1 = true ∧
    scanLines (str "# C# intro\nbody") = [str "# C# intro", str "body"] ∧
    GetTitleFromH1 (str "# C# intro\nbody") = [] ∧
    GetTitleFromH1 (str "# C# intro\nbody") ≠ str "C# intro" := by
  decide

/-- Claim C16, as amended: `AddTitleFromH1(d, header, md)` is the header with the first
occurrence of "{{from-h1}}" replaced, every other byte unchanged (the header itself when
the placeholder does not occur).  The replacement is the title `GetTitleFromH1(md)` when
that is not empty, in particular the non-empty remainder of a first H1 line that
`GetTitleFromH1` accepts, and the default title `d` otherwise, in particular when no line
begins with "# ". -/
theorem addTitleFromH1_spec (d header md : Bytes) :
    FirstReplaced header TargetFromH1 (if GetTitleFromH1 md = [] then d else GetTitleFromH1 md)
      (AddTitleFromH1 d header md) ∧
    (∀ (ls : List Bytes) (t tail : Bytes),
      md = joinLines ls ++ (keyTitleFromH1 ++ t) ++ tail →
      LinesBefore keyTitleFromH1 ls → TitleRest keyTitleFromH1 t → LineEnd tail →
      dropCR t ≠ [] →
      FirstReplaced header TargetFromH1 (dropCR t) (AddTitleFromH1 d header md)) ∧
    (NoLineBegins keyTitleFromH1 md →
      FirstReplaced header TargetFromH1 d (AddTitleFromH1 d header md)) := by
  have hne : TargetFromH1 ≠ [] := by decide
  have hmain : FirstReplaced header TargetFromH1
      (if GetTitleFromH1 md = [] then d else GetTitleFromH1 md) (AddTitleFromH1 d header md) := by
    unfold AddTitleFromH1
    by_cases h : GetTitleFromH1 md = []
    · simp only [h, len, List.length_nil, if_true]
      exact replaceFirst_firstReplaced header TargetFromH1 d hne
    · have hlen : ¬ len (GetTitleFromH1 md) = 0 := by
        simpa [len, List.length_eq_zero] using h
      simp only [hlen, h, if_false]
      exact replaceFirst_firstReplaced header TargetFromH1 _ hne
  refine ⟨hmain, ?_, ?_⟩
  · intro ls t tail hmd hls ht htail hnonempty
    have htitle : GetTitleFromH1 (joinLines ls ++ (keyTitleFromH1 ++ t) ++ tail) = dropCR t :=
      titleLoop_title_line keyTitleFromH1 ls t tail (by decide) (by decide) (by decide)
        hls ht htail
    rw [← hmd] at htitle
    rw [htitle, if_neg hnonempty] at hmain
    exact hmain
  · intro hno
    have htitle : GetTitleFromH1 md = [] :=
      titleLoop_none keyTitleFromH1 _ (scanned_none_begin keyTitleFromH1 md hno)
    rw [htitle] at hmain
    simpa using hmain

/-- Instance of the amended claim C16: a document without an H1 line leaves the default
title in the header. -/
theorem addTitleFromH1_spec_witness :
    FirstReplaced (str "<title>{{from-h1}}</title>") TargetFromH1 (str "Site")
      (AddTitleFromH1 (str "Site") (str "<title>{{from-h1}}</title>") (str "Some para\n")) :=
  (addTitleFromH1_spec (str "Site") (str "<title>{{from-h1}}</title>") (str "Some para\n")).2.2
    (by decide)

/-- Claim C16 as stated fails: the documents "# \nbody" and "# C# intro\nbody" have an
H1 line, with the titles "" and "C# intro", yet the placeholder is replaced by the
default title. -/
theorem addTitleFromH1_counterexample :
    HasPrefix (str "# ") keyTitleFromH1 = true ∧
    AddTitleFromH1 (str "Site") (str "<title>{{from-h1}}</title>") (str "# \nbody") =
      str "<title>Site</title>" ∧
    AddTitleFromH1 (str "Site") (str "<title>{{from-h1}}</title>") (str "# \nbody") ≠
      str "<title></title>" ∧
    AddTitleFromH1 (str "Site") (str "<title>{{from-h1}}</title>") (str "# C# intro\nbody") =
      str "<title>Site</title>" ∧
    AddTitleFromH1 (str "Site") (str "<title>{{from-h1}}</title>") (str "# C# intro\nbody") ≠
      str "<title>C# intro</title>" := by
  decide

/-- Claim C19: for a document in which no line begins with ":ssg-title ",
`AddTitleFromTag(d, header, md)` returns the header with the first occurrence of
"{{from-tag}}" replaced by the default title `d`, every other byte unchanged, and the
document unchanged. -/
theorem addTitleFromTag_no_tag (d header md : Bytes) (h : NoLineBegins keyTitleFromTag md) :
    AddTitleFromTag d header md = (ReplaceFirst header TargetFromTag d, md) ∧
    FirstReplaced header TargetFromTag d (AddTitleFromTag d header md).1 ∧
    (AddTitleFromTag d header md).2 = md := by
  have hskip := addTitleFromTagLoop_skip d header md (scanLines md) []
    (scanned_none_begin keyTitleFromTag md h)
  have hres : AddTitleFromTag d header md = (ReplaceFirst header TargetFromTag d, md) := by
    unfold AddTitleFromTag
    simpa [addTitleFromTagLoop] using hskip
  refine ⟨hres, ?_, ?_⟩
  · rw [hres]
    exact replaceFirst_firstReplaced header TargetFromTag d (by decide)
  · rw [hres]

/-- Instance of claim C19: an indented tag is no tag line. -/
theorem addTitleFromTag_no_tag_witness :
    AddTitleFromTag (str "Site") (str "<title>{{from-tag}}</title>")
      (str "\t:ssg-title Not a title\n\nbody") =
      (str "<title>Site</title>", str "\t:ssg-title Not a title\n\nbody") :=
  (addTitleFromTag_no_tag (str "Site") (str "<title>{{from-tag}}</title>")
    (str "\t:ssg-title Not a title\n\nbody") (by decide)).1.trans (by decide)

/-! ## The tag line -/

/-- What `AddTitleFromTag` returns for a text whose first line beginning with
":ssg-title " is `":ssg-title " ++ t`. -/
theorem addTitleFromTag_at_line (d header : Bytes) (ls : List Bytes) (t tail : Bytes)
    (hls : LinesBefore keyTitleFromTag ls) (ht : TitleRest keyTitleFromTag t)
    (htail : LineEnd tail) :
    AddTitleFromTag d header (joinLines ls ++ (keyTitleFromTag ++ t) ++ tail) =
      (ReplaceFirst header TargetFromTag (dropCR t),
        ReplaceFirst (joinLines ls ++ (keyTitleFromTag ++ t) ++ tail)
          (trimRightWhitespace (keyTitleFromTag ++ dropCR t) ++ [10, 10]) []) := by
  obtain ⟨more, hscan⟩ := scanLines_title_line keyTitleFromTag ls t tail (by decide) (by decide)
    (by decide) hls ht htail
  unfold AddTitleFromTag
  rw [hscan, addTitleFromTagLoop_skip d header _ (ls.map dropCR)]
  · have hp : HasPrefix (keyTitleFromTag ++ dropCR t) keyTitleFromTag = true :=
      List.isPrefixOf_iff_prefix.2 ⟨dropCR t, rfl⟩
    simp only [addTitleFromTagLoop, hp, Bool.not_true, Bool.false_eq_true, if_false,
      Split_title_line keyTitleFromTag (dropCR t) (by decide)
        (not_infix_dropCR keyTitleFromTag t ht.2.1)]
  · intro l hl
    obtain ⟨r, hr, rfl⟩ := List.mem_map.1 hl
    exact dropCR_not_begin keyTitleFromTag r (hls r hr).2.1

theorem trimRightWhitespace_of_last (l : Bytes) (c : Nat) (h : l.getLast? = some c)
    (h32 : c ≠ 32) (h9 : c ≠ 9) : trimRightWhitespace l = l := by
  obtain ⟨ys, rfl⟩ := List.getLast?_eq_some_iff.1 h
  simp [trimRightWhitespace, List.dropWhile, h32, h9]

theorem dropCR_of_last (l : Bytes) (c : Nat) (h : l.getLast? = some c) (h13 : c ≠ 13) :
    dropCR l = l := by
  simp [dropCR, h, h13]

theorem joinLines_append (a b : List Bytes) : joinLines (a ++ b) = joinLines a ++ joinLines b := by
  simp [joinLines]

theorem joinLines_end (ls : List Bytes) :
    joinLines ls = [] ∨ ∃ p0, joinLines ls = p0 ++ [10] := by
  rcases List.eq_nil_or_concat ls with rfl | ⟨L, b, rfl⟩
  · left; rfl
  · right
    refine ⟨joinLines L ++ b, ?_⟩
    rw [List.concat_eq_append, joinLines_append]
    simp [joinLines]

/-- Before the tag line no occurrence of the tag line followed by a blank line begins,
when none lies inside the lines before it. -/
theorem tag_line_first (ls : List Bytes) (L post : Bytes) (hL : L ≠ []) (hL10 : 10 ∉ L)
    (hpre : ¬ (L ++ [10, 10]) <:+: joinLines ls) :
    ∀ i, i < (joinLines ls).length →
      ¬ (L ++ [10, 10]) <+: (joinLines ls).drop i ++ (L ++ [10, 10] ++ post) := by
  intro i hi hX
  rcases joinLines_end ls with hnil | ⟨p0, hp0⟩
  · rw [hnil] at hi
    simp at hi
  · rw [hp0] at hi hX hpre
    have hile : i ≤ p0.length := by
      simp only [List.length_append, List.length_singleton] at hi
      omega
    rw [List.drop_append_of_le_length hile] at hX
    have hsuf : p0.drop i ++ [10] <:+ p0 ++ [10] := by
      have := List.drop_suffix i (p0 ++ [10])
      rwa [List.drop_append_of_le_length hile] at this
    by_cases hlen : (L ++ [10, 10]).length ≤ (p0.drop i ++ [10]).length
    · have h1 : (L ++ [10, 10]) <+: p0.drop i ++ [10] :=
        List.prefix_of_prefix_length_le hX (List.prefix_append _ _) hlen
      exact hpre (h1.isInfix.trans hsuf.isInfix)
    · have h1 : p0.drop i ++ [10] <+: L ++ [10, 10] :=
        List.prefix_of_prefix_length_le (List.prefix_append _ _) hX (by omega)
      obtain ⟨x', hx'⟩ := h1
      have hx'ne : x' ≠ [] := by
        intro h
        rw [h, List.append_nil] at hx'
        rw [hx'] at hlen
        exact hlen (Nat.le_refl _)
      have hX2 : x' <+: L ++ [10, 10] ++ post := by
        have hX' : p0.drop i ++ [10] ++ x' <+: p0.drop i ++ [10] ++ (L ++ [10, 10] ++ post) := by
          rw [hx']
          exact hX
        exact (List.prefix_append_right_inj _).1 hX'
      have hhead : ∀ y ys, x' = y :: ys → y = 10 → p0.drop i = L → False := by
        intro y ys hy hy10 _
        cases L with
        | nil => exact hL rfl
        | cons l0 lt =>
          rw [hy] at hX2
          obtain ⟨w, hw⟩ := hX2
          simp only [List.cons_append, List.cons.injEq] at hw
          exact hL10 (by rw [← hw.1, hy10]; exact List.mem_cons_self _ _)
      have hx'' : p0.drop i ++ (10 :: x') = L ++ [10, 10] := by simpa using hx'
      rcases List.append_eq_append_iff.1 hx'' with ⟨a', ha1, ha2⟩ | ⟨c', hc1, hc2⟩
      · cases a' with
        | nil =>
          simp only [List.nil_append, List.cons.injEq, true_and] at ha2
          rw [List.append_nil] at ha1
          exact hhead 10 [] ha2 rfl ha1.symm
        | cons y a'' =>
          simp only [List.cons_append, List.cons.injEq] at ha2
          exact hL10 (by rw [ha1, ha2.1]; simp)
      · cases c' with
        | nil =>
          simp only [List.nil_append, List.cons.injEq, true_and] at hc2
          rw [List.append_nil] at hc1
          exact hhead 10 [] hc2.symm rfl hc1
        | cons y c'' =>
          simp only [List.cons_append, List.cons.injEq] at hc2
          have h2 := hc2.2
          cases c'' with
          | nil =>
            simp only [List.nil_append, List.cons.injEq, true_and] at h2
            exact hx'ne h2.symm
          | cons z c3 => simp at h2

/-- Claim C17, as amended: for a document `pre ++ L ++ "\n\n" ++ post` in which `pre`
consists of whole lines none of which begins with ":ssg-title ", `L = ":ssg-title " ++ t`
where `t` is not empty, is free of newlines, contains no further ":ssg-title " and does
not end in a space, a tab or a carriage return, `L` and the lines of `pre` are shorter
than the scanner's buffer (65536 bytes), and `L ++ "\n\n"` does not occur inside `pre`:
`AddTitleFromTag` returns the header with the first "{{from-tag}}" replaced by `t` and
the body `pre ++ post`, and `GetTitleFromTag` returns `t`. -/
theorem addTitleFromTag_removes (d header : Bytes) (ls : List Bytes) (t post : Bytes) (c : Nat)
    (hls : LinesBefore keyTitleFromTag ls) (ht : TitleRest keyTitleFromTag t)
    (hlast : t.getLast? = some c) (h32 : c ≠ 32) (h9 : c ≠ 9) (h13 : c ≠ 13)
    (hpre : ¬ (keyTitleFromTag ++ t ++ [10, 10]) <:+: joinLines ls) :
    AddTitleFromTag d header (joinLines ls ++ (keyTitleFromTag ++ t) ++ ([10, 10] ++ post)) =
      (ReplaceFirst header TargetFromTag t, joinLines ls ++ post) ∧
    FirstReplaced header TargetFromTag t
      (AddTitleFromTag d header
        (joinLines ls ++ (keyTitleFromTag ++ t) ++ ([10, 10] ++ post))).1 ∧
    GetTitleFromTag (joinLines ls ++ (keyTitleFromTag ++ t) ++ ([10, 10] ++ post)) = t := by
  have htail : LineEnd ([10, 10] ++ post) := Or.inr rfl
  have hd : dropCR t = t := dropCR_of_last t c hlast h13
  have htne : t ≠ [] := by
    intro h
    rw [h] at hlast
    cases hlast
  have hlastL : (keyTitleFromTag ++ t).getLast? = some c := by
    rw [List.getLast?_append, hlast]
    rfl
  have htrim : trimRightWhitespace (keyTitleFromTag ++ t) = keyTitleFromTag ++ t :=
    trimRightWhitespace_of_last _ c hlastL h32 h9
  have hLne : keyTitleFromTag ++ t ≠ [] := by
    intro h
    exact htne (List.append_eq_nil.1 h).2
  have hL10 : 10 ∉ keyTitleFromTag ++ t := by
    intro h
    rcases List.mem_append.1 h with h | h
    · revert h
      decide
    · exact ht.1 h
  have hat := addTitleFromTag_at_line d header ls t ([10, 10] ++ post) hls ht htail
  rw [hd, htrim] at hat
  have hshape : joinLines ls ++ (keyTitleFromTag ++ t) ++ ([10, 10] ++ post) =
      joinLines ls ++ ((keyTitleFromTag ++ t ++ [10, 10]) ++ post) := by
    simp [List.append_assoc]
  have hbody : ReplaceFirst (joinLines ls ++ (keyTitleFromTag ++ t) ++ ([10, 10] ++ post))
      (keyTitleFromTag ++ t ++ [10, 10]) [] = joinLines ls ++ post := by
    rw [hshape, replaceFirst_append _ _ _ _
      (tag_line_first ls (keyTitleFromTag ++ t) post hLne hL10 hpre),
      replaceFirst_at_head _ _ _ (by simp)]
    simp
  rw [hbody] at hat
  refine ⟨hat, ?_, ?_⟩
  · rw [hat]
    exact replaceFirst_firstReplaced header TargetFromTag t (by decide)
  · have := titleLoop_title_line keyTitleFromTag ls t ([10, 10] ++ post) (by decide) (by decide)
      (by decide) hls ht htail
    rw [hd] at this
    exact this

/-- Instance of the amended claim C17: the first document of the test `TestTitleFromTag`. -/
theorem addTitleFromTag_removes_witness :
    AddTitleFromTag [] (str "<title>{{from-tag}}</title>")
      (joinLines [str "", str "Mar 24 1998", str ""] ++ (keyTitleFromTag ++ str "My title") ++
        ([10, 10] ++ str "# Some h1\n\nSome para")) =
      (str "<title>My title</title>",
        joinLines [str "", str "Mar 24 1998", str ""] ++ str "# Some h1\n\nSome para") :=
  (addTitleFromTag_removes [] (str "<title>{{from-tag}}</title>")
    [str "", str "Mar 24 1998", str ""] (str "My title") (str "# Some h1\n\nSome para") 101
    (by decide) (by decide) (by decide) (by decide) (by decide) (by decide)
    ((contains_eq_false_iff _ _).1 (by decide))).1.trans (by decide)

/-- Claim C17 as stated fails: in ":ssg-title A\r\n\nbody" the remainder "A\r" of the tag
line ends in no space or tab, yet the header receives "A" and nothing is removed; in
":ssg-title \n\nbody" the remainder is empty and nothing is removed either. -/
theorem addTitleFromTag_removes_counterexample :
    AddTitleFromTag (str "Site") (str "<title>{{from-tag}}</title>")
      (keyTitleFromTag ++ str "A\r" ++ str "\n\n" ++ str "body") =
      (str "<title>A</title>", keyTitleFromTag ++ str "A\r" ++ str "\n\n" ++ str "body") ∧
    (AddTitleFromTag (str "Site") (str "<title>{{from-tag}}</title>")
      (keyTitleFromTag ++ str "A\r" ++ str "\n\n" ++ str "body")).2 ≠ str "body" ∧
    AddTitleFromTag (str "Site") (str "<title>{{from-tag}}</title>")
      (keyTitleFromTag ++ str "" ++ str "\n\n" ++ str "body") =
      (str "<title></title>", keyTitleFromTag ++ str "" ++ str "\n\n" ++ str "body") ∧
    (AddTitleFromTag (str "Site") (str "<title>{{from-tag}}</title>")
      (keyTitleFromTag ++ str "" ++ str "\n\n" ++ str "body")).2 ≠ str "body" := by
  decide

/-- Claim C18, as amended: when the first tag line `":ssg-title " ++ t` of a document is
one `AddTitleFromTag` accepts and the line, trimmed of a carriage return and of trailing
spaces and tabs and followed by "\n\n", occurs nowhere in the document, the body is
returned byte for byte and the header receives the title. -/
theorem addTitleFromTag_keeps_body (d header : Bytes) (ls : List Bytes) (t tail : Bytes)
    (hls : LinesBefore keyTitleFromTag ls) (ht : TitleRest keyTitleFromTag t)
    (htail : LineEnd tail)
    (hno : ¬ (trimRightWhitespace (keyTitleFromTag ++ dropCR t) ++ [10, 10]) <:+:
      joinLines ls ++ (keyTitleFromTag ++ t) ++ tail) :
    AddTitleFromTag d header (joinLines ls ++ (keyTitleFromTag ++ t) ++ tail) =
      (ReplaceFirst header TargetFromTag (dropCR t),
        joinLines ls ++ (keyTitleFromTag ++ t) ++ tail) ∧
    FirstReplaced header TargetFromTag (dropCR t)
      (AddTitleFromTag d header (joinLines ls ++ (keyTitleFromTag ++ t) ++ tail)).1 := by
  have hat := addTitleFromTag_at_line d header ls t tail hls ht htail
  rw [replaceFirst_absent _ _ _ hno] at hat
  refine ⟨hat, ?_⟩
  rw [hat]
  exact replaceFirst_firstReplaced header TargetFromTag _ (by decide)

/-- Instance of the amended claim C18: a tag line followed at once by text. -/
theorem addTitleFromTag_keeps_body_witness :
    AddTitleFromTag (str "Site") (str "<title>{{from-tag}}</title>")
      (joinLines [] ++ (keyTitleFromTag ++ str "A") ++ str "\nbody") =
      (str "<title>A</title>", joinLines [] ++ (keyTitleFromTag ++ str "A") ++ str "\nbody") :=
  (addTitleFromTag_keeps_body (str "Site") (str "<title>{{from-tag}}</title>") [] (str "A")
    (str "\nbody") (by decide) (by decide) (by decide)
    ((contains_eq_false_iff _ _).1 (by decide))).1.trans (by decide)

/-- Claim C18 as stated fails: in ":ssg-title A\nbody\n:ssg-title A\n\nmore" the first
tag line is followed at once by text, not by a blank line, yet the body is changed: the
later occurrence of the line with its blank line is removed. -/
theorem addTitleFromTag_keeps_body_counterexample :
    scanLines (str ":ssg-title A\nbody\n:ssg-title A\n\nmore") =
      [str ":ssg-title A", str "body", str ":ssg-title A", str "", str "more"] ∧
    AddTitleFromTag (str "Site") (str "<title>{{from-tag}}</title>")
      (str ":ssg-title A\nbody\n:ssg-title A\n\nmore") =
      (str "<title>A</title>", str ":ssg-title A\nbody\nmore") ∧
    (AddTitleFromTag (str "Site") (str "<title>{{from-tag}}</title>")
      (str ":ssg-title A\nbody\n:ssg-title A\n\nmore")).2 ≠
      str ":ssg-title A\nbody\n:ssg-title A\n\nmore" := by
  decide

/-! ## Lines that do not fit the scanner's buffer -/

/-- A first line of `n` bytes, `n` at least the size of the scanner's buffer (65536),
ends the scan before any line is delivered: an H1 line after it is not seen by
`GetTitleFromH1`, and a tag line after it is not seen by `AddTitleFromTag`. -/
theorem long_line_hides_titles (header d : Bytes) (n : Nat) (hn : MaxScanTokenSize ≤ n) :
    GetTitleFromH1 (List.replicate n 97 ++ 10 :: str "# Title") = [] ∧
    AddTitleFromTag d header (List.replicate n 97 ++ 10 :: str ":ssg-title T\n\nbody") =
      (ReplaceFirst header TargetFromTag d,
        List.replicate n 97 ++ 10 :: str ":ssg-title T\n\nbody") := by
  have h10 : 10 ∉ List.replicate n 97 := by
    intro h
    have := List.eq_of_mem_replicate h
    omega
  have hlen : ¬ ([] : Bytes).length + (List.replicate n 97).length < MaxScanTokenSize := by
    simp only [List.length_nil, List.length_replicate]
    omega
  have hscan : ∀ rest, scanLines (List.replicate n 97 ++ 10 :: rest) = [] := by
    intro rest
    simp only [scanLines]
    rw [scanLoop_line _ _ _ h10, if_neg hlen]
  refine ⟨?_, ?_⟩
  · simp only [GetTitleFromH1, hscan, titleLoop]
  · simp only [AddTitleFromTag, hscan, addTitleFromTagLoop]

/-! ## Outputs and their getters -/

/-- Claim C26: for an output built with `Output(target, originator, data, perm)` the
getters `Target`, `Originator` and `Data` return the constructor's arguments; `Perm`
returns `perm` when it is not zero and 0o777 (`fs.ModePerm`) when it is zero, so `Perm`
never returns zero. -/
theorem output_getters (target originator : GoString) (data : Bytes) (perm : Nat) :
    (Output target originator data perm).Target = target ∧
    (Output target originator data perm).Originator = originator ∧
    (Output target originator data perm).Data = data ∧
    (Output target originator data perm).Perm = (if perm = 0 then 0o777 else perm) ∧
    (Output target originator data perm).Perm ≠ 0 := by
  refine ⟨rfl, rfl, rfl, rfl, ?_⟩
  show (if perm = 0 then ModePerm else perm) ≠ 0
  split
  · decide
  · assumption

/-! ## Hook options -/

/-- Claim C29: on a builder whose hooks are `h`, `WithHooks(a)` gives the hooks `h ++ a`
and a newly created `PrependHooks(b)` gives `b ++ h`.  On a builder without hooks,
`WithHooks(h3, h4)` followed by `PrependHooks(h1, h2)` gives `[h1, h2, h3, h4]`, and so
does `PrependHooks(h1, h2)` followed by `WithHooks(h3, h4)`. -/
theorem hooks_options (s : Ssg) (a b : List Hook) (h1 h2 h3 h4 : Hook) :
    (WithHooks a s).options.hooks = s.options.hooks ++ a ∧
    (PrependHooks b s).options.hooks = b ++ s.options.hooks ∧
    (s.options.hooks = [] →
      (s.With [WithHooks [h3, h4], PrependHooks [h1, h2]]).options.hooks = [h1, h2, h3, h4] ∧
      (s.With [PrependHooks [h1, h2], WithHooks [h3, h4]]).options.hooks = [h1, h2, h3, h4]) := by
  refine ⟨rfl, rfl, ?_⟩
  intro hs
  constructor
  · show [h1, h2] ++ (s.options.hooks ++ [h3, h4]) = [h1, h2, h3, h4]
    rw [hs]
    rfl
  · show ([h1, h2] ++ s.options.hooks) ++ [h3, h4] = [h1, h2, h3, h4]
    rw [hs]
    rfl

/-- Instance of claim C29 on the sample builder, which has no hooks, with four hooks
that append the bytes 1, 2, 3 and 4. -/
theorem hooks_options_witness :
    fooSsg.options.hooks = [] ∧
    (fooSsg.With [WithHooks [hookAppend 3, hookAppend 4],
      PrependHooks [hookAppend 1, hookAppend 2]]).options.hooks =
      [hookAppend 1, hookAppend 2, hookAppend 3, hookAppend 4] ∧
    (fooSsg.With [PrependHooks [hookAppend 1, hookAppend 2],
      WithHooks [hookAppend 3, hookAppend 4]]).options.hooks =
      [hookAppend 1, hookAppend 2, hookAppend 3, hookAppend 4] :=
  ⟨rfl, (hooks_options fooSsg [] [] (hookAppend 1) (hookAppend 2) (hookAppend 3)
    (hookAppend 4)).2.2 rfl⟩

/-! ## The sitemap -/

/-- Claim C30, evaluated on three outputs below `dst` (some/path/page.html,
some/path/index.html and index.html) with the URL https://example.com and the date
2024-10-04: `Sitemap` emits one line per output, in order, with the locations
URL/some/path/page.html, URL/some/path/ and URL/, but each location is followed by ">"
where the closing tag of `loc` belongs; the text "</loc>" occurs nowhere in the result. -/
theorem sitemap_line_lacks_loc_end :
    Sitemap fooEnv (str "dst") (str "https://example.com") (str "2024-10-04")
      [Output (str "dst/some/path/page.html") (str "src/some/path/page.md") [] 0o644,
       Output (str "dst/some/path/index.html") (str "src/some/path/index.md") [] 0o644,
       Output (str "dst/index.html") (str "src/index.md") [] 0o644] =
      (sitemapHead ++
        str "<url><loc>https://example.com/some/path/page.html><lastmod>2024-10-04</lastmod><priority>1.0</priority></url>\n" ++
        str "<url><loc>https://example.com/some/path/><lastmod>2024-10-04</lastmod><priority>1.0</priority></url>\n" ++
        str "<url><loc>https://example.com/><lastmod>2024-10-04</lastmod><priority>1.0</priority></url>\n" ++
        str "</urlset>\n", none) ∧
    Contains (Sitemap fooEnv (str "dst") (str "https://example.com") (str "2024-10-04")
      [Output (str "dst/some/path/page.html") (str "src/some/path/page.md") [] 0o644,
       Output (str "dst/some/path/index.html") (str "src/some/path/index.md") [] 0o644,
       Output (str "dst/index.html") (str "src/index.md") [] 0o644]).1 (str "</loc>") = false := by
  decide

/-! ## The constructor -/

theorem Clean_nonempty (path : GoString) : Clean path ≠ [] := by
  have key : ∀ out : GoString, (if out = [] then str "." else out) ≠ [] := by
    intro out
    split
    · decide
    · assumption
  unfold Clean
  by_cases h : path = []
  · simp only [h, if_true]
    decide
  · simp only [h, if_false]
    exact key _

/-- Claim C27, evaluated on the sample file system: `New("", "dst", ...)` returns a
builder whose source root is "." and `New("src", "", ...)` returns a builder whose
destination root is "."; neither call panics.  `New` cleans both roots before `prepare`
sees them and a cleaned path is never empty, so the two checks for an empty root in
`prepare` never fire.  The check for equal roots does: `New` panics whenever the cleaned
roots are equal, which covers `src = dst`. -/
theorem New_empty_root_returns :
    (∃ s, New fooEnv (str "") (str "dst") (str "Site") (str "https://example.com") = .ok s ∧
      s.Src = str "." ∧ s.Dst = str "dst") ∧
    (∃ s, New fooEnv (str "src") (str "") (str "Site") (str "https://example.com") = .ok s ∧
      s.Src = str "src" ∧ s.Dst = str ".") ∧
    (∀ (env : Env) (src dst : GoString),
      prepare env (Clean src) (Clean dst) ≠ .error (other (str "empty src")) ∧
      prepare env (Clean src) (Clean dst) ≠ .error (other (str "empty dst"))) ∧
    (∀ (env : Env) (src dst title url : GoString), Clean src = Clean dst →
      New env src dst title url =
        .error (other (str "src is identical to dst: '" ++ Clean src ++ str "'"))) := by
  refine ⟨⟨_, rfl, by decide, by decide⟩, ⟨_, rfl, by decide, by decide⟩, ?_, ?_⟩
  · intro env src dst
    have h1 := Clean_nonempty src
    have h2 := Clean_nonempty dst
    unfold prepare
    simp only [h1, h2, if_false]
    split
    · constructor <;> · intro h; cases h
    · unfold ParseSsgIgnore
      split
      · split
        · constructor <;> · intro h; cases h
        · constructor <;> · intro h; cases h
      · constructor <;> · intro h; cases h
  · intro env src dst title url h
    have h1 := Clean_nonempty src
    have h2 := Clean_nonempty dst
    have hp : prepare env (Clean src) (Clean dst) =
        .error (other (str "src is identical to dst: '" ++ Clean src ++ str "'")) := by
      simp [prepare, h1, ← h]
    unfold New
    simp only [hp]


/-! ## Hidden directories -/

/-- Claim C22, evaluated on a source tree whose only entry is the hidden directory
`.git` holding the file `config`: `shouldIgnore` would answer `SkipDir` for `src/.git`,
but `walk` returns the result of `collect` for every directory before `shouldIgnore` is
asked, so the walk descends: `build` reads `src/.git/config`, records it in the input
files and emits it as the output `dst/.git/config`. -/
theorem hidden_directory_is_walked :
    shouldIgnore hiddenEnv fooSsg.ssgignores (str "src/.git") (str ".git")
      (dirEntry (str ".git")) = (true, some SkipDir) ∧
    (fooSsg.walk hiddenEnv (str "src/.git") (dirEntry (str ".git")) none).2 = none ∧
    (build hiddenEnv 3 fooSsg none).map (fun r => r.2) =
      some ([str "src/.git/config"],
        [Output (str "dst/.git/config") (str "src/.git/config") gitConfig 0o644], none) := by
  decide


/-! ## What one call of `walk` does to the builder -/

theorem collectLoop_fields (env : Env) (path : GoString) (children : List DirEntry) (s : Ssg) :
    (collectLoop env path children s).1.result = s.result ∧
    (collectLoop env path children s).1.options = s.options ∧
    (collectLoop env path children s).1.ssgignores = s.ssgignores ∧
    (collectLoop env path children s).1.Src = s.Src ∧
    (collectLoop env path children s).1.Dst = s.Dst ∧
    (collectLoop env path children s).1.Title = s.Title ∧
    (collectLoop env path children s).1.Url = s.Url := by
  induction children generalizing s with
  | nil => simp [collectLoop]
  | cons child rest ih =>
    simp only [collectLoop]
    split
    · split
      · simp
      · split
        · simp
        · exact ih _
    · split
      · split
        · simp
        · split
          · simp
          · exact ih _
      · split
        · exact ih _
        · split
          · simp
          · exact ih _

theorem collect_fields (env : Env) (s : Ssg) (path : GoString) :
    (s.collect env path).1.result = s.result ∧
    (s.collect env path).1.options = s.options ∧
    (s.collect env path).1.ssgignores = s.ssgignores ∧
    (s.collect env path).1.Src = s.Src ∧
    (s.collect env path).1.Dst = s.Dst ∧
    (s.collect env path).1.Title = s.Title ∧
    (s.collect env path).1.Url = s.Url := by
  unfold Ssg.collect
  split
  · simp
  · exact collectLoop_fields env path _ s

theorem shouldIgnore_false (env : Env) (ignoreFn : GoString → Bool) (path base : GoString)
    (d : DirEntry) (h : shouldIgnore env ignoreFn path base d = (false, none)) :
    HasPrefix base (str ".") = false ∧ d.isDir = false ∧ ignoreFn path = false := by
  unfold shouldIgnore at h
  cases h1 : HasPrefix base (str ".") <;> cases h2 : d.isDir <;> cases h3 : ignoreFn path <;>
    simp [h1, h2, h3] at h ⊢

/-- One call of `walk` leaves the builder as it is, or is the `collect` of a directory, or
records a file that is not passed over and then either stops or adds the output of
`core` to the sink. -/
theorem walk_shape (env : Env) (s : Ssg) (path : GoString) (d : DirEntry) (err : Option GoError) :
    (s.walk env path d err).1 = s ∨
    (s.walk env path d err).1 = (s.collect env path).1 ∨
    (NotMarker path ∧ ∃ data, env.ReadFile path = .ok data ∧
      ((s.walk env path d err).1 = recordInput s path ∨
       ∃ st out, runPipelines s.options.pipelines 0 path data d = .ok st ∧
         (recordInput s path).core env st.path st.data st.d = .ok out ∧
         (s.walk env path d err).1 =
           { recordInput s path with result := (recordInput s path).result.Add [out] })) := by
  cases err with
  | some e => left; rfl
  | none =>
    by_cases hdir : d.isDir = true
    · right; left
      simp [Ssg.walk, hdir]
    · have hdir' : d.isDir = false := by simpa using hdir
      rcases hsi : shouldIgnore env s.ssgignores path (Base path) d with ⟨ig, e⟩
      cases e with
      | some e => left; simp [Ssg.walk, hdir', hsi]
      | none =>
        cases ig with
        | true => left; simp [Ssg.walk, hdir', hsi]
        | false =>
          have hdot := (shouldIgnore_false env _ _ _ _ hsi).1
          by_cases hm : Base path = MarkerHeader ∨ Base path = MarkerFooter ∨ Base path = SsgIgnore
          · left; simp [Ssg.walk, hdir', hsi, hm]
          · have hnm : NotMarker path := by
              unfold NotMarker
              refine ⟨fun h => hm (Or.inl h), fun h => hm (Or.inr (Or.inl h)),
                fun h => hm (Or.inr (Or.inr h)), hdot⟩
            cases hrf : env.ReadFile path with
            | error e => left; simp [Ssg.walk, hdir', hsi, hm, hrf]
            | ok data =>
              right; right
              refine ⟨hnm, data, rfl, ?_⟩
              cases hrp : runPipelines s.options.pipelines 0 path data d with
              | error e =>
                left
                simp only [Ssg.walk, hdir', hsi, hm, hrf, Bool.false_eq_true, if_false, hrp]
                rfl
              | ok st =>
                by_cases hsk : st.skipCore = true
                · left
                  simp only [Ssg.walk, hdir', hsi, hm, hrf, Bool.false_eq_true, if_false, hrp,
                    hsk, if_true]
                  rfl
                · cases hc : (recordInput s path).core env st.path st.data st.d with
                  | error e =>
                    left
                    have hc' := hc
                    unfold recordInput at hc'
                    simp only [Ssg.walk, hdir', hsi, hm, hrf, Bool.false_eq_true, if_false, hrp,
                      hsk, hc']
                    rfl
                  | ok out =>
                    right
                    refine ⟨st, out, rfl, hc, ?_⟩
                    have hc' := hc
                    unfold recordInput at hc'
                    simp only [Ssg.walk, hdir', hsi, hm, hrf, Bool.false_eq_true, if_false, hrp,
                      hsk, hc']
                    rfl

theorem core_originator (env : Env) (s : Ssg) (path : GoString) (data : Bytes) (d : DirEntry)
    (out : OutputFile) (h : s.core env path data d = .ok out) : out.originator = path := by
  unfold Ssg.core at h
  split at h
  · cases h
  · split at h
    · cases h
    · split at h
      · split at h
        · cases h
        · cases h; rfl
      · split at h
        · cases h
        · simp only at h
          split at h
          · cases h
          · cases h; rfl

/-! ## Invariants of the directory walk -/

theorem walkChildren_invariant {σ : Type} (env : Env)
    (recur : GoString → DirEntry → σ → Option (σ × Option GoError)) (P : σ → Prop)
    (hrec : ∀ path d s r, P s → recur path d s = some r → P r.1)
    (path : GoString) (dirs : List DirEntry) (s : σ) (r : σ × Option GoError)
    (hs : P s) (h : walkChildren env recur path dirs s = some r) : P r.1 := by
  induction dirs generalizing s with
  | nil =>
    simp only [walkChildren, Option.some.injEq] at h
    subst h
    exact hs
  | cons d1 rest ih =>
    simp only [walkChildren] at h
    cases hr : recur (env.Join path d1.name) d1 s with
    | none => rw [hr] at h; cases h
    | some r1 =>
      obtain ⟨s1, e1⟩ := r1
      have hs1 : P s1 := hrec _ _ _ _ hs hr
      rw [hr] at h
      cases e1 with
      | none => exact ih s1 hs1 h
      | some e =>
        simp only at h
        split at h
        · cases h; exact hs1
        · cases h; exact hs1

theorem walkDir_invariant {σ : Type} (env : Env)
    (fn : σ → GoString → DirEntry → Option GoError → σ × Option GoError) (P : σ → Prop)
    (hfn : ∀ s path d err, P s → P (fn s path d err).1)
    (fuel : Nat) (path : GoString) (d : DirEntry) (s : σ) (r : σ × Option GoError)
    (hs : P s) (h : walkDir env fn fuel path d s = some r) : P r.1 := by
  induction fuel generalizing path d s r with
  | zero => simp [walkDir] at h
  | succ fuel ih =>
    have h1 := hfn s path d none hs
    rw [walkDir] at h
    rcases hf : fn s path d none with ⟨s1, e1⟩
    rw [hf] at h h1
    cases e1 with
    | some e => cases h; exact h1
    | none =>
      simp only at h
      split at h
      · cases h; exact h1
      · split at h
        · rename_i e2 _
          have h2 := hfn s1 path d (some e2) h1
          rcases hf2 : fn s1 path d (some e2) with ⟨s2, e3⟩
          rw [hf2] at h h2
          cases e3 with
          | some e => cases h; exact h2
          | none => cases h; exact h2
        · exact walkChildren_invariant env _ P (fun p c t r ht hr => ih p c t r ht hr) path _ s1 r
            h1 h

theorem WalkDir_invariant {σ : Type} (env : Env)
    (fn : σ → GoString → DirEntry → Option GoError → σ × Option GoError) (P : σ → Prop)
    (hfn : ∀ s path d err, P s → P (fn s path d err).1)
    (fuel : Nat) (root : GoString) (s : σ) (r : σ × Option GoError)
    (hs : P s) (h : WalkDir env fn fuel root s = some r) : P r.1 := by
  unfold WalkDir at h
  cases hl : env.Lstat root with
  | error e =>
    rw [hl] at h
    have h1 := hfn s root { name := [], isDir := false, info := .error e } (some e) hs
    rcases hf : fn s root { name := [], isDir := false, info := .error e } (some e) with ⟨s1, e1⟩
    simp only at h
    rw [hf] at h h1
    cases e1 with
    | none => cases h; exact h1
    | some e2 =>
      simp only at h
      split at h
      · cases h; exact h1
      · cases h; exact h1
  | ok info =>
    rw [hl] at h
    simp only at h
    cases hw : walkDir env fn fuel root (FileInfoToDirEntry info) s with
    | none => rw [hw] at h; cases h
    | some r1 =>
      have h1 := walkDir_invariant env fn P hfn fuel root _ s r1 hs hw
      obtain ⟨s1, e1⟩ := r1
      rw [hw] at h
      cases e1 with
      | none => cases h; exact h1
      | some e2 =>
        simp only at h
        split at h
        · cases h; exact h1
        · cases h; exact h1

/-- An invariant of `walk` that holds of the builder as `build` resets it holds of the
builder `build` returns. -/
theorem build_invariant (env : Env) (P : Ssg → Prop)
    (hfn : ∀ s path d err, P s → P (s.walk env path d err).1)
    (fuel : Nat) (s : Ssg) (o : Option (List OutputFile))
    (r : Ssg × List GoString × List OutputFile × Option GoError)
    (hs : P (resetResult s o)) (h : build env fuel s o = some r) :
    P r.1 ∧ (r.2.2.2 = none → r.2.1 = r.1.result.files ∧ r.2.2.1 = r.1.result.cache) ∧
      (r.2.2.2 ≠ none → r.2.1 = [] ∧ r.2.2.1 = []) := by
  have hb : build env fuel s o =
      (match WalkDir env (walkFn env) fuel s.Src (resetResult s o) with
      | none => none
      | some (s, some err) => some (s, [], [], some err)
      | some (s, none) => some (s, s.result.files, s.result.cache, none)) := rfl
  rw [hb] at h
  cases hw : WalkDir env (walkFn env) fuel s.Src (resetResult s o) with
  | none => rw [hw] at h; cases h
  | some r1 =>
    have h1 := WalkDir_invariant env (walkFn env) P hfn fuel s.Src _ r1 hs hw
    obtain ⟨s1, e1⟩ := r1
    rw [hw] at h
    cases e1 with
    | none => cases h; exact ⟨h1, fun _ => ⟨rfl, rfl⟩, fun hne => absurd rfl hne⟩
    | some e => cases h; exact ⟨h1, fun hn => (by cases hn), fun _ => ⟨rfl, rfl⟩⟩


/-! ## Entries the walk passes over -/

/-- Claim C23 as stated fails for output targets: in a build without stages of a source
tree whose only entry is the Markdown file `_header.md`, the file is converted and the
output target is `dst/_header.html`, whose base name is the header marker. -/
theorem header_md_counterexample :
    fooSsg.options.pipelines = [] ∧
    (build headerMdEnv 2 fooSsg none).map (fun r => (r.2.1, r.2.2.1.map OutputFile.target, r.2.2.2)) =
      some ([str "src/_header.md"], [str "dst/_header.html"], none) ∧
    Base (str "dst/_header.html") = MarkerHeader :=
  ⟨rfl, by decide, by decide⟩

/-- Claim C23, as amended: for a file entry whose base name is the ignore file or begins
with a dot, or for which the ignore predicate holds, or whose base name is a marker while
`os.Stat` of the path does not fail with an error other than not-exist, `walk` returns no
error and leaves the whole builder unchanged, whatever the stages are.  In a build
without stages no input file has a passed-over base name and every output originates
from an input file (its target may still be named like a marker). -/
theorem walk_skips_markers (env : Env) :
    (∀ (s : Ssg) (path : GoString) (d : DirEntry), d.isDir = false →
      (Base path = SsgIgnore ∨ HasPrefix (Base path) (str ".") = true ∨
        s.ssgignores path = true ∨
        ((Base path = MarkerHeader ∨ Base path = MarkerFooter) ∧
          ∀ e, env.Stat path = .error e → IsNotExist e = true)) →
      s.walk env path d none = (s, none)) ∧
    (∀ (fuel : Nat) (s : Ssg) (o : Option (List OutputFile))
      (r : Ssg × List GoString × List OutputFile × Option GoError),
      s.options.pipelines = [] → build env fuel s o = some r →
      (∀ p ∈ r.1.result.files, NotMarker p) ∧
      (∀ out ∈ r.1.result.cache, out.originator ∈ r.1.result.files) ∧
      (∀ p ∈ r.2.1, NotMarker p) ∧
      (∀ out ∈ r.2.2.1, out.originator ∈ r.2.1 ∧ NotMarker out.originator)) := by
  constructor
  · intro s path d hdir h
    have hdot : Base path = SsgIgnore → HasPrefix (Base path) (str ".") = true := by
      intro hb
      rw [hb]
      decide
    rcases h with h | h | h | ⟨h, hstat⟩
    · simp [Ssg.walk, shouldIgnore, hdir, hdot h]
    · simp [Ssg.walk, shouldIgnore, hdir, h]
    · cases h1 : HasPrefix (Base path) (str ".") <;> simp [Ssg.walk, shouldIgnore, hdir, h, h1]
    · have hm : Base path = MarkerHeader ∨ Base path = MarkerFooter ∨ Base path = SsgIgnore := by
        rcases h with h | h
        · exact Or.inl h
        · exact Or.inr (Or.inl h)
      cases h1 : HasPrefix (Base path) (str ".") <;> cases h2 : s.ssgignores path <;>
        simp only [Ssg.walk, shouldIgnore, hdir, h1, h2, Bool.and_false, Bool.or_false,
          Bool.false_eq_true, if_false, Bool.and_true, Bool.or_true, if_true, Bool.true_and,
          Bool.and_self, Bool.or_self]
      cases hst : env.Stat path with
      | error e =>
        have := hstat e hst
        simp [this]
      | ok stat =>
        cases hsym : FileIs stat ModeSymlink <;> simp [hm, hsym]
  · intro fuel s o r hpipe hb
    have hinv := build_invariant env
      (fun t => t.options.pipelines = [] ∧ (∀ p ∈ t.result.files, NotMarker p) ∧
        ∀ out ∈ t.result.cache, out.originator ∈ t.result.files)
      (by
        intro t path d err ⟨hp, hf, hc⟩
        rcases walk_shape env t path d err with h | h | ⟨hnm, data, _, h | ⟨st, out, hrp, hcore, h⟩⟩
        · rw [h]; exact ⟨hp, hf, hc⟩
        · rw [h]
          obtain ⟨h1, h2, _⟩ := collect_fields env t path
          rw [h1, h2]
          exact ⟨hp, hf, hc⟩
        · rw [h]
          refine ⟨hp, ?_, ?_⟩
          · intro p hpm
            rcases List.mem_append.1 hpm with hpm | hpm
            · exact hf p hpm
            · rw [List.mem_singleton.1 hpm]; exact hnm
          · intro out hom
            exact List.mem_append_left _ (hc out hom)
        · rw [h]
          have horig : out.originator = path := by
            have hp' : (recordInput t path).options.pipelines = [] := hp
            rw [hp] at hrp
            simp only [runPipelines, Except.ok.injEq] at hrp
            subst hrp
            exact core_originator env _ _ _ _ out hcore
          obtain ⟨_, hfiles, hcache, _⟩ := buildOutput_Add_fields (recordInput t path).result [out]
          refine ⟨hp, ?_, ?_⟩
          · intro p hpm
            have hpm' : p ∈ t.result.files ++ [path] := by
              have : ((recordInput t path).result.Add [out]).files = t.result.files ++ [path] :=
                hfiles
              rw [← this]; exact hpm
            rcases List.mem_append.1 hpm' with hpm' | hpm'
            · exact hf p hpm'
            · rw [List.mem_singleton.1 hpm']; exact hnm
          · intro o2 hom
            have hfl : ((recordInput t path).result.Add [out]).files = t.result.files ++ [path] :=
              hfiles
            have hom' : o2 ∈ (if (recordInput t path).result.cacheOutput then
                (recordInput t path).result.cache ++ [out] else (recordInput t path).result.cache) := by
              rw [← hcache]; exact hom
            show o2.originator ∈ ((recordInput t path).result.Add [out]).files
            rw [hfl]
            have hcases : o2 ∈ t.result.cache ∨ o2 = out := by
              split at hom'
              · rcases List.mem_append.1 hom' with h1 | h1
                · exact Or.inl h1
                · exact Or.inr (List.mem_singleton.1 h1)
              · exact Or.inl hom'
            rcases hcases with h1 | h1
            · exact List.mem_append_left _ (hc o2 h1)
            · rw [h1, horig]; exact List.mem_append_right _ (List.mem_singleton_self _))
      fuel s o r ⟨hpipe, (by intro p hp; cases hp), (by intro p hp; cases hp)⟩ hb
    obtain ⟨⟨_, hf, hc⟩, hok, herr⟩ := hinv
    refine ⟨hf, hc, ?_, ?_⟩
    · cases he : r.2.2.2 with
      | none => rw [(hok he).1]; exact hf
      | some e =>
        rw [(herr (by rw [he]; intro h; cases h)).1]
        intro p hp; cases hp
    · cases he : r.2.2.2 with
      | none =>
        rw [(hok he).1, (hok he).2]
        intro out hom
        exact ⟨hc out hom, hf _ (hc out hom)⟩
      | some e =>
        rw [(herr (by rw [he]; intro h; cases h)).2]
        intro p hp; cases hp

/-- Instance of claim C23 on the sample tree: the walk passes over a file named
`_header.html`, and the build of the tree records no passed-over file. -/
theorem walk_skips_markers_witness :
    fooSsg.walk fooEnv (str "src/_header.html") (fileEntry (str "_header.html")) none =
      (fooSsg, none) ∧
    ∃ r, build fooEnv 2 fooSsg none = some r ∧ r.2.1.length = 3 ∧
      (∀ p ∈ r.2.1, NotMarker p) ∧
      (∀ out ∈ r.2.2.1, out.originator ∈ r.2.1 ∧ NotMarker out.originator) :=
  ⟨(walk_skips_markers fooEnv).1 fooSsg (str "src/_header.html")
      (fileEntry (str "_header.html")) rfl
      (Or.inr (Or.inr (Or.inr ⟨Or.inl (by decide), fun e h => by cases h⟩))),
    _, rfl, by decide,
    ((walk_skips_markers fooEnv).2 2 fooSsg none _ rfl rfl).2.2⟩


/-! ## Caching in `Build` -/

theorem With_caching (opts : List BuilderOption) (s : Ssg)
    (h : ∀ opt ∈ opts, ∀ t : Ssg, (opt t).options.caching = t.options.caching) :
    (s.With opts).options.caching = s.options.caching := by
  induction opts generalizing s with
  | nil => rfl
  | cons opt rest ih =>
    have h1 : (Ssg.With (opt s) rest).options.caching = (opt s).options.caching :=
      ih (opt s) (fun o ho t => h o (List.mem_cons_of_mem _ ho) t)
    have h2 : (s.With (opt :: rest)) = Ssg.With (opt s) rest := rfl
    rw [h2, h1]
    exact h opt (List.mem_cons_self _ _) s


/-! ## The concurrent writer -/

theorem runs_empty (write : OutputFile → Option GoError) (st : WriteOutState) (k : Nat)
    (h : WriteOut.runs write k st = []) (n : Nat) : WriteOut.runs write (k + n) st = [] := by
  induction n with
  | zero => exact h
  | succ n ih =>
    show (WriteOut.runs write (k + n) st).flatMap (WriteOut.step write) = []
    rw [ih]
    rfl

/-- When the item that cannot be written is the only one or the last one of the stream,
every schedule ends with `WriteOut` returning no metadata and the error of that item; when
every item can be written, every schedule ends with the metadata of the items. -/
theorem writeOut_returns :
    ((WriteOut.runs failFirst 6 (WriteOut.start [badOutput] 1)).map (fun st => st.main)).dedup =
      [Main.returned none
        [{ err := other (str "permission denied"), target := str "dst/a.html"
           originator := str "src/a.md" }]] ∧
    ((WriteOut.runs failFirst 9 (WriteOut.start [goodOutput, badOutput] 1)).map
      (fun st => st.main)).dedup =
      [Main.returned none
        [{ err := other (str "permission denied"), target := str "dst/a.html"
           originator := str "src/a.md" }]] ∧
    ((WriteOut.runs failFirst 8 (WriteOut.start [goodOutput, goodOutput] 2)).map
      (fun st => st.main)).dedup =
      [Main.returned (some [Output (str "dst/b.html") (str "src/b.md") [] 0o644,
        Output (str "dst/b.html") (str "src/b.md") [] 0o644]) []] :=
  ⟨by decide, by decide, by decide⟩

/-- Claim C25, evaluated on a stream of two items of which the first cannot be written,
with a writer count of 1 (a count of 0 starts in the same state): whatever the schedule,
after four steps main has the second item in hand and waits for room in `guard`, while
the worker of the first item holds the only value of `guard` and waits to send its error
on `errs`, from which main receives only after the loop.  No goroutine can take a step
from there, and in no state of any run has `WriteOut` returned: it returns neither an
error nor metadata, and the second item is never attempted. -/
theorem writeOut_deadlock :
    (∀ stream, WriteOut.start stream 0 = WriteOut.start stream 1) ∧
    WriteOut.runs failFirst 4 (WriteOut.start [badOutput, goodOutput] 1) =
      [stuckState, stuckState] ∧
    WriteOut.step failFirst stuckState = [] ∧
    ∀ n, ∀ st ∈ WriteOut.runs failFirst n (WriteOut.start [badOutput, goodOutput] 1),
      st.hasReturned = false := by
  refine ⟨fun _ => rfl, by decide, by decide, ?_⟩
  intro n
  have h5 : WriteOut.runs failFirst 5 (WriteOut.start [badOutput, goodOutput] 1) = [] := by
    decide
  by_cases hn : n < 5
  · have : n = 0 ∨ n = 1 ∨ n = 2 ∨ n = 3 ∨ n = 4 := by omega
    rcases this with rfl | rfl | rfl | rfl | rfl <;> decide
  · have : n = 5 + (n - 5) := by omega
    rw [this, runs_empty failFirst _ 5 h5]
    intro st hst
    cases hst


/-! ## The iteration order of the stores -/

/-- Claim C24 as stated fails: with a stage that files `src/z.md` under the path of the
directory `src/x.md`, whose subdirectories `a` and `b` both hold a header, the keys
`src/x.md/a` and `src/x.md/b` are candidates of the same length and `choose` takes the one
visited last.  Two builds of the same tree with the same stage, one visiting the entries
in insertion order and one visiting the header of `a` last, return different bytes for
`dst/x.html`. -/
theorem build_order_counterexample :
    (buildIn tieEnv id id 4 tieSsg none).map (fun r => r.2) =
      some ([str "src/z.md"],
        [Output (str "dst/x.html") (str "src/x.md")
          (str "<B>\n" ++ str "<p>text\n</p>" ++ FooterDefault) 0o644], none) ∧
    (buildIn tieEnv (visitLast (str "src/x.md/a")) id 4 tieSsg none).map (fun r => r.2) =
      some ([str "src/z.md"],
        [Output (str "dst/x.html") (str "src/x.md")
          (str "<A>\n" ++ str "<p>text\n</p>" ++ FooterDefault) 0o644], none) ∧
    buildIn tieEnv id id 4 tieSsg none = build tieEnv 4 tieSsg none :=
  ⟨by decide, by decide, rfl⟩


/-! ## Candidates that are ancestors -/

theorem splitLoop_ne_nil (sep s cur : List Nat) (skip : Nat) : splitLoop sep s cur skip ≠ [] := by
  induction s generalizing cur skip with
  | nil => simp [splitLoop]
  | cons x xs ih =>
    cases skip with
    | succ k => simpa [splitLoop] using ih cur k
    | zero =>
      simp only [splitLoop]
      split
      · simp
      · exact ih _ _

theorem intercalate_cons_cons (sep a : List Nat) (l : List (List Nat)) (hl : l ≠ []) :
    sep.intercalate (a :: l) = a ++ sep ++ sep.intercalate l := by
  cases l with
  | nil => exact absurd rfl hl
  | cons b l => simp [List.intercalate, List.intersperse]

theorem intercalate_splitLoop (c : Nat) (s cur : List Nat) :
    [c].intercalate (splitLoop [c] s cur 0) = cur.reverse ++ s := by
  induction s generalizing cur with
  | nil => simp [splitLoop, List.intercalate]
  | cons x xs ih =>
    by_cases hx : c = x
    · have hstep : splitLoop [c] (x :: xs) cur 0 = cur.reverse :: splitLoop [c] xs [] 0 := by
        simp [splitLoop, hx, List.isPrefixOf]
      rw [hstep, intercalate_cons_cons _ _ _ (splitLoop_ne_nil _ _ _ _), ih]
      simp [hx]
    · have hstep : splitLoop [c] (x :: xs) cur 0 = splitLoop [c] xs (x :: cur) 0 := by
        simp [splitLoop, hx, List.isPrefixOf]
      rw [hstep, ih]
      simp

theorem intercalate_segments (s : GoString) : (str "/").intercalate (segments s) = s := by
  have h47 : str "/" = [47] := by decide
  unfold segments Split
  rw [h47, intercalate_splitLoop]
  rfl

theorem segments_ne_nil (s : GoString) : segments s ≠ [] :=
  splitLoop_ne_nil _ _ _ _

theorem intercalate_append (sep : List Nat) (a t : List (List Nat)) (ha : a ≠ []) (ht : t ≠ []) :
    sep.intercalate (a ++ t) = sep.intercalate a ++ sep ++ sep.intercalate t := by
  induction a with
  | nil => exact absurd rfl ha
  | cons x a ih =>
    cases a with
    | nil =>
      have : sep.intercalate [x] = x := by simp [List.intercalate]
      rw [this]
      exact intercalate_cons_cons sep x t ht
    | cons y a =>
      have h1 : sep.intercalate (x :: ((y :: a) ++ t)) =
          x ++ sep ++ sep.intercalate ((y :: a) ++ t) :=
        intercalate_cons_cons sep x ((y :: a) ++ t) (by simp)
      have h2 : sep.intercalate (x :: y :: a) = x ++ sep ++ sep.intercalate (y :: a) :=
        intercalate_cons_cons sep x (y :: a) (by simp)
      rw [List.cons_append, h1, ih (by simp), h2]
      simp [List.append_assoc]

theorem segmentsMatch_initial (a b : List GoString) (h : segmentsMatch a b = true)
    (hlen : b.length ≤ a.length) : b <+: a := by
  induction a generalizing b with
  | nil =>
    cases b with
    | nil => exact List.prefix_refl _
    | cons y bs => simp at hlen
  | cons x as ih =>
    cases b with
    | nil => exact List.nil_prefix
    | cons y bs =>
      by_cases hxy : x = y
      · subst hxy
        have h2 : segmentsMatch as bs = true := by simpa [segmentsMatch] using h
        have := ih bs h2 (by simpa using hlen)
        exact (List.prefix_cons_inj x).2 this
      · simp [segmentsMatch, hxy] at h

/-- Two candidates for a path that have no more segments than the path and keys of the
same length are the same key. -/
theorem candidates_no_tie (p k1 k2 : GoString) (h1 : isCandidate p k1) (h2 : isCandidate p k2)
    (hl1 : (segments k1).length ≤ (segments p).length)
    (hl2 : (segments k2).length ≤ (segments p).length) (hlen : len k1 = len k2) : k1 = k2 := by
  have p1 : segments k1 <+: segments p :=
    segmentsMatch_initial _ _ ((segmentsMatch_iff_isCandidate p k1).2 h1) hl1
  have p2 : segments k2 <+: segments p :=
    segmentsMatch_initial _ _ ((segmentsMatch_iff_isCandidate p k2).2 h2) hl2
  have key : ∀ a b : GoString, segments a <+: segments b → len a = len b → a = b := by
    intro a b hab hl
    obtain ⟨t, ht⟩ := hab
    by_cases hte : t = []
    · subst hte
      rw [List.append_nil] at ht
      rw [← intercalate_segments a, ← intercalate_segments b, ht]
    · exfalso
      have hb : b = (str "/").intercalate (segments a) ++ str "/" ++ (str "/").intercalate t := by
        rw [← intercalate_append _ _ _ (segments_ne_nil a) hte, ht, intercalate_segments]
      rw [intercalate_segments] at hb
      have h1 : (str "/").length = 1 := by decide
      have : len b = len a + 1 + len ((str "/").intercalate t) := by
        rw [hb]
        simp only [len, List.length_append, h1]
      omega
  rcases List.prefix_or_prefix_of_prefix p1 p2 with h | h
  · exact key k1 k2 h hlen
  · exact (key k2 k1 h hlen.symm).symm

/-! ## `choose` and the order of the entries -/

theorem GoMap.get_eq_some_iff {T : Type} (m : GoMap T) (hnd : (m.map Prod.fst).Nodup)
    (key : GoString) (v : T) : m.get key = some v ↔ (key, v) ∈ m := by
  induction m with
  | nil => simp [GoMap.get]
  | cons hd tl ih =>
    obtain ⟨k, w⟩ := hd
    simp only [List.map_cons, List.nodup_cons] at hnd
    by_cases hk : k = key
    · subst hk
      simp only [GoMap.get, if_true, Option.some.injEq, List.mem_cons, Prod.mk.injEq, true_and]
      constructor
      · intro h; exact Or.inl h.symm
      · intro h
        rcases h with h | h
        · exact h.symm
        · exact absurd (List.mem_map_of_mem Prod.fst h) hnd.1
    · simp only [GoMap.get, hk, if_false, List.mem_cons, Prod.mk.injEq]
      rw [ih hnd.2]
      constructor
      · intro h; exact Or.inr h
      · intro h
        rcases h with h | h
        · exact absurd h.1.symm hk
        · exact h

theorem GoMap.get_perm {T : Type} (m m' : GoMap T) (h : m'.Perm m)
    (hnd : (m.map Prod.fst).Nodup) (key : GoString) : m'.get key = m.get key := by
  have hnd' : (m'.map Prod.fst).Nodup := ((h.map Prod.fst).nodup_iff).2 hnd
  apply Option.ext
  intro v
  simp only [Option.mem_def]
  rw [GoMap.get_eq_some_iff m' hnd', GoMap.get_eq_some_iff m hnd]
  exact h.mem_iff

theorem chooseLoop_perm {T : Type} (parts : List GoString) (v0 : T) (m m' : GoMap T)
    (h : m'.Perm m) (hnd : (m.map Prod.fst).Nodup)
    (htie : ∀ e1 ∈ m, ∀ e2 ∈ m, segmentsMatch parts (Split e1.1 (str "/")) = true →
      segmentsMatch parts (Split e2.1 (str "/")) = true → len e1.1 = len e2.1 → e1.1 = e2.1) :
    (chooseLoop parts m' (v0, 0)).1 = (chooseLoop parts m (v0, 0)).1 := by
  rcases chooseLoop_result parts m v0 0 with ⟨h1, h2⟩ | ⟨e, he, hc, hr, _, hmax⟩
  · rcases chooseLoop_result parts m' v0 0 with ⟨h1', _⟩ | ⟨e', he', hc', _, _, _⟩
    · rw [h1, h1']
    · have := h2 e' (h.mem_iff.1 he') hc'
      omega
  · rcases chooseLoop_result parts m' v0 0 with ⟨_, h2'⟩ | ⟨e', he', hc', hr', _, hmax'⟩
    · have := h2' e (h.mem_iff.2 he) hc
      omega
    · rw [hr, hr']
      have hle1 := hmax e' (h.mem_iff.1 he') hc'
      have hle2 := hmax' e (h.mem_iff.2 he) hc
      have hkey : e'.1 = e.1 :=
        htie e' (h.mem_iff.1 he') e he hc' hc (Nat.le_antisymm hle1 hle2)
      have h3 : m.get e.1 = some e.2 := (GoMap.get_eq_some_iff m hnd e.1 e.2).2 he
      have h4 : m.get e'.1 = some e'.2 :=
        (GoMap.get_eq_some_iff m hnd e'.1 e'.2).2 (h.mem_iff.1 he')
      rw [hkey, h3] at h4
      exact (Option.some.inj h4).symm

theorem choose_perm {T : Type} (p : GoString) (v0 : T) (m m' : GoMap T)
    (h : m'.Perm m) (hnd : (m.map Prod.fst).Nodup)
    (htie : ∀ e1 ∈ m, ∀ e2 ∈ m, isCandidate p e1.1 → isCandidate p e2.1 →
      len e1.1 = len e2.1 → e1.1 = e2.1) :
    choose p v0 m' = choose p v0 m := by
  unfold choose
  rw [GoMap.get_perm m m' h hnd p]
  cases m.get p with
  | some v => rfl
  | none =>
    exact chooseLoop_perm _ v0 m m' h hnd (fun e1 h1 e2 h2 c1 c2 hl =>
      htie e1 h1 e2 h2 ((segmentsMatch_iff_isCandidate p e1.1).1 c1)
        ((segmentsMatch_iff_isCandidate p e2.1).1 c2) hl)


/-! ## A walk step on builders that agree up to the order of their stores -/

theorem KeysOk_perm {T : Type} (env : Env) (m m' : GoMap T) (h : m'.Perm m)
    (hk : KeysOk env m) : KeysOk env m' :=
  ⟨((h.map Prod.fst).nodup_iff).2 hk.1, fun k hkm => hk.2 k ((h.map Prod.fst).mem_iff.1 hkm)⟩

theorem KeysOk_append {T : Type} (env : Env) (m : GoMap T) (path : GoString) (v : T)
    (l0 : List DirEntry) (hk : KeysOk env m) (hrd : env.ReadDir path = .ok l0)
    (hg : m.get path = none) : KeysOk env (m ++ [(path, v)]) := by
  have hnot : path ∉ m.map Prod.fst := by
    intro hmem
    have := (GoMap.get_isSome_iff m path).2 hmem
    rw [hg] at this
    cases this
  constructor
  · rw [List.map_append, List.nodup_append]
    refine ⟨hk.1, by simp, ?_⟩
    intro a ha hb
    simp only [List.map_cons, List.map_nil, List.mem_singleton] at hb
    subst hb
    exact hnot ha
  · intro k hkm
    rw [List.map_append, List.mem_append] at hkm
    rcases hkm with hkm | hkm
    · exact hk.2 k hkm
    · simp only [List.map_cons, List.map_nil, List.mem_singleton] at hkm
      subst hkm
      exact ⟨l0, hrd⟩

theorem core_withStores (env : Env) (s : Ssg) (hv : GoMap header) (fv : GoMap Bytes)
    (p : GoString) (data : Bytes) (d : DirEntry)
    (hh : choose p s.headers.defaultValue hv = choose p s.headers.defaultValue s.headers.values)
    (hf : choose p s.footers.defaultValue fv = choose p s.footers.defaultValue s.footers.values) :
    (s.withStores hv fv).core env p data d = s.core env p data d := by
  unfold Ssg.core
  simp only [Ssg.withStores, perDir.choose, hh, hf]

theorem choose_stores {T : Type} (env : Env) (htree : DirsNotBelowFiles env) (p : GoString)
    (data : Bytes) (hp : env.ReadFile p = .ok data) (v0 : T) (m m' : GoMap T)
    (hperm : m'.Perm m) (hk : KeysOk env m) : choose p v0 m' = choose p v0 m := by
  apply choose_perm p v0 m m' hperm hk.1
  intro e1 h1 e2 h2 c1 c2 hl
  obtain ⟨l1, hl1⟩ := hk.2 e1.1 (List.mem_map_of_mem Prod.fst h1)
  obtain ⟨l2, hl2⟩ := hk.2 e2.1 (List.mem_map_of_mem Prod.fst h2)
  exact candidates_no_tie p e1.1 e2.1 c1 c2 (htree p e1.1 data l1 hp hl1 c1)
    (htree p e2.1 data l2 hp hl2 c2) hl

theorem runPipelines_keepPath (stages : List Pipeline) (h : KeepPath stages) (i : Nat)
    (path : GoString) (data : Bytes) (d : DirEntry) (st : ChainState)
    (hr : runPipelines stages i path data d = .ok st) : st.path = path := by
  induction stages generalizing i data d with
  | nil =>
    simp only [runPipelines, Except.ok.injEq] at hr
    rw [← hr]
  | cons p rest ih =>
    have hp := h p (List.mem_cons_self _ _) path data d
    rcases hpr : p path data d with ⟨path', data', d', e⟩
    rw [hpr] at hp
    simp only at hp
    subst hp
    simp only [runPipelines, hpr] at hr
    cases e with
    | none => exact ih (fun q hq => h q (List.mem_cons_of_mem _ hq)) _ _ _ hr
    | some err =>
      simp only at hr
      split at hr
      · simp only [Except.ok.injEq] at hr
        rw [← hr]
      · split at hr
        · simp only [Except.ok.injEq] at hr
          rw [← hr]
        · cases hr


theorem walk_file_same (env : Env) (htree : DirsNotBelowFiles env) (s : Ssg)
    (hv : GoMap header) (fv : GoMap Bytes) (path : GoString) (d : DirEntry)
    (hdir : d.isDir = false)
    (hkh : KeysOk env s.headers.values) (hkf : KeysOk env s.footers.values)
    (hkp : KeepPath s.options.pipelines)
    (hph : hv.Perm s.headers.values) (hpf : fv.Perm s.footers.values) :
    (s.withStores hv fv).walk env path d none =
        ((s.walk env path d none).1.withStores hv fv, (s.walk env path d none).2) ∧
      (s.walk env path d none).1.headers = s.headers ∧
      (s.walk env path d none).1.footers = s.footers ∧
      (s.walk env path d none).1.options = s.options := by
  rcases hsi : shouldIgnore env s.ssgignores path (Base path) d with ⟨ig, e⟩
  have hsi' : shouldIgnore env (s.withStores hv fv).ssgignores path (Base path) d = (ig, e) := hsi
  cases e with
  | some e =>
    have h1 : s.walk env path d none = (s, some e) := by simp [Ssg.walk, hdir, hsi]
    have h2 : (s.withStores hv fv).walk env path d none = (s.withStores hv fv, some e) := by
      simp [Ssg.walk, hdir, hsi']
    rw [h1, h2]
    exact ⟨rfl, rfl, rfl, rfl⟩
  | none =>
    cases ig with
    | true =>
      have h1 : s.walk env path d none = (s, none) := by simp [Ssg.walk, hdir, hsi]
      have h2 : (s.withStores hv fv).walk env path d none = (s.withStores hv fv, none) := by
        simp [Ssg.walk, hdir, hsi']
      rw [h1, h2]
      exact ⟨rfl, rfl, rfl, rfl⟩
    | false =>
      by_cases hm : Base path = MarkerHeader ∨ Base path = MarkerFooter ∨ Base path = SsgIgnore
      · have h1 : s.walk env path d none = (s, none) := by simp [Ssg.walk, hdir, hsi, hm]
        have h2 : (s.withStores hv fv).walk env path d none = (s.withStores hv fv, none) := by
          simp [Ssg.walk, hdir, hsi', hm]
        rw [h1, h2]
        exact ⟨rfl, rfl, rfl, rfl⟩
      · cases hrf : env.ReadFile path with
        | error e =>
          have h1 : s.walk env path d none = (s, some e) := by
            simp [Ssg.walk, hdir, hsi, hm, hrf]
          have h2 : (s.withStores hv fv).walk env path d none = (s.withStores hv fv, some e) := by
            simp [Ssg.walk, hdir, hsi', hm, hrf]
          rw [h1, h2]
          exact ⟨rfl, rfl, rfl, rfl⟩
        | ok data =>
          have hrp' : runPipelines (s.withStores hv fv).options.pipelines 0 path data d =
              runPipelines s.options.pipelines 0 path data d := rfl
          cases hrp : runPipelines s.options.pipelines 0 path data d with
          | error e =>
            have h1 : s.walk env path d none = (recordInput s path, some e) := by
              simp only [Ssg.walk, hdir, hsi, hm, hrf, Bool.false_eq_true, if_false, hrp]
              rfl
            have h2 : (s.withStores hv fv).walk env path d none =
                ((recordInput s path).withStores hv fv, some e) := by
              rw [hrp] at hrp'
              simp only [Ssg.walk, hdir, hsi', hm, hrf, Bool.false_eq_true, if_false, hrp']
              rfl
            rw [h1, h2]
            exact ⟨rfl, rfl, rfl, rfl⟩
          | ok st =>
            rw [hrp] at hrp'
            by_cases hsk : st.skipCore = true
            · have h1 : s.walk env path d none = (recordInput s path, none) := by
                simp only [Ssg.walk, hdir, hsi, hm, hrf, Bool.false_eq_true, if_false, hrp,
                  hsk, if_true]
                rfl
              have h2 : (s.withStores hv fv).walk env path d none =
                  ((recordInput s path).withStores hv fv, none) := by
                simp only [Ssg.walk, hdir, hsi', hm, hrf, Bool.false_eq_true, if_false, hrp',
                  hsk, if_true]
                rfl
              rw [h1, h2]
              exact ⟨rfl, rfl, rfl, rfl⟩
            · have hpath : st.path = path := runPipelines_keepPath _ hkp 0 path data d st hrp
              have hcore : ((recordInput s path).withStores hv fv).core env st.path st.data st.d =
                  (recordInput s path).core env st.path st.data st.d := by
                apply core_withStores
                · rw [hpath]
                  exact choose_stores env htree path data hrf _ _ _ hph hkh
                · rw [hpath]
                  exact choose_stores env htree path data hrf _ _ _ hpf hkf
              cases hc : (recordInput s path).core env st.path st.data st.d with
              | error e =>
                rw [hc] at hcore
                have hc1 := hc
                unfold recordInput at hc1
                have h1 : s.walk env path d none =
                    (recordInput s path, some (wrap (str "core error: ") e)) := by
                  simp only [Ssg.walk, hdir, hsi, hm, hrf, Bool.false_eq_true, if_false, hrp,
                    hsk, hc1]
                  rfl
                have h2 : (s.withStores hv fv).walk env path d none =
                    ((recordInput s path).withStores hv fv,
                      some (wrap (str "core error: ") e)) := by
                  simp only [Ssg.walk, hdir, hsi', hm, hrf, Bool.false_eq_true, if_false, hrp',
                    hsk]
                  split
                  · rename_i err heq
                    have hee : Except.error err = (Except.error e : Except GoError OutputFile) :=
                      heq.symm.trans hcore
                    cases hee
                    rfl
                  · rename_i output heq
                    have hee : Except.ok output = (Except.error e : Except GoError OutputFile) :=
                      heq.symm.trans hcore
                    cases hee
                rw [h1, h2]
                exact ⟨rfl, rfl, rfl, rfl⟩
              | ok out =>
                rw [hc] at hcore
                have hc1 := hc
                unfold recordInput at hc1
                have h1 : s.walk env path d none =
                    ({ recordInput s path with
                        result := (recordInput s path).result.Add [out] }, none) := by
                  simp only [Ssg.walk, hdir, hsi, hm, hrf, Bool.false_eq_true, if_false, hrp,
                    hsk, hc1]
                  rfl
                have h2 : (s.withStores hv fv).walk env path d none =
                    (Ssg.withStores { recordInput s path with
                        result := (recordInput s path).result.Add [out] } hv fv, none) := by
                  simp only [Ssg.walk, hdir, hsi', hm, hrf, Bool.false_eq_true, if_false, hrp',
                    hsk]
                  split
                  · rename_i err heq
                    have hee : Except.error err = (Except.ok out : Except GoError OutputFile) :=
                      heq.symm.trans hcore
                    cases hee
                  · rename_i output heq
                    have hee : Except.ok output = (Except.ok out : Except GoError OutputFile) :=
                      heq.symm.trans hcore
                    cases hee
                    rfl
                rw [h1, h2]
                exact ⟨rfl, rfl, rfl, rfl⟩


theorem add_same {T : Type} (env : Env) (dv : T) (m hv : GoMap T) (path : GoString) (v : T)
    (l0 : List DirEntry) (hrd : env.ReadDir path = .ok l0) (hk : KeysOk env m)
    (hp : hv.Perm m) :
    (∃ err, perDir.add { defaultValue := dv, values := m } path v =
        ({ defaultValue := dv, values := m }, some err) ∧
      perDir.add { defaultValue := dv, values := hv } path v =
        ({ defaultValue := dv, values := hv }, some err)) ∨
    (perDir.add { defaultValue := dv, values := m } path v =
        ({ defaultValue := dv, values := m ++ [(path, v)] }, none) ∧
      perDir.add { defaultValue := dv, values := hv } path v =
        ({ defaultValue := dv, values := hv ++ [(path, v)] }, none) ∧
      KeysOk env (m ++ [(path, v)]) ∧ (hv ++ [(path, v)]).Perm (m ++ [(path, v)])) := by
  have hget : hv.get path = m.get path := GoMap.get_perm m hv hp hk.1 path
  cases hg : m.get path with
  | some w =>
    left
    rw [hg] at hget
    exact ⟨other (str "found duplicate path '" ++ path ++ str "'"),
      by simp [perDir.add, hg], by simp [perDir.add, hget]⟩
  | none =>
    right
    rw [hg] at hget
    exact ⟨by simp [perDir.add, hg], by simp [perDir.add, hget],
      KeysOk_append env m path v l0 hk hrd hg, hp.append_right _⟩

theorem collectLoop_same (env : Env) (path : GoString) (l0 : List DirEntry)
    (hrd : env.ReadDir path = .ok l0) (children : List DirEntry) (s : Ssg)
    (hv : GoMap header) (fv : GoMap Bytes)
    (hkh : KeysOk env s.headers.values) (hkf : KeysOk env s.footers.values)
    (hph : hv.Perm s.headers.values) (hpf : fv.Perm s.footers.values) :
    KeysOk env (collectLoop env path children s).1.headers.values ∧
    KeysOk env (collectLoop env path children s).1.footers.values ∧
    ∃ hv' fv', hv'.Perm (collectLoop env path children s).1.headers.values ∧
      fv'.Perm (collectLoop env path children s).1.footers.values ∧
      collectLoop env path children (s.withStores hv fv) =
        ((collectLoop env path children s).1.withStores hv' fv',
          (collectLoop env path children s).2) := by
  induction children generalizing s hv fv with
  | nil => exact ⟨hkh, hkf, hv, fv, hph, hpf, rfl⟩
  | cons child rest ih =>
    have hne : MarkerFooter ≠ MarkerHeader := by decide
    by_cases hb1 : child.name = MarkerHeader
    · cases hrf : env.ReadFile (env.Join path child.name) with
      | error e =>
        rw [hb1] at hrf
        have h1 : collectLoop env path (child :: rest) s = (s, some e) := by
          simp [collectLoop, hb1, hrf]
        have h2 : collectLoop env path (child :: rest) (s.withStores hv fv) =
            (s.withStores hv fv, some e) := by
          simp [collectLoop, hb1, hrf]
        rw [h1, h2]
        exact ⟨hkh, hkf, hv, fv, hph, hpf, rfl⟩
      | ok data =>
        rw [hb1] at hrf
        rcases add_same env s.headers.defaultValue s.headers.values hv path
            { Buffer := data, titleFrom := GetTitleFrom data } l0 hrd hkh hph with
          ⟨err, ha1, ha2⟩ | ⟨ha1, ha2, hk', hp'⟩
        · have h1 : collectLoop env path (child :: rest) s = (s, some err) := by
            have ha1' : s.headers.add path { Buffer := data, titleFrom := GetTitleFrom data } =
                (s.headers, some err) := ha1
            simp [collectLoop, hb1, hrf, ha1']
          have h2 : collectLoop env path (child :: rest) (s.withStores hv fv) =
              (s.withStores hv fv, some err) := by
            have ha2' : (s.withStores hv fv).headers.add path
                { Buffer := data, titleFrom := GetTitleFrom data } =
                ((s.withStores hv fv).headers, some err) := ha2
            simp [collectLoop, hb1, hrf, ha2']
          rw [h1, h2]
          exact ⟨hkh, hkf, hv, fv, hph, hpf, rfl⟩
        · have ha1' : s.headers.add path { Buffer := data, titleFrom := GetTitleFrom data } =
              ({ s.headers with values := s.headers.values ++
                [(path, { Buffer := data, titleFrom := GetTitleFrom data })] }, none) := ha1
          have ha2' : (s.withStores hv fv).headers.add path
              { Buffer := data, titleFrom := GetTitleFrom data } =
              ({ s.headers with values := hv ++
                [(path, { Buffer := data, titleFrom := GetTitleFrom data })] }, none) := ha2
          have h1 : collectLoop env path (child :: rest) s =
              collectLoop env path rest { s with headers := { s.headers with values :=
                s.headers.values ++ [(path, { Buffer := data, titleFrom := GetTitleFrom data })] } } := by
            simp [collectLoop, hb1, hrf, ha1']
          have h2 : collectLoop env path (child :: rest) (s.withStores hv fv) =
              collectLoop env path rest (Ssg.withStores { s with headers := { s.headers with values :=
                s.headers.values ++ [(path, { Buffer := data, titleFrom := GetTitleFrom data })] } }
                (hv ++ [(path, { Buffer := data, titleFrom := GetTitleFrom data })]) fv) := by
            simp only [collectLoop, hb1, hrf, ha2', if_true]
            rfl
          rw [h1, h2]
          exact ih _ _ _ hk' hkf hp' hpf
    · by_cases hb2 : child.name = MarkerFooter
      · cases hrf : env.ReadFile (env.Join path child.name) with
        | error e =>
          rw [hb2] at hrf
          have h1 : collectLoop env path (child :: rest) s = (s, some e) := by
            simp [collectLoop, hne, hb2, hrf]
          have h2 : collectLoop env path (child :: rest) (s.withStores hv fv) =
              (s.withStores hv fv, some e) := by
            simp [collectLoop, hne, hb2, hrf]
          rw [h1, h2]
          exact ⟨hkh, hkf, hv, fv, hph, hpf, rfl⟩
        | ok data =>
          rw [hb2] at hrf
          rcases add_same env s.footers.defaultValue s.footers.values fv path data l0 hrd hkf
              hpf with ⟨err, ha1, ha2⟩ | ⟨ha1, ha2, hk', hp'⟩
          · have h1 : collectLoop env path (child :: rest) s = (s, some err) := by
              have ha1' : s.footers.add path data = (s.footers, some err) := ha1
              simp [collectLoop, hne, hb2, hrf, ha1']
            have h2 : collectLoop env path (child :: rest) (s.withStores hv fv) =
                (s.withStores hv fv, some err) := by
              have ha2' : (s.withStores hv fv).footers.add path data =
                  ((s.withStores hv fv).footers, some err) := ha2
              simp [collectLoop, hne, hb2, hrf, ha2']
            rw [h1, h2]
            exact ⟨hkh, hkf, hv, fv, hph, hpf, rfl⟩
          · have ha1' : s.footers.add path data =
                ({ s.footers with values := s.footers.values ++ [(path, data)] }, none) := ha1
            have ha2' : (s.withStores hv fv).footers.add path data =
                ({ s.footers with values := fv ++ [(path, data)] }, none) := ha2
            have h1 : collectLoop env path (child :: rest) s =
                collectLoop env path rest { s with footers := { s.footers with values :=
                  s.footers.values ++ [(path, data)] } } := by
              simp [collectLoop, hne, hb2, hrf, ha1']
            have h2 : collectLoop env path (child :: rest) (s.withStores hv fv) =
                collectLoop env path rest (Ssg.withStores { s with footers := { s.footers with
                  values := s.footers.values ++ [(path, data)] } } hv (fv ++ [(path, data)])) := by
              simp only [collectLoop, hne, hb2, hrf, ha2', if_true, if_false]
              rfl
            rw [h1, h2]
            exact ih _ _ _ hkh hk' hph hp'
      · by_cases hext : Ext child.name ≠ str ".html"
        · have h1 : collectLoop env path (child :: rest) s = collectLoop env path rest s := by
            simp [collectLoop, hb1, hb2, hext]
          have h2 : collectLoop env path (child :: rest) (s.withStores hv fv) =
              collectLoop env path rest (s.withStores hv fv) := by
            simp [collectLoop, hb1, hb2, hext]
          rw [h1, h2]
          exact ih s hv fv hkh hkf hph hpf
        · rcases hins : s.preferred.Insert (env.Join path child.name) with ⟨pref, dup⟩
          have hins' : (s.withStores hv fv).preferred.Insert (env.Join path child.name) =
              (pref, dup) := hins
          cases dup with
          | true =>
            have h1 : collectLoop env path (child :: rest) s =
                ({ s with preferred := pref },
                  some (other (str "duplicate html file " ++ path))) := by
              simp only [collectLoop, hb1, hb2, hext, hins, if_false]
            have h2 : collectLoop env path (child :: rest) (s.withStores hv fv) =
                (Ssg.withStores { s with preferred := pref } hv fv,
                  some (other (str "duplicate html file " ++ path))) := by
              simp only [collectLoop, hb1, hb2, hext, hins', if_false]
              rfl
            rw [h1, h2]
            exact ⟨hkh, hkf, hv, fv, hph, hpf, rfl⟩
          | false =>
            have h1 : collectLoop env path (child :: rest) s =
                collectLoop env path rest { s with preferred := pref } := by
              simp only [collectLoop, hb1, hb2, hext, hins, if_false]
            have h2 : collectLoop env path (child :: rest) (s.withStores hv fv) =
                collectLoop env path rest (Ssg.withStores { s with preferred := pref } hv fv) := by
              simp only [collectLoop, hb1, hb2, hext, hins', if_false]
              rfl
            rw [h1, h2]
            exact ih _ hv fv hkh hkf hph hpf


theorem walk_same (env : Env) (htree : DirsNotBelowFiles env) (s t : Ssg) (path : GoString)
    (d : DirEntry) (err : Option GoError) (h : SameUpToOrder env s t) :
    SameUpToOrder env (s.walk env path d err).1 (t.walk env path d err).1 ∧
      (s.walk env path d err).2 = (t.walk env path d err).2 := by
  obtain ⟨hkh, hkf, hkp, hv, fv, hph, hpf, rfl⟩ := h
  cases err with
  | some e => exact ⟨⟨hkh, hkf, hkp, hv, fv, hph, hpf, rfl⟩, rfl⟩
  | none =>
    by_cases hdir : d.isDir = true
    · have h1 : s.walk env path d none = s.collect env path := by simp [Ssg.walk, hdir]
      have h2 : (s.withStores hv fv).walk env path d none = (s.withStores hv fv).collect env path := by
        simp [Ssg.walk, hdir]
      rw [h1, h2]
      cases hrd : env.ReadDir path with
      | error e =>
        have h3 : s.collect env path = (s, some e) := by simp [Ssg.collect, hrd]
        have h4 : (s.withStores hv fv).collect env path = (s.withStores hv fv, some e) := by
          simp [Ssg.collect, hrd]
        rw [h3, h4]
        exact ⟨⟨hkh, hkf, hkp, hv, fv, hph, hpf, rfl⟩, rfl⟩
      | ok children =>
        have h3 : s.collect env path = collectLoop env path children s := by
          simp [Ssg.collect, hrd]
        have h4 : (s.withStores hv fv).collect env path =
            collectLoop env path children (s.withStores hv fv) := by
          simp [Ssg.collect, hrd]
        rw [h3, h4]
        obtain ⟨k1, k2, hv', fv', p1, p2, heq⟩ :=
          collectLoop_same env path children hrd children s hv fv hkh hkf hph hpf
        rw [heq]
        have hopt := (collectLoop_fields env path children s).2.1
        exact ⟨⟨k1, k2, by rw [hopt]; exact hkp, hv', fv', p1, p2, rfl⟩, rfl⟩
    · have hdir' : d.isDir = false := by simpa using hdir
      obtain ⟨heq, hh, hf, ho⟩ :=
        walk_file_same env htree s hv fv path d hdir' hkh hkf hkp hph hpf
      rw [heq]
      refine ⟨⟨by rw [hh]; exact hkh, by rw [hf]; exact hkf, by rw [ho]; exact hkp, hv, fv,
        by rw [hh]; exact hph, by rw [hf]; exact hpf, rfl⟩, rfl⟩

theorem reorder_same (env : Env) (oh oh' : GoMap header → GoMap header)
    (ofn ofn' : GoMap Bytes → GoMap Bytes) (hoh : IsOrder oh) (hoh' : IsOrder oh')
    (hof : IsOrder ofn) (hof' : IsOrder ofn') (s t : Ssg) (h : SameUpToOrder env s t) :
    SameUpToOrder env (s.reorder oh ofn) (t.reorder oh' ofn') := by
  obtain ⟨hkh, hkf, hkp, hv, fv, hph, hpf, rfl⟩ := h
  refine ⟨KeysOk_perm env _ _ (hoh _) hkh, KeysOk_perm env _ _ (hof _) hkf, hkp,
    oh' hv, ofn' fv, ?_, ?_, rfl⟩
  · exact ((hoh' hv).trans hph).trans (hoh _).symm
  · exact ((hof' fv).trans hpf).trans (hof _).symm

/-! ## Two directory walks whose steps keep a relation between their states -/

theorem walkChildren_rel {σ τ : Type} (env : Env) (R : σ → τ → Prop)
    (recur : GoString → DirEntry → σ → Option (σ × Option GoError))
    (recur' : GoString → DirEntry → τ → Option (τ × Option GoError))
    (hrec : ∀ path d s t, R s t → WalkRel R (recur path d s) (recur' path d t))
    (path : GoString) (dirs : List DirEntry) (s : σ) (t : τ) (h : R s t) :
    WalkRel R (walkChildren env recur path dirs s) (walkChildren env recur' path dirs t) := by
  induction dirs generalizing s t with
  | nil => exact ⟨h, rfl⟩
  | cons d1 rest ih =>
    have h1 := hrec (env.Join path d1.name) d1 s t h
    simp only [walkChildren]
    cases hr : recur (env.Join path d1.name) d1 s with
    | none =>
      cases hr' : recur' (env.Join path d1.name) d1 t with
      | none => trivial
      | some b => rw [hr, hr'] at h1; exact h1.elim
    | some a =>
      cases hr' : recur' (env.Join path d1.name) d1 t with
      | none => rw [hr, hr'] at h1; exact h1.elim
      | some b =>
        rw [hr, hr'] at h1
        obtain ⟨s1, e1⟩ := a
        obtain ⟨t1, e2⟩ := b
        obtain ⟨hs, he⟩ := h1
        simp only at hs he
        subst he
        cases e1 with
        | none => exact ih s1 t1 hs
        | some e =>
          simp only
          split
          · exact ⟨hs, rfl⟩
          · exact ⟨hs, rfl⟩

theorem walkDir_rel {σ τ : Type} (env : Env) (R : σ → τ → Prop)
    (fn : σ → GoString → DirEntry → Option GoError → σ × Option GoError)
    (fn' : τ → GoString → DirEntry → Option GoError → τ × Option GoError)
    (hfn : ∀ s t path d err, R s t →
      R (fn s path d err).1 (fn' t path d err).1 ∧ (fn s path d err).2 = (fn' t path d err).2)
    (fuel : Nat) (path : GoString) (d : DirEntry) (s : σ) (t : τ) (h : R s t) :
    WalkRel R (walkDir env fn fuel path d s) (walkDir env fn' fuel path d t) := by
  induction fuel generalizing path d s t with
  | zero => trivial
  | succ fuel ih =>
    obtain ⟨h1, h2⟩ := hfn s t path d none h
    rw [walkDir, walkDir]
    rcases hf : fn s path d none with ⟨s1, e1⟩
    rcases hf' : fn' t path d none with ⟨t1, e2⟩
    rw [hf, hf'] at h1 h2
    simp only at h1 h2
    subst h2
    cases e1 with
    | some e => exact ⟨h1, rfl⟩
    | none =>
      simp only
      by_cases hdir : d.isDir = false
      · simp only [hdir, if_true]
        exact ⟨h1, rfl⟩
      · simp only [hdir, if_false]
        cases hrd : env.ReadDir path with
        | error e =>
          obtain ⟨h3, h4⟩ := hfn s1 t1 path d (some e) h1
          simp only
          rcases hg : fn s1 path d (some e) with ⟨s2, e3⟩
          rcases hg' : fn' t1 path d (some e) with ⟨t2, e4⟩
          rw [hg, hg'] at h3 h4
          simp only at h3 h4
          subst h4
          cases e3 with
          | some e5 => exact ⟨h3, rfl⟩
          | none => exact ⟨h3, rfl⟩
        | ok dirs =>
          exact walkChildren_rel env R _ _ (fun p c a b hab => ih p c a b hab) path dirs s1 t1 h1

theorem WalkDir_rel {σ τ : Type} (env : Env) (R : σ → τ → Prop)
    (fn : σ → GoString → DirEntry → Option GoError → σ × Option GoError)
    (fn' : τ → GoString → DirEntry → Option GoError → τ × Option GoError)
    (hfn : ∀ s t path d err, R s t →
      R (fn s path d err).1 (fn' t path d err).1 ∧ (fn s path d err).2 = (fn' t path d err).2)
    (fuel : Nat) (root : GoString) (s : σ) (t : τ) (h : R s t) :
    WalkRel R (WalkDir env fn fuel root s) (WalkDir env fn' fuel root t) := by
  unfold WalkDir
  cases hl : env.Lstat root with
  | error e =>
    obtain ⟨h1, h2⟩ := hfn s t root { name := [], isDir := false, info := .error e } (some e) h
    simp only
    rcases hf : fn s root { name := [], isDir := false, info := .error e } (some e) with ⟨s1, e1⟩
    rcases hf' : fn' t root { name := [], isDir := false, info := .error e } (some e) with
      ⟨t1, e2⟩
    rw [hf, hf'] at h1 h2
    simp only at h1 h2
    subst h2
    cases e1 with
    | none => exact ⟨h1, rfl⟩
    | some e3 =>
      simp only
      split
      · exact ⟨h1, rfl⟩
      · exact ⟨h1, rfl⟩
  | ok info =>
    have hw := walkDir_rel env R fn fn' hfn fuel root (FileInfoToDirEntry info) s t h
    simp only
    cases hr : walkDir env fn fuel root (FileInfoToDirEntry info) s with
    | none =>
      cases hr' : walkDir env fn' fuel root (FileInfoToDirEntry info) t with
      | none => trivial
      | some b => rw [hr, hr'] at hw; exact hw.elim
    | some a =>
      cases hr' : walkDir env fn' fuel root (FileInfoToDirEntry info) t with
      | none => rw [hr, hr'] at hw; exact hw.elim
      | some b =>
        rw [hr, hr'] at hw
        obtain ⟨s1, e1⟩ := a
        obtain ⟨t1, e2⟩ := b
        obtain ⟨hs, he⟩ := hw
        simp only at hs he
        subst he
        cases e1 with
        | none => exact ⟨hs, rfl⟩
        | some e =>
          simp only
          split
          · exact ⟨hs, rfl⟩
          · exact ⟨hs, rfl⟩


/-- Two builds from a builder with empty stores that visit the entries of the stores in
different orders return the same values and leave the same sink, provided the stages leave
the path as it is and no directory of the source tree lies below a file. -/
theorem buildIn_order (env : Env) (oh oh' : GoMap header → GoMap header)
    (ofn ofn' : GoMap Bytes → GoMap Bytes)
    (hoh : IsOrder oh) (hoh' : IsOrder oh') (hof : IsOrder ofn) (hof' : IsOrder ofn')
    (fuel : Nat) (s : Ssg) (o : Option (List OutputFile))
    (hfresh : s.headers.values = [] ∧ s.footers.values = [])
    (hstages : KeepPath s.options.pipelines) (htree : DirsNotBelowFiles env) :
    (buildIn env oh ofn fuel s o).map (fun r => (r.1.result, r.2)) =
      (buildIn env oh' ofn' fuel s o).map (fun r => (r.1.result, r.2)) := by
  have hnil : ∀ T : Type, KeysOk env ([] : GoMap T) :=
    fun T => ⟨List.nodup_nil, fun k hk => by cases hk⟩
  have h0 : SameUpToOrder env (resetResult s o) (resetResult s o) := by
    refine ⟨?_, ?_, hstages, (resetResult s o).headers.values, (resetResult s o).footers.values,
      List.Perm.refl _, List.Perm.refl _, rfl⟩
    · show KeysOk env s.headers.values
      rw [hfresh.1]
      exact hnil _
    · show KeysOk env s.footers.values
      rw [hfresh.2]
      exact hnil _
  have hw := WalkDir_rel env (SameUpToOrder env)
    (fun s path d err => (s.reorder oh ofn).walk env path d err)
    (fun s path d err => (s.reorder oh' ofn').walk env path d err)
    (fun a b path d err hab =>
      walk_same env htree _ _ path d err (reorder_same env oh oh' ofn ofn' hoh hoh' hof hof' a b hab))
    fuel s.Src (resetResult s o) (resetResult s o) h0
  have hb1 : buildIn env oh ofn fuel s o =
      (match WalkDir env (fun s path d err => (s.reorder oh ofn).walk env path d err) fuel s.Src
        (resetResult s o) with
      | none => none
      | some (s, some err) => some (s, [], [], some err)
      | some (s, none) => some (s, s.result.files, s.result.cache, none)) := rfl
  have hb2 : buildIn env oh' ofn' fuel s o =
      (match WalkDir env (fun s path d err => (s.reorder oh' ofn').walk env path d err) fuel s.Src
        (resetResult s o) with
      | none => none
      | some (s, some err) => some (s, [], [], some err)
      | some (s, none) => some (s, s.result.files, s.result.cache, none)) := rfl
  rw [hb1, hb2]
  cases hr : WalkDir env (fun s path d err => (s.reorder oh ofn).walk env path d err) fuel s.Src
      (resetResult s o) with
  | none =>
    cases hr' : WalkDir env (fun s path d err => (s.reorder oh' ofn').walk env path d err) fuel
        s.Src (resetResult s o) with
    | none => rfl
    | some b => rw [hr, hr'] at hw; exact hw.elim
  | some a =>
    cases hr' : WalkDir env (fun s path d err => (s.reorder oh' ofn').walk env path d err) fuel
        s.Src (resetResult s o) with
    | none => rw [hr, hr'] at hw; exact hw.elim
    | some b =>
      rw [hr, hr'] at hw
      obtain ⟨s1, e1⟩ := a
      obtain ⟨t1, e2⟩ := b
      obtain ⟨⟨_, _, _, hv, fv, _, _, ht⟩, he⟩ := hw
      simp only at ht he
      subst he
      subst ht
      cases e1 with
      | none => rfl
      | some e => rfl

/-- Claim C24, as amended: a build from a builder with empty stores returns the same input
files in the same order, the same outputs in the same order (targets, originators, bytes
and permissions), the same error and leaves the same sink, in whatever orders the entries
of the header and footer stores are visited, provided the stages leave the path as it is
and no directory of the source tree lies below a file.  `build` itself is the build that
visits the entries in insertion order. -/
theorem build_order_independent (env : Env) (oh oh' : GoMap header → GoMap header)
    (ofn ofn' : GoMap Bytes → GoMap Bytes)
    (hoh : IsOrder oh) (hoh' : IsOrder oh') (hof : IsOrder ofn) (hof' : IsOrder ofn')
    (fuel : Nat) (s : Ssg) (o : Option (List OutputFile))
    (hfresh : s.headers.values = [] ∧ s.footers.values = [])
    (hstages : KeepPath s.options.pipelines) (htree : DirsNotBelowFiles env) :
    (buildIn env oh ofn fuel s o).map (fun r => (r.1.result, r.2)) =
      (buildIn env oh' ofn' fuel s o).map (fun r => (r.1.result, r.2)) ∧
    buildIn env id id fuel s o = build env fuel s o :=
  ⟨buildIn_order env oh oh' ofn ofn' hoh hoh' hof hof' fuel s o hfresh hstages htree, rfl⟩

theorem nestedEnv_dirs_not_below_files : DirsNotBelowFiles nestedEnv := by
  intro p k data l hp hk _
  have hks : k = str "src" ∨ k = str "src/a" := by
    by_cases h1 : k = str "src"
    · exact Or.inl h1
    · by_cases h2 : k = str "src/a"
      · exact Or.inr h2
      · have : nestedEnv.ReadDir k = .error (notExist (str "open: no such file or directory")) := by
          simp [nestedEnv, h1, h2]
        rw [this] at hk
        cases hk
  have hps : p = str "src/_footer.html" ∨ p = str "src/_header.html" ∨ p = str "src/index.md" ∨
      p = str "src/a/_footer.html" ∨ p = str "src/a/_header.html" ∨ p = str "src/a/page.md" := by
    by_cases h1 : p = str "src/_footer.html"
    · exact Or.inl h1
    by_cases h2 : p = str "src/_header.html"
    · exact Or.inr (Or.inl h2)
    by_cases h3 : p = str "src/index.md"
    · exact Or.inr (Or.inr (Or.inl h3))
    by_cases h4 : p = str "src/a/_footer.html"
    · exact Or.inr (Or.inr (Or.inr (Or.inl h4)))
    by_cases h5 : p = str "src/a/_header.html"
    · exact Or.inr (Or.inr (Or.inr (Or.inr (Or.inl h5))))
    by_cases h6 : p = str "src/a/page.md"
    · exact Or.inr (Or.inr (Or.inr (Or.inr (Or.inr h6))))
    have : nestedEnv.ReadFile p = .error (notExist (str "open: no such file or directory")) := by
      simp [nestedEnv, h1, h2, h3, h4, h5, h6]
    rw [this] at hp
    cases hp
  rcases hks with rfl | rfl <;> rcases hps with rfl | rfl | rfl | rfl | rfl | rfl <;> decide

/-- Instance of claim C24 on a tree with a header and a footer in two directories, built
with a stage that leaves the path as it is: the build that visits the entries in insertion
order and the build that visits the headers in reverse order and the footer of `src` last
return the same two input files and the same two pages, `page.md` with the header and
footer of `src/a` and `index.md` with those of `src`; the second build ends with the
footers in the other order. -/
theorem build_order_independent_witness :
    (buildIn nestedEnv id id 3 nestedSsg none).map (fun r => (r.1.result, r.2)) =
      (buildIn nestedEnv List.reverse (visitLast (str "src")) 3 nestedSsg none).map
        (fun r => (r.1.result, r.2)) ∧
    (build nestedEnv 3 nestedSsg none).map
        (fun r => (r.1.footers.values.map Prod.fst, r.2.1,
          r.2.2.1.map (fun o => (o.target, o.data)))) =
      some ([str "src", str "src/a"], [str "src/a/page.md", str "src/index.md"],
        [(str "dst/a/page.html", str "<h1>\n<p>page\n!</p><f1>\n"),
         (str "dst/index.html", str "<h0>\n<p>index\n!</p><f0>\n")]) ∧
    (buildIn nestedEnv List.reverse (visitLast (str "src")) 3 nestedSsg none).map
        (fun r => r.1.footers.values.map Prod.fst) = some [str "src/a", str "src"] :=
  ⟨(build_order_independent nestedEnv id List.reverse id (visitLast (str "src"))
      (fun m => List.Perm.refl m) (fun m => List.reverse_perm m) (fun m => List.Perm.refl m)
      (fun m => by
        show (m.filter (fun e => e.1 ≠ str "src") ++ m.filter (fun e => e.1 = str "src")).Perm m
        have h := List.filter_append_perm (fun e : GoString × Bytes => decide (e.1 = str "src")) m
        refine (List.perm_append_comm.trans ?_).trans h
        refine List.Perm.append_left _ ?_
        apply List.Perm.of_eq
        apply List.filter_congr
        intro x _
        simp)
      3 nestedSsg none ⟨rfl, rfl⟩
      (fun p hp path data d => by
        have hp1 : p = stageAppend 33 := by simpa [nestedSsg] using hp
        subst hp1
        rfl)
      nestedEnv_dirs_not_below_files).1,
    by decide, by decide⟩


/-! ## Writing while walking -/

theorem core_withSink (env : Env) (s : Ssg) (cg co : Bool) (wr : Option (List OutputFile))
    (ca : List OutputFile) (p : GoString) (data : Bytes) (d : DirEntry) :
    (s.withSink cg co wr ca).core env p data d = s.core env p data d := rfl

theorem collectLoop_withSink (env : Env) (path : GoString) (children : List DirEntry) (s : Ssg)
    (cg co : Bool) (wr : Option (List OutputFile)) (ca : List OutputFile) :
    collectLoop env path children (s.withSink cg co wr ca) =
      ((collectLoop env path children s).1.withSink cg co wr ca,
        (collectLoop env path children s).2) := by
  induction children generalizing s with
  | nil => rfl
  | cons child rest ih =>
    have hne : MarkerFooter ≠ MarkerHeader := by decide
    by_cases hb1 : child.name = MarkerHeader
    · cases hrf : env.ReadFile (env.Join path child.name) with
      | error e =>
        rw [hb1] at hrf
        have h1 : collectLoop env path (child :: rest) s = (s, some e) := by
          simp [collectLoop, hb1, hrf]
        have h2 : collectLoop env path (child :: rest) (s.withSink cg co wr ca) =
            (s.withSink cg co wr ca, some e) := by
          simp [collectLoop, hb1, hrf]
        rw [h1, h2]
      | ok data =>
        rw [hb1] at hrf
        rcases ha : s.headers.add path { Buffer := data, titleFrom := GetTitleFrom data } with
          ⟨hs, e⟩
        have ha' : (s.withSink cg co wr ca).headers.add path
            { Buffer := data, titleFrom := GetTitleFrom data } = (hs, e) := ha
        cases e with
        | some err =>
          have h1 : collectLoop env path (child :: rest) s =
              ({ s with headers := hs }, some err) := by
            simp [collectLoop, hb1, hrf, ha]
          have h2 : collectLoop env path (child :: rest) (s.withSink cg co wr ca) =
              (Ssg.withSink { s with headers := hs } cg co wr ca, some err) := by
            simp only [collectLoop, hb1, hrf, ha', if_true]
            rfl
          rw [h1, h2]
        | none =>
          have h1 : collectLoop env path (child :: rest) s =
              collectLoop env path rest { s with headers := hs } := by
            simp [collectLoop, hb1, hrf, ha]
          have h2 : collectLoop env path (child :: rest) (s.withSink cg co wr ca) =
              collectLoop env path rest (Ssg.withSink { s with headers := hs } cg co wr ca) := by
            simp only [collectLoop, hb1, hrf, ha', if_true]
            rfl
          rw [h1, h2]
          exact ih _
    · by_cases hb2 : child.name = MarkerFooter
      · cases hrf : env.ReadFile (env.Join path child.name) with
        | error e =>
          rw [hb2] at hrf
          have h1 : collectLoop env path (child :: rest) s = (s, some e) := by
            simp [collectLoop, hne, hb2, hrf]
          have h2 : collectLoop env path (child :: rest) (s.withSink cg co wr ca) =
              (s.withSink cg co wr ca, some e) := by
            simp [collectLoop, hne, hb2, hrf]
          rw [h1, h2]
        | ok data =>
          rw [hb2] at hrf
          rcases ha : s.footers.add path data with ⟨fs, e⟩
          have ha' : (s.withSink cg co wr ca).footers.add path data = (fs, e) := ha
          cases e with
          | some err =>
            have h1 : collectLoop env path (child :: rest) s =
                ({ s with footers := fs }, some err) := by
              simp [collectLoop, hne, hb2, hrf, ha]
            have h2 : collectLoop env path (child :: rest) (s.withSink cg co wr ca) =
                (Ssg.withSink { s with footers := fs } cg co wr ca, some err) := by
              simp only [collectLoop, hne, hb2, hrf, ha', if_true, if_false]
              rfl
            rw [h1, h2]
          | none =>
            have h1 : collectLoop env path (child :: rest) s =
                collectLoop env path rest { s with footers := fs } := by
              simp [collectLoop, hne, hb2, hrf, ha]
            have h2 : collectLoop env path (child :: rest) (s.withSink cg co wr ca) =
                collectLoop env path rest (Ssg.withSink { s with footers := fs } cg co wr ca) := by
              simp only [collectLoop, hne, hb2, hrf, ha', if_true, if_false]
              rfl
            rw [h1, h2]
            exact ih _
      · by_cases hext : Ext child.name ≠ str ".html"
        · have h1 : collectLoop env path (child :: rest) s = collectLoop env path rest s := by
            simp [collectLoop, hb1, hb2, hext]
          have h2 : collectLoop env path (child :: rest) (s.withSink cg co wr ca) =
              collectLoop env path rest (s.withSink cg co wr ca) := by
            simp [collectLoop, hb1, hb2, hext]
          rw [h1, h2]
          exact ih s
        · rcases hins : s.preferred.Insert (env.Join path child.name) with ⟨pref, dup⟩
          have hins' : (s.withSink cg co wr ca).preferred.Insert (env.Join path child.name) =
              (pref, dup) := hins
          cases dup with
          | true =>
            have h1 : collectLoop env path (child :: rest) s =
                ({ s with preferred := pref },
                  some (other (str "duplicate html file " ++ path))) := by
              simp only [collectLoop, hb1, hb2, hext, hins, if_false]
            have h2 : collectLoop env path (child :: rest) (s.withSink cg co wr ca) =
                (Ssg.withSink { s with preferred := pref } cg co wr ca,
                  some (other (str "duplicate html file " ++ path))) := by
              simp only [collectLoop, hb1, hb2, hext, hins', if_false]
              rfl
            rw [h1, h2]
          | false =>
            have h1 : collectLoop env path (child :: rest) s =
                collectLoop env path rest { s with preferred := pref } := by
              simp only [collectLoop, hb1, hb2, hext, hins, if_false]
            have h2 : collectLoop env path (child :: rest) (s.withSink cg co wr ca) =
                collectLoop env path rest (Ssg.withSink { s with preferred := pref } cg co wr ca) := by
              simp only [collectLoop, hb1, hb2, hext, hins', if_false]
              rfl
            rw [h1, h2]
            exact ih _

theorem walk_stream (env : Env) (s t : Ssg) (path : GoString) (d : DirEntry)
    (err : Option GoError) (h : StreamOf s t) :
    StreamOf (s.walk env path d err).1 (t.walk env path d err).1 ∧
      (s.walk env path d err).2 = (t.walk env path d err).2 := by
  obtain ⟨hco, hwr, cg, co, ca, rfl⟩ := h
  cases err with
  | some e => exact ⟨⟨hco, hwr, cg, co, ca, rfl⟩, rfl⟩
  | none =>
    by_cases hdir : d.isDir = true
    · have h1 : s.walk env path d none = s.collect env path := by simp [Ssg.walk, hdir]
      have h2 : (s.withSink cg co (some s.result.cache) ca).walk env path d none =
          (s.withSink cg co (some s.result.cache) ca).collect env path := by
        simp [Ssg.walk, hdir]
      rw [h1, h2]
      cases hrd : env.ReadDir path with
      | error e =>
        have h3 : s.collect env path = (s, some e) := by simp [Ssg.collect, hrd]
        have h4 : (s.withSink cg co (some s.result.cache) ca).collect env path =
            (s.withSink cg co (some s.result.cache) ca, some e) := by
          simp [Ssg.collect, hrd]
        rw [h3, h4]
        exact ⟨⟨hco, hwr, cg, co, ca, rfl⟩, rfl⟩
      | ok children =>
        have h3 : s.collect env path = collectLoop env path children s := by
          simp [Ssg.collect, hrd]
        have h4 : (s.withSink cg co (some s.result.cache) ca).collect env path =
            collectLoop env path children (s.withSink cg co (some s.result.cache) ca) := by
          simp [Ssg.collect, hrd]
        rw [h3, h4, collectLoop_withSink]
        have hres := (collectLoop_fields env path children s).1
        refine ⟨⟨by rw [hres]; exact hco, by rw [hres]; exact hwr, cg, co, ca, ?_⟩, rfl⟩
        rw [hres]
    · have hdir' : d.isDir = false := by simpa using hdir
      rcases hsi : shouldIgnore env s.ssgignores path (Base path) d with ⟨ig, e⟩
      have hsi' : shouldIgnore env (s.withSink cg co (some s.result.cache) ca).ssgignores path
          (Base path) d = (ig, e) := hsi
      cases e with
      | some e =>
        have h1 : s.walk env path d none = (s, some e) := by simp [Ssg.walk, hdir', hsi]
        have h2 : (s.withSink cg co (some s.result.cache) ca).walk env path d none =
            (s.withSink cg co (some s.result.cache) ca, some e) := by
          simp [Ssg.walk, hdir', hsi']
        rw [h1, h2]
        exact ⟨⟨hco, hwr, cg, co, ca, rfl⟩, rfl⟩
      | none =>
        cases ig with
        | true =>
          have h1 : s.walk env path d none = (s, none) := by simp [Ssg.walk, hdir', hsi]
          have h2 : (s.withSink cg co (some s.result.cache) ca).walk env path d none =
              (s.withSink cg co (some s.result.cache) ca, none) := by
            simp [Ssg.walk, hdir', hsi']
          rw [h1, h2]
          exact ⟨⟨hco, hwr, cg, co, ca, rfl⟩, rfl⟩
        | false =>
          by_cases hm : Base path = MarkerHeader ∨ Base path = MarkerFooter ∨
              Base path = SsgIgnore
          · have h1 : s.walk env path d none = (s, none) := by
              simp [Ssg.walk, hdir', hsi, hm]
            have h2 : (s.withSink cg co (some s.result.cache) ca).walk env path d none =
                (s.withSink cg co (some s.result.cache) ca, none) := by
              simp [Ssg.walk, hdir', hsi', hm]
            rw [h1, h2]
            exact ⟨⟨hco, hwr, cg, co, ca, rfl⟩, rfl⟩
          · cases hrf : env.ReadFile path with
            | error e =>
              have h1 : s.walk env path d none = (s, some e) := by
                simp [Ssg.walk, hdir', hsi, hm, hrf]
              have h2 : (s.withSink cg co (some s.result.cache) ca).walk env path d none =
                  (s.withSink cg co (some s.result.cache) ca, some e) := by
                simp [Ssg.walk, hdir', hsi', hm, hrf]
              rw [h1, h2]
              exact ⟨⟨hco, hwr, cg, co, ca, rfl⟩, rfl⟩
            | ok data =>
              have hrec : StreamOf (recordInput s path)
                  (recordInput (s.withSink cg co (some s.result.cache) ca) path) :=
                ⟨hco, hwr, cg, co, ca, rfl⟩
              have hrp' : runPipelines (s.withSink cg co (some s.result.cache) ca).options.pipelines
                  0 path data d = runPipelines s.options.pipelines 0 path data d := rfl
              cases hrp : runPipelines s.options.pipelines 0 path data d with
              | error e =>
                have h1 : s.walk env path d none = (recordInput s path, some e) := by
                  simp only [Ssg.walk, hdir', hsi, hm, hrf, Bool.false_eq_true, if_false, hrp]
                  rfl
                have h2 : (s.withSink cg co (some s.result.cache) ca).walk env path d none =
                    (recordInput (s.withSink cg co (some s.result.cache) ca) path, some e) := by
                  rw [hrp] at hrp'
                  simp only [Ssg.walk, hdir', hsi', hm, hrf, Bool.false_eq_true, if_false, hrp']
                  rfl
                rw [h1, h2]
                exact ⟨hrec, rfl⟩
              | ok st =>
                rw [hrp] at hrp'
                by_cases hsk : st.skipCore = true
                · have h1 : s.walk env path d none = (recordInput s path, none) := by
                    simp only [Ssg.walk, hdir', hsi, hm, hrf, Bool.false_eq_true, if_false, hrp,
                      hsk, if_true]
                    rfl
                  have h2 : (s.withSink cg co (some s.result.cache) ca).walk env path d none =
                      (recordInput (s.withSink cg co (some s.result.cache) ca) path, none) := by
                    simp only [Ssg.walk, hdir', hsi', hm, hrf, Bool.false_eq_true, if_false, hrp',
                      hsk, if_true]
                    rfl
                  rw [h1, h2]
                  exact ⟨hrec, rfl⟩
                · have hcore : (recordInput (s.withSink cg co (some s.result.cache) ca) path).core
                      env st.path st.data st.d =
                      (recordInput s path).core env st.path st.data st.d := rfl
                  cases hc : (recordInput s path).core env st.path st.data st.d with
                  | error e =>
                    rw [hc] at hcore
                    have hc1 := hc
                    unfold recordInput at hc1
                    have h1 : s.walk env path d none =
                        (recordInput s path, some (wrap (str "core error: ") e)) := by
                      simp only [Ssg.walk, hdir', hsi, hm, hrf, Bool.false_eq_true, if_false, hrp,
                        hsk, hc1]
                      rfl
                    have h2 : (s.withSink cg co (some s.result.cache) ca).walk env path d none =
                        (recordInput (s.withSink cg co (some s.result.cache) ca) path,
                          some (wrap (str "core error: ") e)) := by
                      simp only [Ssg.walk, hdir', hsi', hm, hrf, Bool.false_eq_true, if_false,
                        hrp', hsk]
                      split
                      · rename_i err heq
                        have hee : Except.error err =
                            (Except.error e : Except GoError OutputFile) := heq.symm.trans hcore
                        cases hee
                        rfl
                      · rename_i output heq
                        have hee : Except.ok output =
                            (Except.error e : Except GoError OutputFile) := heq.symm.trans hcore
                        cases hee
                    rw [h1, h2]
                    exact ⟨hrec, rfl⟩
                  | ok out =>
                    rw [hc] at hcore
                    have hc1 := hc
                    unfold recordInput at hc1
                    have h1 : s.walk env path d none =
                        ({ recordInput s path with
                            result := (recordInput s path).result.Add [out] }, none) := by
                      simp only [Ssg.walk, hdir', hsi, hm, hrf, Bool.false_eq_true, if_false, hrp,
                        hsk, hc1]
                      rfl
                    have h2 : (s.withSink cg co (some s.result.cache) ca).walk env path d none =
                        ({ recordInput (s.withSink cg co (some s.result.cache) ca) path with
                            result := (recordInput (s.withSink cg co (some s.result.cache) ca)
                              path).result.Add [out] }, none) := by
                      simp only [Ssg.walk, hdir', hsi', hm, hrf, Bool.false_eq_true, if_false,
                        hrp', hsk]
                      split
                      · rename_i err heq
                        have hee : Except.error err =
                            (Except.ok out : Except GoError OutputFile) := heq.symm.trans hcore
                        cases hee
                      · rename_i output heq
                        have hee : Except.ok output =
                            (Except.ok out : Except GoError OutputFile) := heq.symm.trans hcore
                        cases hee
                        rfl
                    rw [h1, h2]
                    refine ⟨?_, rfl⟩
                    obtain ⟨Src, Dst, Title, Url, options, ssgignores, headers, footers,
                      preferred, result⟩ := s
                    obtain ⟨co0, wr0, files, cache⟩ := result
                    simp only at hco hwr
                    subst hco
                    subst hwr
                    refine ⟨rfl, rfl, cg, co, if co then ca ++ [out] else ca, ?_⟩
                    cases co <;> rfl


theorem walk_roots (env : Env) (s : Ssg) (path : GoString) (d : DirEntry) (err : Option GoError) :
    (s.walk env path d err).1.Src = s.Src ∧ (s.walk env path d err).1.Dst = s.Dst ∧
      (s.walk env path d err).1.Url = s.Url := by
  rcases walk_shape env s path d err with h | h | ⟨_, data, _, h | ⟨st, out, _, _, h⟩⟩
  · rw [h]; exact ⟨rfl, rfl, rfl⟩
  · rw [h]
    obtain ⟨_, _, _, h1, h2, _, h3⟩ := collect_fields env s path
    exact ⟨h1, h2, h3⟩
  · rw [h]; exact ⟨rfl, rfl, rfl⟩
  · rw [h]; exact ⟨rfl, rfl, rfl⟩

/-! ## The sitemap and the order of the outputs -/

theorem map_orderedInsert_target (x : OutputFile) (l : List OutputFile) :
    (l.orderedInsert (fun a b => a.target ≤ b.target) x).map OutputFile.target =
      (l.map OutputFile.target).orderedInsert (fun a b => a ≤ b) x.target := by
  induction l with
  | nil => rfl
  | cons y l ih =>
    simp only [List.orderedInsert, List.map_cons]
    split
    · rfl
    · simp only [List.map_cons, ih]

theorem sortByTarget_targets (l : List OutputFile) :
    (sortByTarget l).map OutputFile.target =
      (l.map OutputFile.target).insertionSort (fun a b => a ≤ b) := by
  induction l with
  | nil => rfl
  | cons x l ih =>
    have h : sortByTarget (x :: l) =
        (sortByTarget l).orderedInsert (fun a b => a.target ≤ b.target) x := rfl
    rw [h, map_orderedInsert_target, ih]
    rfl

theorem sortByTarget_perm (l l' : List OutputFile)
    (h : (l'.map OutputFile.target).Perm (l.map OutputFile.target)) :
    (sortByTarget l').map OutputFile.target = (sortByTarget l).map OutputFile.target := by
  rw [sortByTarget_targets, sortByTarget_targets]
  apply List.eq_of_perm_of_sorted (r := fun a b : GoString => a ≤ b)
  · exact ((List.perm_insertionSort _ _).trans h).trans (List.perm_insertionSort _ _).symm
  · exact List.sorted_insertionSort _ _
  · exact List.sorted_insertionSort _ _

theorem sitemapLoop_targets (env : Env) (dst url dateStr : GoString) (l l' : List OutputFile)
    (sm : GoString) (h : l'.map OutputFile.target = l.map OutputFile.target) :
    sitemapLoop env dst url dateStr l' sm = sitemapLoop env dst url dateStr l sm := by
  induction l generalizing l' sm with
  | nil =>
    cases l' with
    | nil => rfl
    | cons y l' => simp at h
  | cons x l ih =>
    cases l' with
    | nil => simp at h
    | cons y l' =>
      simp only [List.map_cons, List.cons.injEq] at h
      obtain ⟨h1, h2⟩ := h
      simp only [sitemapLoop, h1]
      split
      · rfl
      · exact ih l' _ h2

theorem Metadata_perm (env : Env) (src dst url : GoString) (files : List GoString)
    (cache written : List OutputFile) (dateStr : GoString)
    (h : (written.map OutputFile.target).Perm (cache.map OutputFile.target)) :
    (Metadata env src dst url files written dateStr).2 =
      (Metadata env src dst url files cache dateStr).2 := by
  unfold Metadata Sitemap
  simp only
  rw [sitemapLoop_targets env dst url dateStr (sortByTarget cache) (sortByTarget written)
    sitemapHead (sortByTarget_perm cache written h)]


/-! ## What the cache of `Build` retains -/

/-- A caching build without a writer next to a build with a writer from a builder that
differs in the caching flag only: the second returns when the first does, with the same
input files and the same error, and its writer has received the outputs the first has in
its cache, in the same order. -/
theorem build_stream (env : Env) (fuel : Nat) (s t : Ssg) (hsrc : t.Src = s.Src)
    (h0 : StreamOf (resetResult s none) (resetResult t (some [])))
    (r : Ssg × List GoString × List OutputFile × Option GoError)
    (h : build env fuel s none = some r) :
    ∃ r', build env fuel t (some []) = some r' ∧ r'.1.result.writer = some r.1.result.cache ∧
      r'.2.1 = r.2.1 ∧ r'.2.2.2 = r.2.2.2 := by
  have hb : ∀ (u : Ssg) (o : Option (List OutputFile)), build env fuel u o =
      (match WalkDir env (walkFn env) fuel u.Src (resetResult u o) with
      | none => none
      | some (s, some err) => some (s, [], [], some err)
      | some (s, none) => some (s, s.result.files, s.result.cache, none)) := fun _ _ => rfl
  have hw := WalkDir_rel env StreamOf (walkFn env) (walkFn env)
    (fun a b path d err hab => walk_stream env a b path d err hab) fuel s.Src _ _ h0
  rw [hb] at h
  rw [hb, hsrc]
  cases hr : WalkDir env (walkFn env) fuel s.Src (resetResult s none) with
  | none => rw [hr] at h; cases h
  | some a =>
    cases hr' : WalkDir env (walkFn env) fuel s.Src (resetResult t (some [])) with
    | none => rw [hr, hr'] at hw; exact hw.elim
    | some b =>
      rw [hr, hr'] at hw
      rw [hr] at h
      obtain ⟨sB, eB⟩ := a
      obtain ⟨sS, eS⟩ := b
      obtain ⟨⟨_, _, cg, co, ca, hS⟩, he⟩ := hw
      simp only at hS he
      subst he
      have hwr : sS.result.writer = some sB.result.cache := by rw [hS]; rfl
      have hfiles : sS.result.files = sB.result.files := by rw [hS]; rfl
      cases eB with
      | some e => cases h; exact ⟨_, rfl, hwr, rfl, rfl⟩
      | none => cases h; exact ⟨_, rfl, hwr, hfiles, rfl⟩

/-- Claim C28 as stated fails: `Build` puts `Caching(true)` in front of the caller's
options and the options are applied in order, so with the option `Caching(false)` the
builder is configured with caching off.  On the sample tree the call with no writer
returns three input files and an empty cache, and in the call with a writer the writer
receives three outputs and the returned cache is empty. -/
theorem Build_caching_counterexample :
    (NewWithOptions fooEnv (str "src") (str "dst") (str "Site") (str "https://example.com")
      ([Caching true] ++ [Caching false])).map (fun s => s.options.caching) = .ok false ∧
    (Build fooEnv 2 (str "src") (str "dst") (str "Site") (str "https://example.com") none
      [Caching false]).map (Option.map (fun r => (r.2.1.length, r.2.2.1, r.2.2.2))) =
      .ok (some (3, [], none)) ∧
    (Build fooEnv 2 (str "src") (str "dst") (str "Site") (str "https://example.com") (some [])
      [Caching false]).map (Option.map (fun r => (r.1.result.writer.map List.length, r.2.2.1))) =
      .ok (some (some 3, [])) :=
  ⟨by decide, by decide, by decide⟩

/-- Claim C28, as amended: when no option of the caller changes the caching flag, `Build`
configures the builder with caching on: the builder it returns has the flag set and its
sink caches.  Every output added during the walk is retained in the cache, in the order
in which it was added.  `Add` hands every output to the writer, when there is one: a
writer that started with the outputs `w` has received exactly the cached outputs after
them, and for the call without a writer, the same call with a writer returns the same
input files and the same error, and that writer receives exactly the outputs of the
cache.  When the build succeeds the returned cache is the cache of the sink. -/
theorem Build_caching (env : Env) (fuel : Nat) (src dst title url : GoString)
    (o : Option (List OutputFile)) (opts : List BuilderOption)
    (hopts : ∀ opt ∈ opts, ∀ t : Ssg, (opt t).options.caching = t.options.caching)
    (r : Ssg × List GoString × List OutputFile × Option GoError)
    (hB : Build env fuel src dst title url o opts = .ok (some r)) :
    r.1.options.caching = true ∧ r.1.result.cacheOutput = true ∧
    (∀ w, o = some w → r.1.result.writer = some (w ++ r.1.result.cache)) ∧
    (r.2.2.2 = none → r.2.2.1 = r.1.result.cache) ∧
    (o = none → ∃ r', Build env fuel src dst title url (some []) opts = .ok (some r') ∧
      r'.1.result.writer = some r.1.result.cache ∧ r'.2.1 = r.2.1 ∧ r'.2.2.2 = r.2.2.2) := by
  unfold Build NewWithOptions at hB
  cases hn : New env src dst title url with
  | error e => rw [hn] at hB; cases hB
  | ok s0 =>
    rw [hn] at hB
    simp only [Except.ok.injEq] at hB
    have hc : (s0.With ([Caching true] ++ opts)).options.caching = true := by
      have h2 : s0.With ([Caching true] ++ opts) = Ssg.With (Caching true s0) opts := rfl
      rw [h2, With_caching opts _ hopts]
      rfl
    have hinv := build_invariant env
      (fun t => t.options.caching = true ∧ t.result.cacheOutput = true ∧
        ∀ w, o = some w → t.result.writer = some (w ++ t.result.cache))
      (by
        intro t path d err ⟨h1, h2, h3⟩
        rcases walk_shape env t path d err with h | h | ⟨_, data, _, h | ⟨st, out, _, _, h⟩⟩
        · rw [h]; exact ⟨h1, h2, h3⟩
        · rw [h]
          obtain ⟨hr, ho, _⟩ := collect_fields env t path
          rw [hr, ho]
          exact ⟨h1, h2, h3⟩
        · rw [h]; exact ⟨h1, h2, h3⟩
        · rw [h]
          obtain ⟨hco, _, hcache, hwr⟩ := buildOutput_Add_fields (recordInput t path).result [out]
          have hco' : (recordInput t path).result.cacheOutput = true := h2
          refine ⟨h1, hco.trans hco', ?_⟩
          intro w hw
          show ((recordInput t path).result.Add [out]).writer =
            some (w ++ ((recordInput t path).result.Add [out]).cache)
          rw [hwr, hcache, hco']
          have h4 : (recordInput t path).result.writer = some (w ++ t.result.cache) := h3 w hw
          rw [h4]
          simp [recordInput])
      fuel _ o r ⟨hc, hc, (by intro w hw; rw [hw]; simp [resetResult])⟩ hB
    obtain ⟨⟨h1, h2, h3⟩, hok, _⟩ := hinv
    refine ⟨h1, h2, h3, fun he => (hok he).2, ?_⟩
    intro ho
    subst ho
    obtain ⟨r', hr', k1, k2, k3⟩ := build_stream env fuel _ _ rfl
      ⟨hc, rfl, _, _, [], rfl⟩ r hB
    refine ⟨r', ?_, k1, k2, k3⟩
    simp only [Build, NewWithOptions, hn, hr']

/-- Instance of claim C28 on the sample tree, for the call without a writer and with
options that set the writer count and add a hook: the build returns three outputs, which
are the cache of the sink and what a writer receives in the same call. -/
theorem Build_caching_witness :
    ∃ r, Build fooEnv 2 (str "src") (str "dst") (str "Site") (str "https://example.com")
        none [Writers 4, WithHooks [hookAppend 10]] = .ok (some r) ∧
      r.2.2.1.map OutputFile.target = [str "dst/foo.html", str "dst/foo.md", str "dst/style.css"] ∧
      r.1.options.caching = true ∧ r.1.result.cacheOutput = true ∧
      (∀ w, (none : Option (List OutputFile)) = some w →
        r.1.result.writer = some (w ++ r.1.result.cache)) ∧
      (r.2.2.2 = none → r.2.2.1 = r.1.result.cache) ∧
      ((none : Option (List OutputFile)) = none → ∃ r', Build fooEnv 2 (str "src") (str "dst")
          (str "Site")
          (str "https://example.com") (some []) [Writers 4, WithHooks [hookAppend 10]] =
            .ok (some r') ∧
        r'.1.result.writer = some r.1.result.cache ∧ r'.2.1 = r.2.1 ∧ r'.2.2.2 = r.2.2.2) :=
  ⟨_, rfl, by decide,
    Build_caching fooEnv 2 (str "src") (str "dst") (str "Site") (str "https://example.com")
      none [Writers 4, WithHooks [hookAppend 10]]
      (by
        intro opt hopt t
        rcases List.mem_cons.1 hopt with h | h
        · rw [h]; rfl
        · rw [List.mem_singleton.1 h]; rfl)
      _ rfl⟩


/-! ## Batch mode and streaming mode -/

theorem DestTree.write_comm (t : DestTree) (x y : OutputFile) (h : x.target ≠ y.target) :
    (t.write x).write y = (t.write y).write x := by
  funext p
  simp only [DestTree.write]
  by_cases h1 : p = y.target
  · have h2 : p ≠ x.target := fun h2 => h (h2.symm.trans h1)
    rw [if_pos h1, if_neg h2, if_pos h1]
  · rw [if_neg h1, if_neg h1]

theorem DestTree.writeAll_append (t : DestTree) (a b : List OutputFile) :
    t.writeAll (a ++ b) = (t.writeAll a).writeAll b :=
  List.foldl_append _ _ _ _

/-- Writes to pairwise different targets leave the same destination in whatever order they
are made. -/
theorem DestTree.writeAll_perm (l l' : List OutputFile) (hp : l.Perm l')
    (hnd : (l.map OutputFile.target).Nodup) (t : DestTree) : t.writeAll l = t.writeAll l' := by
  induction hp generalizing t with
  | nil => rfl
  | cons x _ ih =>
    simp only [List.map_cons, List.nodup_cons] at hnd
    exact ih hnd.2 (t.write x)
  | swap x y l =>
    simp only [List.map_cons, List.nodup_cons, List.mem_cons, not_or] at hnd
    show ((t.write y).write x).writeAll l = ((t.write x).write y).writeAll l
    rw [DestTree.write_comm t y x hnd.1.1]
  | trans h1 _ ih1 ih2 =>
    exact (ih1 hnd t).trans (ih2 ((h1.map OutputFile.target).nodup_iff.1 hnd) t)

theorem eraseIdx_perm {α : Type} (l : List α) (i : Nat) (x : α) (h : l.get? i = some x) :
    l.Perm (x :: l.eraseIdx i) := by
  induction l generalizing i with
  | nil => simp at h
  | cons a t ih =>
    cases i with
    | zero =>
      simp only [List.get?_cons_zero, Option.some.injEq] at h
      subst h
      exact List.Perm.refl _
    | succ n =>
      simp only [List.get?_cons_succ] at h
      exact (List.Perm.cons a (ih n h)).trans (List.Perm.swap x a _)

theorem WriteOut.start_inv (l : List OutputFile) (concurrent : Nat) :
    WriteOut.Inv l (WriteOut.start l concurrent) := by
  refine ⟨rfl, rfl, ?_, fun wk h => (by cases h), rfl, ?_, trivial⟩
  · show 0 < (if concurrent = 0 then 1 else concurrent)
    split <;> omega
  · exact List.Perm.refl _

/-- A step of a call of `WriteOut` in which no write fails keeps the invariant and brings
the call nearer to its end. -/
theorem WriteOut.step_inv (write : OutputFile → Option GoError) (l : List OutputFile)
    (hw : ∀ w ∈ l, write w = none) (st next : WriteOutState) (hinv : WriteOut.Inv l st)
    (h : next ∈ WriteOut.step write st) : WriteOut.Inv l next ∧ next.size < st.size := by
  obtain ⟨stream, concurrent, main, guard, workers, written, wErrs, disk⟩ := st
  obtain ⟨hE, hG, hC, hW, hWr, hP, hM⟩ := hinv
  simp only at hE hG hC hW hWr hM
  simp only [WriteOutState.pending] at hP
  simp only [WriteOut.step, List.mem_append, List.mem_flatMap, List.mem_range] at h
  rcases h with h | ⟨i, hi, h⟩
  · cases main with
    | ranging =>
      cases stream with
      | nil =>
        simp only [WriteOut.mainSteps, List.mem_singleton] at h
        subst h
        refine ⟨⟨hE, hG, hC, hW, hWr, ?_, rfl⟩, ?_⟩
        · simpa [WriteOutState.pending] using hP
        · simp [WriteOutState.size]
      | cons w rest =>
        simp only [WriteOut.mainSteps, List.mem_singleton] at h
        subst h
        refine ⟨⟨hE, hG, hC, hW, hWr, ?_, trivial⟩, ?_⟩
        · simpa [WriteOutState.pending] using hP
        · simp only [WriteOutState.size, List.length_cons]
          omega
    | acquiring w =>
      simp only [WriteOut.mainSteps] at h
      split at h
      · simp only [List.mem_singleton] at h
        subst h
        refine ⟨⟨hE, ?_, hC, ?_, hWr, ?_, trivial⟩, ?_⟩
        · simp only [List.length_append, List.length_singleton]
          omega
        · intro wk hwk
          rcases List.mem_append.1 hwk with h1 | h1
          · exact hW wk h1
          · exact ⟨w, List.mem_singleton.1 h1⟩
        · simpa [WriteOutState.pending] using hP
        · simp only [WriteOutState.size, List.length_append, List.length_singleton]
          omega
      · cases h
    | collecting =>
      simp only [WriteOut.mainSteps] at h
      split at h
      · rename_i hnil
        simp only [List.mem_singleton] at h
        subst h
        have hlen : ¬ 0 < wErrs.length := by rw [hE]; simp
        refine ⟨⟨hE, hG, hC, hW, hWr, ?_, ?_⟩, ?_⟩
        · simpa [WriteOutState.pending, hlen] using hP
        · simp [hlen, hnil, hM]
        · simp only [hlen, if_false, WriteOutState.size]
          omega
      · cases h
    | returned wr joined =>
      simp only [WriteOut.mainSteps] at h
      cases h
  · simp only [WriteOut.workerSteps] at h
    cases hget : workers.get? i with
    | none =>
      rw [hget] at h
      cases h
    | some wk =>
      rw [hget] at h
      obtain ⟨w, rfl⟩ := hW wk (List.get?_mem hget)
      have hperm := eraseIdx_perm workers i _ hget
      have hmem : w ∈ l := by
        apply hP.subset
        apply List.mem_append_right
        apply List.mem_append_left
        apply List.mem_append_left
        exact List.mem_flatMap.2 ⟨_, List.get?_mem hget, List.mem_singleton_self w⟩
      simp only [hw w hmem, List.mem_singleton] at h
      subst h
      have hlen : (workers.eraseIdx i).length = workers.length - 1 :=
        List.length_eraseIdx_of_lt hi
      refine ⟨⟨hE, ?_, hC, ?_, ?_, ?_, ?_⟩, ?_⟩
      · show guard - 1 = (workers.eraseIdx i).length
        rw [hlen, hG]
      · intro wk hwk
        exact hW wk (List.mem_of_mem_eraseIdx hwk)
      · show written ++ _ = (disk ++ [w]).map _
        rw [hWr, List.map_append]
        rfl
      · have h2 := (hperm.flatMap_right (fun wk => match wk with
          | Worker.writing w => [w]
          | Worker.sending _ => []))
        simp only [List.flatMap_cons] at h2
        refine List.Perm.trans ?_ hP
        simp only [WriteOutState.pending, List.append_assoc]
        refine List.Perm.append_left disk ?_
        refine (List.Perm.append_right _ h2).symm.trans ?_
        simp
      · cases main with
        | returned wr joined =>
          simp only at hM
          rw [hM.1] at hi
          simp at hi
        | collecting => exact hM
        | ranging => trivial
        | acquiring w0 => trivial
      · simp only [WriteOutState.size, hlen]
        omega

theorem WriteOut.exec_inv (write : OutputFile → Option GoError) (l : List OutputFile)
    (hw : ∀ w ∈ l, write w = none) (sched : List Nat) (st : WriteOutState)
    (hinv : WriteOut.Inv l st) : WriteOut.Inv l (WriteOut.exec write sched st) := by
  induction sched generalizing st with
  | nil => exact hinv
  | cons i rest ih =>
    simp only [WriteOut.exec]
    cases hget : (WriteOut.step write st).get? i with
    | none => exact ih st hinv
    | some next =>
      exact ih next (WriteOut.step_inv write l hw st next hinv (List.get?_mem hget)).1

theorem WriteOut.exec_append (write : OutputFile → Option GoError) (a b : List Nat)
    (st : WriteOutState) :
    WriteOut.exec write (a ++ b) st = WriteOut.exec write b (WriteOut.exec write a st) := by
  induction a generalizing st with
  | nil => rfl
  | cons i rest ih =>
    simp only [List.cons_append, WriteOut.exec]
    split <;> exact ih _

/-- A call of `WriteOut` in which no write fails and that has not returned can take a
step. -/
theorem WriteOut.progress (write : OutputFile → Option GoError) (l : List OutputFile)
    (hw : ∀ w ∈ l, write w = none) (st : WriteOutState) (hinv : WriteOut.Inv l st)
    (hnot : st.hasReturned = false) : ∃ next, (WriteOut.step write st).get? 0 = some next := by
  have hmem : ∃ next, next ∈ WriteOut.step write st := by
    obtain ⟨hE, hG, hC, hW, hWr, hP, hM⟩ := hinv
    have hmain : WriteOut.mainSteps st ≠ [] → ∃ next, next ∈ WriteOut.step write st := by
      intro hne
      cases hms : WriteOut.mainSteps st with
      | nil => exact absurd hms hne
      | cons x xs =>
        exact ⟨x, List.mem_append_left _ (by rw [hms]; exact List.mem_cons_self _ _)⟩
    have hworker : st.workers ≠ [] → ∃ next, next ∈ WriteOut.step write st := by
      intro hne
      cases hwk : st.workers with
      | nil => exact absurd hwk hne
      | cons wk ws =>
        have hin : wk ∈ st.workers := by rw [hwk]; exact List.mem_cons_self _ _
        obtain ⟨w, rfl⟩ := hW wk hin
        have hmem : w ∈ l := by
          apply hP.subset
          apply List.mem_append_right
          unfold WriteOutState.pending
          apply List.mem_append_left
          apply List.mem_append_left
          exact List.mem_flatMap.2 ⟨_, hin, List.mem_singleton_self w⟩
        have hget : st.workers.get? 0 = some (Worker.writing w) := by rw [hwk]; rfl
        have h0 : WriteOut.workerSteps write st 0 ≠ [] := by
          simp only [WriteOut.workerSteps, hget, hw w hmem]
          exact List.cons_ne_nil _ _
        cases hws : WriteOut.workerSteps write st 0 with
        | nil => exact absurd hws h0
        | cons x xs =>
          refine ⟨x, ?_⟩
          simp only [WriteOut.step, List.mem_append, List.mem_flatMap, List.mem_range]
          right
          refine ⟨0, by rw [hwk]; simp, ?_⟩
          rw [hws]
          exact List.mem_cons_self _ _
    cases hm : st.main with
    | ranging =>
      apply hmain
      unfold WriteOut.mainSteps
      rw [hm]
      cases st.stream <;> simp
    | acquiring w =>
      by_cases hroom : st.guard < st.concurrent
      · apply hmain
        unfold WriteOut.mainSteps
        rw [hm]
        simp [hroom]
      · apply hworker
        intro hnil
        rw [hnil] at hG
        simp only [List.length_nil] at hG
        omega
    | collecting =>
      by_cases hnil : st.workers = []
      · apply hmain
        unfold WriteOut.mainSteps
        rw [hm]
        simp [hnil]
      · exact hworker hnil
    | returned wr joined => simp [WriteOutState.hasReturned, hm] at hnot
  obtain ⟨next, hnext⟩ := hmem
  cases hs : WriteOut.step write st with
  | nil => rw [hs] at hnext; cases hnext
  | cons a t => exact ⟨a, rfl⟩

/-- A call of `WriteOut` in which no write fails can be brought to its return from every
state it reaches. -/
theorem WriteOut.live (write : OutputFile → Option GoError) (l : List OutputFile)
    (hw : ∀ w ∈ l, write w = none) (n : Nat) :
    ∀ st : WriteOutState, st.size ≤ n → WriteOut.Inv l st →
      ∃ sched, (WriteOut.exec write sched st).hasReturned = true := by
  induction n with
  | zero =>
    intro st hsize _
    refine ⟨[], ?_⟩
    obtain ⟨stream, concurrent, main, guard, workers, written, wErrs, disk⟩ := st
    cases main with
    | returned wr joined => rfl
    | ranging => simp [WriteOutState.size] at hsize
    | acquiring w => simp [WriteOutState.size] at hsize
    | collecting => simp [WriteOutState.size] at hsize
  | succ n ih =>
    intro st hsize hinv
    by_cases hret : st.hasReturned = true
    · exact ⟨[], hret⟩
    · have hnot : st.hasReturned = false := by simpa using hret
      obtain ⟨next, hnext⟩ := WriteOut.progress write l hw st hinv hnot
      obtain ⟨hinv', hlt⟩ := WriteOut.step_inv write l hw st next hinv (List.get?_mem hnext)
      obtain ⟨sched, hs⟩ := ih next (by omega) hinv'
      refine ⟨0 :: sched, ?_⟩
      simp only [WriteOut.exec, hnext]
      exact hs

/-- When no write fails, a call of `WriteOut` that has returned has returned no error and
the metadata of the outputs on the disk, and has written every item of the stream once. -/
theorem WriteOut_ok (write : OutputFile → Option GoError) (l : List OutputFile)
    (concurrent : Nat) (hw : ∀ w ∈ l, write w = none) (sched : List Nat)
    (wr : Option (List OutputFile)) (joined : List errorWrite) (disk : List OutputFile)
    (h : WriteOut write l concurrent sched = some (wr, joined, disk)) :
    joined = [] ∧ wr = some (disk.map (fun w => Output w.target w.originator [] w.perm)) ∧
      disk.Perm l := by
  have hinv := WriteOut.exec_inv write l hw sched _ (WriteOut.start_inv l concurrent)
  unfold WriteOut at h
  simp only at h
  obtain ⟨hE, hG, hC, hW, hWr, hP, hM⟩ := hinv
  cases hm : (WriteOut.exec write sched (WriteOut.start l concurrent)).main with
  | returned wr0 joined0 =>
    rw [hm] at h hM
    simp only [Option.some.injEq, Prod.mk.injEq] at h
    obtain ⟨h1, h2, h3⟩ := h
    obtain ⟨k1, k2, k3, k4⟩ := hM
    subst h1 h2 h3
    refine ⟨k4, by rw [k3, hWr], ?_⟩
    simpa [WriteOutState.pending, k1, k2, hm] using hP
  | ranging => rw [hm] at h; cases h
  | acquiring w => rw [hm] at h; cases h
  | collecting => rw [hm] at h; cases h

/-- When no write fails, every schedule of a call of `WriteOut` can be continued to one at
whose end the call has returned. -/
theorem WriteOut_live (write : OutputFile → Option GoError) (l : List OutputFile)
    (concurrent : Nat) (hw : ∀ w ∈ l, write w = none) (sched : List Nat) :
    ∃ more, (WriteOut write l concurrent (sched ++ more)).isSome = true := by
  have hinv := WriteOut.exec_inv write l hw sched _ (WriteOut.start_inv l concurrent)
  obtain ⟨more, hmore⟩ := WriteOut.live write l hw _ _ (Nat.le_refl _) hinv
  refine ⟨more, ?_⟩
  unfold WriteOut
  simp only [WriteOut.exec_append]
  cases hm : (WriteOut.exec write more (WriteOut.exec write sched
      (WriteOut.start l concurrent))).main with
  | returned wr joined => rfl
  | ranging => simp [WriteOutState.hasReturned, hm] at hmore
  | acquiring w => simp [WriteOutState.hasReturned, hm] at hmore
  | collecting => simp [WriteOutState.hasReturned, hm] at hmore

theorem WriteOutSlice_ok (write : OutputFile → Option GoError) (l : List OutputFile)
    (concurrent : Nat) (hw : ∀ w ∈ l, write w = none) (sched : List Nat)
    (joined : List errorWrite) (disk : List OutputFile)
    (h : WriteOutSlice write l concurrent sched = some (joined, disk)) :
    joined = [] ∧ disk.Perm l := by
  unfold WriteOutSlice at h
  cases hW : WriteOut write l concurrent sched with
  | none => rw [hW] at h; cases h
  | some r =>
    obtain ⟨wr, j, d⟩ := r
    rw [hW] at h
    simp only [Option.map_some', Option.some.injEq, Prod.mk.injEq] at h
    obtain ⟨h1, h2⟩ := h
    subst h1 h2
    obtain ⟨k1, _, k3⟩ := WriteOut_ok write l concurrent hw sched wr j d hW
    exact ⟨k1, k3⟩

theorem WriteOutSlice_live (write : OutputFile → Option GoError) (l : List OutputFile)
    (concurrent : Nat) (hw : ∀ w ∈ l, write w = none) (sched : List Nat) :
    ∃ more, (WriteOutSlice write l concurrent (sched ++ more)).isSome = true := by
  obtain ⟨more, hmore⟩ := WriteOut_live write l concurrent hw sched
  refine ⟨more, ?_⟩
  unfold WriteOutSlice
  cases hW : WriteOut write l concurrent (sched ++ more) with
  | none => rw [hW] at hmore; cases hmore
  | some r => rfl

theorem GenerateMetadata_ok (env : Env) (write : OutputFile → Option GoError)
    (src dst url : GoString) (files : List GoString) (dist : List OutputFile)
    (dateStr : GoString) (metadata : List OutputFile)
    (hmeta : (Metadata env src dst url files dist dateStr).2 = .ok metadata)
    (hw : ∀ w ∈ metadata, write w = none) (sched : List Nat) (disk : List OutputFile)
    (err : Option GoError)
    (h : GenerateMetadata env write src dst url files dist dateStr sched = some (disk, err)) :
    err = none ∧ disk.Perm metadata := by
  unfold GenerateMetadata at h
  rw [hmeta] at h
  simp only at h
  cases hW : WriteOutSlice write metadata 2 sched with
  | none => rw [hW] at h; cases h
  | some r =>
    obtain ⟨joined, d⟩ := r
    obtain ⟨k1, k2⟩ := WriteOutSlice_ok write metadata 2 hw sched joined d hW
    subst k1
    rw [hW] at h
    simp only [Option.some.injEq, Prod.mk.injEq] at h
    obtain ⟨h1, h2⟩ := h
    subst h1 h2
    exact ⟨rfl, k2⟩

theorem GenerateMetadata_live (env : Env) (write : OutputFile → Option GoError)
    (src dst url : GoString) (files : List GoString) (dist : List OutputFile)
    (dateStr : GoString) (metadata : List OutputFile)
    (hmeta : (Metadata env src dst url files dist dateStr).2 = .ok metadata)
    (hw : ∀ w ∈ metadata, write w = none) (sched : List Nat) :
    ∃ more, (GenerateMetadata env write src dst url files dist dateStr
      (sched ++ more)).isSome = true := by
  obtain ⟨more, hmore⟩ := WriteOutSlice_live write metadata 2 hw sched
  refine ⟨more, ?_⟩
  unfold GenerateMetadata
  rw [hmeta]
  simp only
  cases hW : WriteOutSlice write metadata 2 (sched ++ more) with
  | none => rw [hW] at hmore; cases hmore
  | some r =>
    obtain ⟨joined, d⟩ := r
    cases joined <;> rfl

theorem buildIn_success (env : Env) (oh : GoMap header → GoMap header)
    (ofn : GoMap Bytes → GoMap Bytes) (fuel : Nat) (s : Ssg) (o : Option (List OutputFile))
    (r : Ssg × List GoString × List OutputFile × Option GoError)
    (h : buildIn env oh ofn fuel s o = some r) :
    r.1.Src = s.Src ∧ r.1.Dst = s.Dst ∧ r.1.Url = s.Url ∧
      (r.2.2.2 = none → r.2.1 = r.1.result.files ∧ r.2.2.1 = r.1.result.cache) := by
  have hb : buildIn env oh ofn fuel s o =
      (match WalkDir env (fun s path d err => (s.reorder oh ofn).walk env path d err) fuel s.Src
        (resetResult s o) with
      | none => none
      | some (s, some err) => some (s, [], [], some err)
      | some (s, none) => some (s, s.result.files, s.result.cache, none)) := rfl
  rw [hb] at h
  cases hw : WalkDir env (fun s path d err => (s.reorder oh ofn).walk env path d err) fuel s.Src
      (resetResult s o) with
  | none => rw [hw] at h; cases h
  | some q =>
    have hroots := WalkDir_invariant env
      (fun s path d err => (s.reorder oh ofn).walk env path d err)
      (fun t => t.Src = s.Src ∧ t.Dst = s.Dst ∧ t.Url = s.Url)
      (fun t path d err ht => by
        obtain ⟨h1, h2, h3⟩ := walk_roots env (t.reorder oh ofn) path d err
        exact ⟨h1.trans ht.1, h2.trans ht.2.1, h3.trans ht.2.2⟩)
      fuel s.Src (resetResult s o) q ⟨rfl, rfl, rfl⟩ hw
    obtain ⟨s1, e1⟩ := q
    rw [hw] at h
    cases e1 with
    | none =>
      cases h
      exact ⟨hroots.1, hroots.2.1, hroots.2.2, fun _ => ⟨rfl, rfl⟩⟩
    | some e =>
      cases h
      exact ⟨hroots.1, hroots.2.1, hroots.2.2, fun hn => by cases hn⟩

/-- The walk of streaming mode next to the walk of batch mode, each visiting the entries
of the stores in an order of its own: when the batch build succeeds, the streaming build
succeeds with the same input files, and its writer has received the cache of the batch
build, item by item. -/
theorem buildIn_stream (env : Env) (oh oh' : GoMap header → GoMap header)
    (ofn ofn' : GoMap Bytes → GoMap Bytes)
    (hoh : IsOrder oh) (hoh' : IsOrder oh') (hof : IsOrder ofn) (hof' : IsOrder ofn')
    (fuel : Nat) (s : Ssg)
    (hfresh : s.headers.values = [] ∧ s.footers.values = [])
    (hstages : KeepPath s.options.pipelines) (htree : DirsNotBelowFiles env)
    (sB : Ssg) (files : List GoString) (cache : List OutputFile)
    (hbuild : buildIn env oh ofn fuel (s.With [Caching true]) none =
      some (sB, files, cache, none)) :
    ∃ sS c, buildIn env oh' ofn' fuel s (some []) = some (sS, files, c, none) ∧
      sS.result.writer = some cache ∧ sS.Src = s.Src ∧ sS.Dst = s.Dst ∧ sS.Url = s.Url := by
  have hidh : IsOrder (id : GoMap header → GoMap header) := fun m => List.Perm.refl m
  have hidf : IsOrder (id : GoMap Bytes → GoMap Bytes) := fun m => List.Perm.refl m
  have hcache : cache = sB.result.cache := ((buildIn_success env oh ofn fuel _ none _ hbuild).2.2.2
    rfl).2
  have h1 := buildIn_order env oh id ofn id hoh hidh hof hidf fuel (s.With [Caching true]) none
    hfresh hstages htree
  rw [hbuild] at h1
  cases hb0 : buildIn env id id fuel (s.With [Caching true]) none with
  | none => rw [hb0] at h1; cases h1
  | some r0 =>
    rw [hb0] at h1
    simp only [Option.map_some', Option.some.injEq, Prod.mk.injEq] at h1
    obtain ⟨hres, hr02⟩ := h1
    obtain ⟨r', hr', k1, k2, k3⟩ := build_stream env fuel (s.With [Caching true]) s rfl
      ⟨rfl, rfl, s.options.caching, s.options.caching, [], rfl⟩ r0 hb0
    have h2 := buildIn_order env id oh' id ofn' hidh hoh' hidf hof' fuel s (some [])
      hfresh hstages htree
    have hb1 : buildIn env id id fuel s (some []) = some r' := hr'
    rw [hb1] at h2
    cases hb2 : buildIn env oh' ofn' fuel s (some []) with
    | none => rw [hb2] at h2; cases h2
    | some r2 =>
      rw [hb2] at h2
      simp only [Option.map_some', Option.some.injEq, Prod.mk.injEq] at h2
      obtain ⟨hres2, hr22⟩ := h2
      obtain ⟨g1, g2, g3, _⟩ := buildIn_success env oh' ofn' fuel s (some []) r2 hb2
      obtain ⟨sS, f2, c2, e2⟩ := r2
      simp only at hres2 hr22 g1 g2 g3
      have hf : f2 = files := by
        have a1 : r'.2.1 = f2 := congrArg (fun x => x.1) hr22
        have a2 : files = r0.2.1 := congrArg (fun x => x.1) hr02
        rw [← a1, k2, ← a2]
      have he : e2 = none := by
        have a1 : r'.2.2.2 = e2 := congrArg (fun x => x.2.2) hr22
        have a2 : (none : Option GoError) = r0.2.2.2 := congrArg (fun x => x.2.2) hr02
        rw [← a1, k3, ← a2]
      subst hf he
      refine ⟨sS, c2, rfl, ?_, g1, g2, g3⟩
      rw [← hres2, k1, ← hres, hcache]

/-- Batch mode when the build has succeeded and no write fails: every schedule at whose
end the flow has returned leaves the outputs of the cache and the metadata files, and
every schedule can be continued to such an end. -/
theorem buildAndWriteOut_spec (env : Env) (oh : GoMap header → GoMap header)
    (ofn : GoMap Bytes → GoMap Bytes) (fuel : Nat) (s : Ssg) (dateStr : GoString)
    (write : OutputFile → Option GoError) (info : FileInfo) (hstat : env.Stat s.Src = .ok info)
    (sB : Ssg) (files : List GoString) (cache : List OutputFile)
    (hbuild : buildIn env oh ofn fuel (s.With [Caching true]) none =
      some (sB, files, cache, none))
    (metadata : List OutputFile)
    (hmeta : (Metadata env s.Src s.Dst s.Url files cache dateStr).2 = .ok metadata)
    (hwc : ∀ w ∈ cache, write w = none) (hwm : ∀ w ∈ metadata, write w = none) :
    (∀ sched schedMeta disk err,
      buildAndWriteOut env oh ofn fuel s dateStr write sched schedMeta = some (disk, err) →
      err = none ∧ ∃ d1 d2, disk = d1 ++ d2 ∧ d1.Perm cache ∧ d2.Perm metadata) ∧
    (∀ sched schedMeta, ∃ more moreMeta,
      (buildAndWriteOut env oh ofn fuel s dateStr write (sched ++ more)
        (schedMeta ++ moreMeta)).isSome = true) := by
  constructor
  · intro sched schedMeta disk err h
    simp only [buildAndWriteOut, hbuild] at h
    cases hW : WriteOutSlice write cache 1 sched with
    | none => rw [hW] at h; cases h
    | some r =>
      obtain ⟨joined, d1⟩ := r
      obtain ⟨k1, k2⟩ := WriteOutSlice_ok write cache 1 hwc sched joined d1 hW
      subst k1
      rw [hW] at h
      simp only [hstat] at h
      cases hG : GenerateMetadata env write s.Src s.Dst s.Url files cache dateStr schedMeta with
      | none => rw [hG] at h; cases h
      | some q =>
        obtain ⟨d2, e⟩ := q
        obtain ⟨m1, m2⟩ := GenerateMetadata_ok env write _ _ _ _ _ _ metadata hmeta hwm
          schedMeta d2 e hG
        rw [hG] at h
        simp only [Option.some.injEq, Prod.mk.injEq] at h
        obtain ⟨h1, h2⟩ := h
        subst h1 h2
        exact ⟨m1, d1, d2, rfl, k2, m2⟩
  · intro sched schedMeta
    obtain ⟨more, hmore⟩ := WriteOutSlice_live write cache 1 hwc sched
    obtain ⟨moreMeta, hmoreMeta⟩ := GenerateMetadata_live env write s.Src s.Dst s.Url files cache
      dateStr metadata hmeta hwm schedMeta
    refine ⟨more, moreMeta, ?_⟩
    simp only [buildAndWriteOut, hbuild]
    cases hW : WriteOutSlice write cache 1 (sched ++ more) with
    | none => rw [hW] at hmore; cases hmore
    | some r =>
      obtain ⟨joined, d1⟩ := r
      obtain ⟨k1, _⟩ := WriteOutSlice_ok write cache 1 hwc _ joined d1 hW
      subst k1
      simp only [hstat]
      cases hG : GenerateMetadata env write s.Src s.Dst s.Url files cache dateStr
          (schedMeta ++ moreMeta) with
      | none => rw [hG] at hmoreMeta; cases hmoreMeta
      | some q => rfl

/-- Streaming mode when its build has succeeded with the outputs `cache` on the stream
and no write fails: every schedule at whose end `generate` has returned leaves the outputs
of the stream and the metadata files, and every schedule can be continued to such an
end. -/
theorem generate_spec (env : Env) (oh : GoMap header → GoMap header)
    (ofn : GoMap Bytes → GoMap Bytes) (fuel : Nat) (s : Ssg) (dateStr : GoString)
    (write : OutputFile → Option GoError) (info : FileInfo) (hstat : env.Stat s.Src = .ok info)
    (sS : Ssg) (files : List GoString) (c cache : List OutputFile)
    (hbuild : buildIn env oh ofn fuel s (some []) = some (sS, files, c, none))
    (hwr : sS.result.writer = some cache)
    (hsrc : sS.Src = s.Src) (hdst : sS.Dst = s.Dst) (hurl : sS.Url = s.Url)
    (metadata : List OutputFile)
    (hmeta : (Metadata env s.Src s.Dst s.Url files cache dateStr).2 = .ok metadata)
    (hwc : ∀ w ∈ cache, write w = none) (hwm : ∀ w ∈ metadata, write w = none) :
    (∀ sched schedMeta disk err,
      generate env oh ofn fuel s dateStr write sched schedMeta = some (disk, err) →
      err = none ∧ ∃ d1 d2, disk = d1 ++ d2 ∧ d1.Perm cache ∧ d2.Perm metadata) ∧
    (∀ sched schedMeta, ∃ more moreMeta,
      (generate env oh ofn fuel s dateStr write (sched ++ more)
        (schedMeta ++ moreMeta)).isSome = true) := by
  have hm : ∀ d1 : List OutputFile, d1.Perm cache →
      (Metadata env sS.Src sS.Dst sS.Url files
        ((some (d1.map (fun w => Output w.target w.originator [] w.perm))).getD []) dateStr).2 =
        .ok metadata := by
    intro d1 hd1
    rw [hsrc, hdst, hurl, ← hmeta]
    apply Metadata_perm
    simp only [Option.getD_some, List.map_map]
    exact hd1.map _
  constructor
  · intro sched schedMeta disk err h
    simp only [generate, hstat, hbuild, hwr, Option.getD_some] at h
    cases hW : WriteOut write cache sS.options.writers sched with
    | none => rw [hW] at h; cases h
    | some r =>
      obtain ⟨wr, joined, d1⟩ := r
      obtain ⟨k1, k2, k3⟩ := WriteOut_ok write cache _ hwc sched wr joined d1 hW
      subst k1 k2
      rw [hW] at h
      simp only at h
      cases hG : GenerateMetadata env write sS.Src sS.Dst sS.Url files
          ((some (d1.map (fun w => Output w.target w.originator [] w.perm))).getD []) dateStr
          schedMeta with
      | none => rw [hG] at h; cases h
      | some q =>
        obtain ⟨d2, e⟩ := q
        obtain ⟨m1, m2⟩ := GenerateMetadata_ok env write _ _ _ _ _ _ metadata (hm d1 k3) hwm
          schedMeta d2 e hG
        rw [hG] at h
        simp only [Option.some.injEq, Prod.mk.injEq] at h
        obtain ⟨h1, h2⟩ := h
        subst h1 h2
        exact ⟨m1, d1, d2, rfl, k3, m2⟩
  · intro sched schedMeta
    obtain ⟨more, hmore⟩ := WriteOut_live write cache sS.options.writers hwc sched
    cases hW : WriteOut write cache sS.options.writers (sched ++ more) with
    | none => rw [hW] at hmore; cases hmore
    | some r =>
      obtain ⟨wr, joined, d1⟩ := r
      obtain ⟨k1, k2, k3⟩ := WriteOut_ok write cache _ hwc _ wr joined d1 hW
      subst k1 k2
      obtain ⟨moreMeta, hmoreMeta⟩ := GenerateMetadata_live env write sS.Src sS.Dst sS.Url files
        _ dateStr metadata (hm d1 k3) hwm schedMeta
      refine ⟨more, moreMeta, ?_⟩
      simp only [generate, hstat, hbuild, hwr, Option.getD_some, hW]
      simp only [Option.getD_some] at hmoreMeta
      cases hG : GenerateMetadata env write sS.Src sS.Dst sS.Url files
          (d1.map (fun w => Output w.target w.originator [] w.perm)) dateStr
          (schedMeta ++ moreMeta) with
      | none => rw [hG] at hmoreMeta; cases hmoreMeta
      | some q => rfl

theorem DestTree.writeAll_two (t0 : DestTree) (cache metadata d1 d2 : List OutputFile)
    (hcache : (cache.map OutputFile.target).Nodup)
    (hmd : (metadata.map OutputFile.target).Nodup)
    (h1 : d1.Perm cache) (h2 : d2.Perm metadata) :
    t0.writeAll (d1 ++ d2) = (t0.writeAll cache).writeAll metadata := by
  rw [DestTree.writeAll_append, ← DestTree.writeAll_perm cache d1 h1.symm hcache t0,
    ← DestTree.writeAll_perm metadata d2 h2.symm hmd]

/-- Two outputs with the same target: with two writers the destination depends on the
schedule.  When the writer of the first item finishes first the file holds the bytes of
the second, and when the writer of the second finishes first it holds the bytes of the
first. -/
theorem writeOut_same_target :
    (WriteOut (fun _ => none)
        [Output (str "dst/c.txt") (str "src/a.txt") (str "a") 0o644,
         Output (str "dst/c.txt") (str "src/b.txt") (str "b") 0o644] 2
        [0, 0, 0, 0, 1, 0, 0, 0]).map
        (fun r => DestTree.writeAll (fun _ => none) r.2.2 (str "dst/c.txt")) =
      some (some (str "b")) ∧
    (WriteOut (fun _ => none)
        [Output (str "dst/c.txt") (str "src/a.txt") (str "a") 0o644,
         Output (str "dst/c.txt") (str "src/b.txt") (str "b") 0o644] 2
        [0, 0, 0, 0, 2, 0, 0, 0]).map
        (fun r => DestTree.writeAll (fun _ => none) r.2.2 (str "dst/c.txt")) =
      some (some (str "a")) :=
  ⟨by decide, by decide⟩

/-- Claim C21 as stated fails in two ways.  On a source tree on which the build fails, here
`src` with the files `a.txt` and `b.txt`, of which `b.txt` cannot be read, streaming mode
has written `dst/a.txt` by the time the build fails on `b.txt`, while batch mode, in which
nothing is written before the walk has ended, writes nothing.  And the two modes are two
walks, each visiting the entries of the header store in an order of its own: on the tree
of `tieEnv`, with the stage that files `src/z.md` under the path of the directory
`src/x.md`, batch mode visiting the entries in insertion order leaves `dst/x.html` with
the header of `b`, and streaming mode visiting the header of `a` last leaves it with the
header of `a`. -/
theorem modes_differ_counterexample :
    generate unreadableEnv id id 2 fooSsg (str "2024-10-04") (fun _ => none)
        (List.replicate 5 0) [] =
      some ([Output (str "dst/a.txt") (str "src/a.txt") (str "a\n") 0o644],
        some (wrap (str "streaming_build_error: ") (other (str "permission denied")))) ∧
    (∀ sched schedMeta, buildAndWriteOut unreadableEnv id id 2 fooSsg (str "2024-10-04")
        (fun _ => none) sched schedMeta = some ([], some (other (str "permission denied")))) ∧
    DestTree.writeAll (fun _ => none)
        [Output (str "dst/a.txt") (str "src/a.txt") (str "a\n") 0o644] (str "dst/a.txt") =
      some (str "a\n") ∧
    DestTree.writeAll (fun _ => none) [] (str "dst/a.txt") = none ∧
    (buildAndWriteOut tieEnv id id 4 tieSsg (str "2024-10-04") (fun _ => none)
        (List.replicate 5 0) (List.replicate 8 0)).map
        (fun r => (DestTree.writeAll (fun _ => none) r.1 (str "dst/x.html"), r.2)) =
      some (some (str "<B>\n" ++ str "<p>text\n</p>" ++ FooterDefault), none) ∧
    (generate tieEnv (visitLast (str "src/x.md/a")) id 4 tieSsg (str "2024-10-04")
        (fun _ => none) (List.replicate 5 0) (List.replicate 8 0)).map
        (fun r => (DestTree.writeAll (fun _ => none) r.1 (str "dst/x.html"), r.2)) =
      some (some (str "<A>\n" ++ str "<p>text\n</p>" ++ FooterDefault), none) :=
  ⟨by decide, fun _ _ => rfl, by decide, by decide, by decide, by decide⟩

/-- Claim C21, as amended: batch mode (`Build` into the cache, `WriteOutSlice`,
`GenerateMetadata`) and streaming mode (`generate`) leave the same destination tree, each
walk visiting the entries of the header and footer stores in an order of its own and the
writers running under any schedule, when the builder is fresh, the stages leave the path
as it is, no directory of the source tree lies below a file, `os.Stat` of the source root
succeeds, the build of batch mode succeeds with outputs of pairwise different targets, the
metadata can be generated, and no write fails.  Every schedule at whose end a mode has
returned has ended without error and has left the destination `t0` with the outputs of
the cache and then the two metadata files written to it; and every schedule of either
mode can be continued to such an end. -/
theorem modes_agree (env : Env) (oh oh' : GoMap header → GoMap header)
    (ofn ofn' : GoMap Bytes → GoMap Bytes)
    (hoh : IsOrder oh) (hoh' : IsOrder oh') (hof : IsOrder ofn) (hof' : IsOrder ofn')
    (fuel : Nat) (s : Ssg) (dateStr : GoString) (write : OutputFile → Option GoError)
    (hfresh : s.headers.values = [] ∧ s.footers.values = [])
    (hstages : KeepPath s.options.pipelines) (htree : DirsNotBelowFiles env)
    (info : FileInfo) (hstat : env.Stat s.Src = .ok info)
    (sB : Ssg) (files : List GoString) (cache : List OutputFile)
    (hbuild : buildIn env oh ofn fuel (s.With [Caching true]) none =
      some (sB, files, cache, none))
    (metadata : List OutputFile)
    (hmeta : (Metadata env s.Src s.Dst s.Url files cache dateStr).2 = .ok metadata)
    (hcache : (cache.map OutputFile.target).Nodup)
    (hmd : (metadata.map OutputFile.target).Nodup)
    (hwrite : ∀ w ∈ cache ++ metadata, write w = none) (t0 : DestTree) :
    (∀ sched schedMeta disk err,
      buildAndWriteOut env oh ofn fuel s dateStr write sched schedMeta = some (disk, err) →
      err = none ∧ t0.writeAll disk = (t0.writeAll cache).writeAll metadata) ∧
    (∀ sched schedMeta disk err,
      generate env oh' ofn' fuel s dateStr write sched schedMeta = some (disk, err) →
      err = none ∧ t0.writeAll disk = (t0.writeAll cache).writeAll metadata) ∧
    (∀ sched schedMeta, ∃ more moreMeta,
      (buildAndWriteOut env oh ofn fuel s dateStr write (sched ++ more)
        (schedMeta ++ moreMeta)).isSome = true) ∧
    (∀ sched schedMeta, ∃ more moreMeta,
      (generate env oh' ofn' fuel s dateStr write (sched ++ more)
        (schedMeta ++ moreMeta)).isSome = true) := by
  have hwc : ∀ w ∈ cache, write w = none := fun w h => hwrite w (List.mem_append_left _ h)
  have hwm : ∀ w ∈ metadata, write w = none := fun w h => hwrite w (List.mem_append_right _ h)
  obtain ⟨b1, b2⟩ := buildAndWriteOut_spec env oh ofn fuel s dateStr write info hstat sB files
    cache hbuild metadata hmeta hwc hwm
  obtain ⟨sS, c, hbS, hwr, hsrc, hdst, hurl⟩ := buildIn_stream env oh oh' ofn ofn' hoh hoh' hof
    hof' fuel s hfresh hstages htree sB files cache hbuild
  obtain ⟨g1, g2⟩ := generate_spec env oh' ofn' fuel s dateStr write info hstat sS files c
    cache hbS hwr hsrc hdst hurl metadata hmeta hwc hwm
  refine ⟨?_, ?_, b2, g2⟩
  · intro sched schedMeta disk err h
    obtain ⟨he, d1, d2, hd, h1, h2⟩ := b1 sched schedMeta disk err h
    subst hd
    exact ⟨he, DestTree.writeAll_two t0 cache metadata d1 d2 hcache hmd h1 h2⟩
  · intro sched schedMeta disk err h
    obtain ⟨he, d1, d2, hd, h1, h2⟩ := g1 sched schedMeta disk err h
    subst hd
    exact ⟨he, DestTree.writeAll_two t0 cache metadata d1 d2 hcache hmd h1 h2⟩

/-- Instance of claim C21 on the tree with a header and a footer in two directories, with
two writers and a stage that leaves the path as it is, batch mode visiting the entries of
the stores in insertion order and streaming mode visiting the headers in reverse order and
the footer of `src` last: whatever the schedules, both modes leave the two pages followed
by `sitemap.xml` and `.files`; and in the run of streaming mode in which the second writer
finishes first, `dst/index.html` is written before `dst/a/page.html`. -/
theorem modes_agree_witness :
    ∃ cache metadata,
      (buildIn nestedEnv id id 3 ((Writers 2 nestedSsg).With [Caching true]) none).map
        (fun r => r.2.2) = some (cache, none) ∧
      cache.map OutputFile.target = [str "dst/a/page.html", str "dst/index.html"] ∧
      metadata.map OutputFile.target = [str "dst/sitemap.xml", str "dst/.files"] ∧
      ((∀ sched schedMeta disk err,
        buildAndWriteOut nestedEnv id id 3 (Writers 2 nestedSsg) (str "2024-10-04")
          (fun _ => none) sched schedMeta = some (disk, err) →
        err = none ∧ DestTree.writeAll (fun _ => none) disk =
          (DestTree.writeAll (fun _ => none) cache).writeAll metadata) ∧
      (∀ sched schedMeta disk err,
        generate nestedEnv List.reverse (visitLast (str "src")) 3 (Writers 2 nestedSsg)
          (str "2024-10-04") (fun _ => none) sched schedMeta = some (disk, err) →
        err = none ∧ DestTree.writeAll (fun _ => none) disk =
          (DestTree.writeAll (fun _ => none) cache).writeAll metadata) ∧
      (∀ sched schedMeta, ∃ more moreMeta,
        (buildAndWriteOut nestedEnv id id 3 (Writers 2 nestedSsg) (str "2024-10-04")
          (fun _ => none) (sched ++ more) (schedMeta ++ moreMeta)).isSome = true) ∧
      (∀ sched schedMeta, ∃ more moreMeta,
        (generate nestedEnv List.reverse (visitLast (str "src")) 3 (Writers 2 nestedSsg)
          (str "2024-10-04") (fun _ => none) (sched ++ more)
          (schedMeta ++ moreMeta)).isSome = true)) ∧
      (generate nestedEnv List.reverse (visitLast (str "src")) 3 (Writers 2 nestedSsg)
        (str "2024-10-04") (fun _ => none) [0, 0, 0, 0, 2, 0, 0, 0] (List.replicate 8 0)).map
        (fun r => (r.1.map OutputFile.target, r.2)) =
        some ([str "dst/index.html", str "dst/a/page.html", str "dst/sitemap.xml",
          str "dst/.files"], none) :=
  ⟨_, _, rfl, by decide, by decide,
    modes_agree nestedEnv id List.reverse id (visitLast (str "src"))
      (fun m => List.Perm.refl m) (fun m => List.reverse_perm m) (fun m => List.Perm.refl m)
      (fun m => by
        show (m.filter (fun e => e.1 ≠ str "src") ++ m.filter (fun e => e.1 = str "src")).Perm m
        have h := List.filter_append_perm (fun e : GoString × Bytes => decide (e.1 = str "src")) m
        refine (List.perm_append_comm.trans ?_).trans h
        refine List.Perm.append_left _ ?_
        apply List.Perm.of_eq
        apply List.filter_congr
        intro x _
        simp)
      3 (Writers 2 nestedSsg) (str "2024-10-04") (fun _ => none) ⟨rfl, rfl⟩
      (fun p hp path data d => by
        have hp1 : p = stageAppend 33 := by simpa [nestedSsg, Writers] using hp
        subst hp1
        rfl)
      nestedEnv_dirs_not_below_files _ rfl _ _ _ rfl _ rfl (by decide) (by decide)
      (fun _ _ => rfl) (fun _ => none),
    by decide⟩


/-! ## An option that is applied twice -/

/-- Claim C37: the closure returned by `PrependHooks(b)` overwrites its captured list on
every call.  Called first on a builder with the hooks `h1` and then on a builder with the
hooks `h2`, it leaves the first builder with `b ++ h1` and the second with
`b ++ h1 ++ h2`, which is not `b ++ h2` unless `h1` is empty. -/
theorem prependHooks_reuse (b : List Hook) (s1 s2 : Ssg) :
    (PrependHooks.call b s1).2.options.hooks = b ++ s1.options.hooks ∧
    (PrependHooks.call b s1).1 = b ++ s1.options.hooks ∧
    (PrependHooks.call (PrependHooks.call b s1).1 s2).2.options.hooks =
      b ++ s1.options.hooks ++ s2.options.hooks ∧
    (s1.options.hooks ≠ [] →
      (PrependHooks.call (PrependHooks.call b s1).1 s2).2.options.hooks ≠
        b ++ s2.options.hooks) := by
  refine ⟨rfl, rfl, rfl, ?_⟩
  intro hne heq
  have h : (b ++ s1.options.hooks ++ s2.options.hooks).length = (b ++ s2.options.hooks).length :=
    congrArg List.length heq
  simp only [List.length_append] at h
  have : s1.options.hooks.length = 0 := by omega
  exact hne (List.length_eq_zero.1 this)

/-- Instance of claim C37: the option made from the hook that appends 1, called on a
builder whose hook appends 2 and then on a builder whose hook appends 3. -/
theorem prependHooks_reuse_witness :
    (WithHooks [hookAppend 2] fooSsg).options.hooks ≠ [] ∧
    (PrependHooks.call (PrependHooks.call [hookAppend 1] (WithHooks [hookAppend 2] fooSsg)).1
      (WithHooks [hookAppend 3] fooSsg)).2.options.hooks ≠
      [hookAppend 1] ++ (WithHooks [hookAppend 3] fooSsg).options.hooks ∧
    (PrependHooks.call (PrependHooks.call [hookAppend 1] (WithHooks [hookAppend 2] fooSsg)).1
      (WithHooks [hookAppend 3] fooSsg)).2.options.hooks =
      [hookAppend 1, hookAppend 2, hookAppend 3] :=
  ⟨(by intro h; cases h),
    (prependHooks_reuse [hookAppend 1] (WithHooks [hookAppend 2] fooSsg)
      (WithHooks [hookAppend 3] fooSsg)).2.2.2 (by intro h; cases h),
    rfl⟩

/-! ## The sitemap and the order of the outputs, as `Metadata` sees them -/

/-- Claim C36: `Metadata` returns the same values, the bytes of sitemap.xml among them,
for two output lists with the same targets up to order, in particular for two lists that
are permutations of each other; and it leaves the list it was given in ascending order
of the targets, with the same outputs in it. -/
theorem metadata_order_independent (env : Env) (src dst url : GoString)
    (files : List GoString) (dist dist' : List OutputFile) (dateStr : GoString)
    (h : (dist'.map OutputFile.target).Perm (dist.map OutputFile.target)) :
    (Metadata env src dst url files dist' dateStr).2 =
      (Metadata env src dst url files dist dateStr).2 ∧
    ((Metadata env src dst url files dist dateStr).1.map OutputFile.target).Sorted
      (fun a b => a ≤ b) ∧
    (Metadata env src dst url files dist dateStr).1.Perm dist := by
  refine ⟨Metadata_perm env src dst url files dist dist' dateStr h, ?_, ?_⟩
  · show ((sortByTarget dist).map OutputFile.target).Sorted (fun a b => a ≤ b)
    rw [sortByTarget_targets]
    exact List.sorted_insertionSort _ _
  · exact List.perm_insertionSort _ _

/-- Instance of claim C36: two outputs in either order give the same sitemap, and the
list is left with `dst/a.html` before `dst/b.html`. -/
theorem metadata_order_independent_witness :
    (Metadata fooEnv (str "src") (str "dst") (str "https://example.com") []
      [goodOutput, badOutput] (str "2024-10-04")).2 =
      (Metadata fooEnv (str "src") (str "dst") (str "https://example.com") []
        [badOutput, goodOutput] (str "2024-10-04")).2 ∧
    (Metadata fooEnv (str "src") (str "dst") (str "https://example.com") []
      [goodOutput, badOutput] (str "2024-10-04")).1 = [badOutput, goodOutput] :=
  ⟨(metadata_order_independent fooEnv (str "src") (str "dst") (str "https://example.com") []
      [badOutput, goodOutput] [goodOutput, badOutput] (str "2024-10-04")
      ((List.Perm.swap _ _ _).map OutputFile.target)).1,
    by decide⟩


/-! ## The deepest registered ancestor -/

theorem runeCount_append (a b : GoString) : runeCount (a ++ b) = runeCount a + runeCount b := by
  simp [runeCount, List.filter_append]

/-- A key whose segments are the first segments of another key, and which is not that
key, is shorter in bytes and in characters and has fewer segments. -/
theorem ancestor_lt (a b : GoString) (h : segments a <+: segments b) (hne : a ≠ b) :
    len a < len b ∧ runeCount a < runeCount b ∧
      (segments a).length < (segments b).length := by
  obtain ⟨t, ht⟩ := h
  have hte : t ≠ [] := by
    intro hte
    subst hte
    rw [List.append_nil] at ht
    apply hne
    rw [← intercalate_segments a, ← intercalate_segments b, ht]
  have hb : b = a ++ str "/" ++ (str "/").intercalate t := by
    have := intercalate_append (str "/") _ _ (segments_ne_nil a) hte
    rw [ht, intercalate_segments, intercalate_segments] at this
    exact this
  have h1 : (str "/").length = 1 := by decide
  have h2 : runeCount (str "/") = 1 := by decide
  refine ⟨?_, ?_, ?_⟩
  · rw [hb]
    simp only [len, List.length_append, h1]
    omega
  · rw [hb, runeCount_append, runeCount_append, h2]
    omega
  · rw [← ht, List.length_append]
    have := List.length_pos.2 hte
    omega

theorem candidate_ancestor (p k : GoString) (h : isCandidate p k)
    (hl : (segments k).length ≤ (segments p).length) : segments k <+: segments p :=
  segmentsMatch_initial _ _ ((segmentsMatch_iff_isCandidate p k).2 h) hl

/-- Claim C33: for a store with pairwise different keys and a path `p` that is not a key,
when no candidate key has more segments than `p`: different candidates have different
lengths, in bytes and in characters, and the longer one has more segments; `choose`
returns the value of the one candidate that has more segments than every other, or the
default when there is no candidate; and it returns the same for every order of the
entries. -/
theorem choose_deepest_ancestor {T : Type} (p : GoString) (v0 : T) (m : GoMap T)
    (hnd : (m.map Prod.fst).Nodup) (hkey : m.get p = none)
    (hanc : ∀ e ∈ m, isCandidate p e.1 → (segments e.1).length ≤ (segments p).length) :
    (∀ e1 ∈ m, ∀ e2 ∈ m, isCandidate p e1.1 → isCandidate p e2.1 → e1.1 ≠ e2.1 →
      len e1.1 ≠ len e2.1 ∧ runeCount e1.1 ≠ runeCount e2.1 ∧
      (len e1.1 < len e2.1 ↔ (segments e1.1).length < (segments e2.1).length)) ∧
    ((∃ e ∈ m, isCandidate p e.1) →
      ∃ e ∈ m, isCandidate p e.1 ∧ choose p v0 m = e.2 ∧
        ∀ e' ∈ m, isCandidate p e'.1 → e' ≠ e →
          (segments e'.1).length < (segments e.1).length) ∧
    ((¬ ∃ e ∈ m, isCandidate p e.1) → choose p v0 m = v0) ∧
    (∀ m', m'.Perm m → choose p v0 m' = choose p v0 m) := by
  have hcmp : ∀ e1 ∈ m, ∀ e2 ∈ m, isCandidate p e1.1 → isCandidate p e2.1 → e1.1 ≠ e2.1 →
      (len e1.1 < len e2.1 ∧ runeCount e1.1 < runeCount e2.1 ∧
        (segments e1.1).length < (segments e2.1).length) ∨
      (len e2.1 < len e1.1 ∧ runeCount e2.1 < runeCount e1.1 ∧
        (segments e2.1).length < (segments e1.1).length) := by
    intro e1 h1 e2 h2 c1 c2 hne
    have p1 := candidate_ancestor p e1.1 c1 (hanc e1 h1 c1)
    have p2 := candidate_ancestor p e2.1 c2 (hanc e2 h2 c2)
    rcases List.prefix_or_prefix_of_prefix p1 p2 with h | h
    · exact Or.inl (ancestor_lt _ _ h hne)
    · exact Or.inr (ancestor_lt _ _ h (fun h' => hne h'.symm))
  refine ⟨?_, ?_, ?_, ?_⟩
  · intro e1 h1 e2 h2 c1 c2 hne
    rcases hcmp e1 h1 e2 h2 c1 c2 hne with ⟨a, b, c⟩ | ⟨a, b, c⟩
    · exact ⟨by omega, by omega, ⟨fun _ => c, fun _ => a⟩⟩
    · exact ⟨by omega, by omega, ⟨fun h => by omega, fun h => by omega⟩⟩
  · intro hex
    have hloop : choose p v0 m = (chooseLoop (Split p (str "/")) m (v0, 0)).1 := by
      simp [choose, hkey]
    rcases chooseLoop_result (Split p (str "/")) m v0 0 with ⟨_, h2⟩ | ⟨e, he, hc, hr, _, hmax⟩
    · obtain ⟨e, he, hc⟩ := hex
      have := h2 e he ((segmentsMatch_iff_isCandidate p e.1).2 hc)
      omega
    · have hce : isCandidate p e.1 := (segmentsMatch_iff_isCandidate p e.1).1 hc
      refine ⟨e, he, hce, by rw [hloop, hr], ?_⟩
      intro e' he' hc' hne
      have hkne : e'.1 ≠ e.1 := by
        intro hk
        apply hne
        have h3 : m.get e.1 = some e.2 := (GoMap.get_eq_some_iff m hnd e.1 e.2).2 he
        have h4 : m.get e'.1 = some e'.2 := (GoMap.get_eq_some_iff m hnd e'.1 e'.2).2 he'
        rw [hk, h3] at h4
        exact Prod.ext hk (Option.some.inj h4).symm
      have hle := hmax e' he' ((segmentsMatch_iff_isCandidate p e'.1).2 hc')
      rcases hcmp e' he' e he hc' hce hkne with ⟨_, _, c⟩ | ⟨a, _, _⟩
      · exact c
      · omega
  · intro hno
    have hloop : choose p v0 m = (chooseLoop (Split p (str "/")) m (v0, 0)).1 := by
      simp [choose, hkey]
    rw [hloop, chooseLoop_keep]
    intro e he hc
    exact absurd ⟨e, he, (segmentsMatch_iff_isCandidate p e.1).1 hc⟩ hno
  · intro m' hperm
    apply choose_perm p v0 m m' hperm hnd
    intro e1 h1 e2 h2 c1 c2 hl
    exact candidates_no_tie p e1.1 e2.1 c1 c2 (hanc e1 h1 c1) (hanc e2 h2 c2) hl

/-- Instance of claim C33 on the store of `TestPerDir` and the path "/1/2/3": the
candidates are "/1" and "/1/2", and `choose` returns 2 in every order of the entries. -/
theorem choose_deepest_ancestor_witness :
    choose (str "/1/2/3") 0 testPerDirStore.values = 2 ∧
    ∀ m', m'.Perm testPerDirStore.values → choose (str "/1/2/3") 0 m' = 2 :=
  ⟨by decide, fun m' h =>
    ((choose_deepest_ancestor (str "/1/2/3") 0 testPerDirStore.values (by decide) (by decide)
      (by decide)).2.2.2 m' h).trans (by decide)⟩

/-! ## Wrapped control signals -/

theorem errorsIs_iff_inChain (err target : GoError) :
    errorsIs err target = true ↔ InChain target err := by
  induction err with
  | wrap pre inner ih =>
    simp only [errorsIs, Bool.or_eq_true, decide_eq_true_eq, ih]
    constructor
    · rintro (h | h)
      · rw [← h]; exact InChain.self
      · exact InChain.wrapped pre inner h
    · intro h
      cases h with
      | self => exact Or.inl rfl
      | wrapped _ _ h => exact Or.inr h
  | join a b iha ihb =>
    simp only [errorsIs, Bool.or_eq_true, decide_eq_true_eq, iha, ihb]
    constructor
    · rintro ((h | h) | h)
      · rw [← h]; exact InChain.self
      · exact InChain.joinedLeft a b h
      · exact InChain.joinedRight a b h
    · intro h
      cases h with
      | self => exact Or.inl (Or.inl rfl)
      | joinedLeft _ _ h => exact Or.inl (Or.inr h)
      | joinedRight _ _ h => exact Or.inr h
  | _ =>
    simp only [errorsIs, decide_eq_true_eq]
    constructor
    · intro h; rw [← h]; exact InChain.self
    · intro h; cases h; rfl


/-- Claim C31: for a visited file and a chain `before ++ stage :: later` in which the
stages of `before` continue and `stage` returns the error `err`: when `ErrSkipCore` occurs
in the chain of `err`, however deeply wrapped, the walk step is that of SkipCore (the file
is recorded, `core` does not run, nothing is added to the sink and no error is returned),
also when `ErrBreakPipelines` occurs in the chain as well; when `ErrBreakPipelines` occurs
in the chain and `ErrSkipCore` does not, the step is that of BreakChain (`core` runs on
what `stage` returned).  In neither case is the fatal error of stage `i`,
"[pipeline i] error: ...", returned. -/
theorem walk_wrapped_signals (env : Env) (s : Ssg) (path : GoString) (d : DirEntry)
    (data : Bytes) (before later : List Pipeline) (stage : Pipeline)
    (tk out : GoString × Bytes × DirEntry) (err : GoError)
    (hv : Visited env s path d data)
    (hchain : s.options.pipelines = before ++ stage :: later)
    (hbefore : threadStages before (path, data, d) = some tk)
    (hstage : stage tk.1 tk.2.1 tk.2.2 = (out.1, out.2.1, out.2.2, some err)) :
    (InChain ErrSkipCore err → s.walk env path d none = (recordInput s path, none)) ∧
    (InChain ErrBreakPipelines err → ¬ InChain ErrSkipCore err →
      s.walk env path d none = coreStep env (recordInput s path) out) ∧
    (InChain ErrSkipCore err ∨ InChain ErrBreakPipelines err →
      (s.walk env path d none).2 ≠
        some (wrap (str "[pipeline " ++ fmtInt before.length ++ str "] error: ") err)) := by
  have hrun : runPipelines s.options.pipelines 0 path data d =
      runPipelines (stage :: later) (0 + before.length) tk.1 tk.2.1 tk.2.2 := by
    rw [hchain]
    exact runPipelines_append_thread before (stage :: later) 0 (path, data, d) tk hbefore
  have hskip : InChain ErrSkipCore err → s.walk env path d none = (recordInput s path, none) := by
    intro h
    have he := (errorsIs_iff_inChain err ErrSkipCore).2 h
    rw [walk_visited env s path d data hv, hrun]
    simp [runPipelines, hstage, he]
  have hbreak : InChain ErrBreakPipelines err → ¬ InChain ErrSkipCore err →
      s.walk env path d none = coreStep env (recordInput s path) out := by
    intro h hn
    have he := (errorsIs_iff_inChain err ErrBreakPipelines).2 h
    have hne : errorsIs err ErrSkipCore = false := by
      cases hx : errorsIs err ErrSkipCore with
      | false => rfl
      | true => exact absurd ((errorsIs_iff_inChain err ErrSkipCore).1 hx) hn
    rw [walk_visited env s path d data hv, hrun]
    simp [runPipelines, hstage, he, hne]
  refine ⟨hskip, hbreak, ?_⟩
  intro h
  by_cases hs : InChain ErrSkipCore err
  · rw [hskip hs]
    intro hx
    cases hx
  · have hb : InChain ErrBreakPipelines err := h.resolve_left hs
    rw [hbreak hb hs]
    unfold coreStep
    split
    · intro hx
      simp only [Option.some.injEq, GoError.wrap.injEq] at hx
      have h2 := congrArg List.head? hx.1
      change (some 99 : Option Nat) = some 91 at h2
      exact absurd h2 (by decide)
    · intro hx
      cases hx

/-- Instance of claim C31 on the sample tree: a stage that returns an error wrapping both
`ErrBreakPipelines` and `ErrSkipCore` makes the walk skip `core` for `src/foo.md`. -/
theorem walk_wrapped_signals_witness :
    InChain ErrSkipCore (join ErrBreakPipelines ErrSkipCore) ∧
    InChain ErrBreakPipelines (join ErrBreakPipelines ErrSkipCore) ∧
    ({ fooSsg with options := { fooSsg.options with pipelines := [stageBoth] } }.walk fooEnv
      (str "src/foo.md") (fileEntry (str "foo.md")) none).2 = none ∧
    ({ fooSsg with options := { fooSsg.options with pipelines := [stageBoth] } }.walk fooEnv
      (str "src/foo.md") (fileEntry (str "foo.md")) none).1.result.cache = [] :=
  have h := (walk_wrapped_signals fooEnv
    { fooSsg with options := { fooSsg.options with pipelines := [stageBoth] } }
    (str "src/foo.md") (fileEntry (str "foo.md")) fooMd [] [] stageBoth
    (str "src/foo.md", fooMd, fileEntry (str "foo.md"))
    (str "src/foo.md", fooMd, fileEntry (str "foo.md")) (join ErrBreakPipelines ErrSkipCore)
    ⟨rfl, by decide, by decide, by decide, by decide, rfl⟩ rfl rfl rfl).1
    (InChain.joinedRight _ _ InChain.self)
  ⟨InChain.joinedRight _ _ InChain.self, InChain.joinedLeft _ _ InChain.self,
    congrArg (fun r => r.2) h, congrArg (fun r => r.1.result.cache) h⟩


/-! ## A tag line that ends in spaces -/

theorem dropWhile_append_all {α : Type} (q : α → Bool) (a b : List α) (h : ∀ x ∈ a, q x = true) :
    (a ++ b).dropWhile q = b.dropWhile q := by
  induction a with
  | nil => rfl
  | cons x a ih =>
    have hx := h x (List.mem_cons_self _ _)
    simp only [List.cons_append, List.dropWhile_cons, hx, if_true]
    exact ih (fun y hy => h y (List.mem_cons_of_mem _ hy))

theorem trimRightWhitespace_run (L w : Bytes) (hL : ∀ c, L.getLast? = some c → c ≠ 32 ∧ c ≠ 9)
    (hws : ∀ x ∈ w, x = 32 ∨ x = 9) : trimRightWhitespace (L ++ w) = L := by
  unfold trimRightWhitespace
  rw [List.reverse_append, dropWhile_append_all]
  · cases hr : L.reverse with
    | nil =>
      have hnil : L = [] := List.reverse_eq_nil_iff.1 hr
      rw [hnil]
      rfl
    | cons x xs =>
      have hlast : L.getLast? = some x := by
        rw [List.getLast?_eq_head?_reverse, hr]
        rfl
      obtain ⟨h1, h2⟩ := hL x hlast
      simp only [List.dropWhile_cons, h1, h2, decide_False, Bool.or_self, Bool.false_eq_true,
        if_false]
      rw [← hr, List.reverse_reverse]
  · intro x hx
    rcases hws x (List.mem_reverse.1 hx) with h | h <;> simp [h]

/-- Claim C35 fails when ":ssg-title " occurs again in the tag line: the line
":ssg-title a :ssg-title b " of the document below is the first line beginning with
":ssg-title ", it ends in a space and the line without that space, followed by a blank
line, occurs nowhere; but `AddTitleFromTag` passes the line over, because it splits on
":ssg-title " into three parts, so the title put in the header is the default "Site" and
not the remainder of the line.  The comment of title.go has the first line starting with
":ssg-title" parsed as the title. -/
theorem addTitleFromTag_trailing_counterexample :
    AddTitleFromTag (str "Site") (str "{{from-tag}}")
      (str ":ssg-title a :ssg-title b \n\nbody") =
      (str "Site", str ":ssg-title a :ssg-title b \n\nbody") ∧
    str ":ssg-title a :ssg-title b \n\nbody" =
      str ":ssg-title a :ssg-title b" ++ str " " ++ str "\n\n" ++ str "body" ∧
    Contains (str ":ssg-title a :ssg-title b \n\nbody")
      (str ":ssg-title a :ssg-title b" ++ str "\n\n") = false ∧
    ReplaceFirst (str "{{from-tag}}") TargetFromTag (str "a :ssg-title b ") ≠ str "Site" :=
  ⟨by decide, by decide, by decide, by decide⟩

/-- Trailing whitespace on a tag line that `AddTitleFromTag` accepts defeats its removal:
for a document `pre ++ L ++ w ++ "\n\n" ++ post` in which `pre`
consists of whole lines none of which begins with ":ssg-title ", `L ++ w` is
`":ssg-title " ++ t` where `t` is free of newlines and contains no further ":ssg-title ",
`L` does not end in a space or tab, `w` is a non-empty run of spaces and tabs, the lines
up to and including `L ++ w` are shorter than the scanner's buffer, and `L ++ "\n\n"`
occurs nowhere in the document: `AddTitleFromTag` returns the body unchanged, and the
header with the first "{{from-tag}}" replaced by `t`, the remainder of the line with its
trailing whitespace. -/
theorem addTitleFromTag_trailing (d header : Bytes) (ls : List Bytes) (L w t post : Bytes)
    (hline : L ++ w = keyTitleFromTag ++ t)
    (hL : ∀ c, L.getLast? = some c → c ≠ 32 ∧ c ≠ 9)
    (hw : w ≠ []) (hws : ∀ x ∈ w, x = 32 ∨ x = 9)
    (hls : LinesBefore keyTitleFromTag ls) (ht : TitleRest keyTitleFromTag t)
    (habsent : ¬ (L ++ [10, 10]) <:+: joinLines ls ++ (L ++ w) ++ ([10, 10] ++ post)) :
    AddTitleFromTag d header (joinLines ls ++ (L ++ w) ++ ([10, 10] ++ post)) =
      (ReplaceFirst header TargetFromTag t,
        joinLines ls ++ (L ++ w) ++ ([10, 10] ++ post)) := by
  have htail : LineEnd ([10, 10] ++ post) := Or.inr rfl
  have hd : dropCR t = t := by
    unfold dropCR
    split
    · rename_i h13
      exfalso
      have h1 : (keyTitleFromTag ++ t).getLast? = some 13 := by
        rw [List.getLast?_append, h13]
        rfl
      rw [← hline, List.getLast?_append] at h1
      cases hwl : w.getLast? with
      | none =>
        rw [List.getLast?_eq_none_iff] at hwl
        exact hw hwl
      | some x =>
        rw [hwl] at h1
        have h2 : some x = some 13 := h1
        have h3 : x = 13 := Option.some.inj h2
        have hx : x ∈ w := List.mem_of_getLast?_eq_some hwl
        rcases hws x hx with h | h <;> omega
    · rfl
  have h := addTitleFromTag_at_line d header ls t ([10, 10] ++ post) hls ht htail
  rw [hd, ← hline, trimRightWhitespace_run L w hL hws] at h
  rw [h, replaceFirst_absent _ _ _ habsent]

/-- The tag line ":ssg-title My page" followed by two spaces stays in the body, and the
title is "My page" followed by the two spaces. -/
theorem addTitleFromTag_trailing_witness :
    AddTitleFromTag (str "Site") (str "<title>{{from-tag}}</title>")
      (str ":ssg-title My page  \n\nbody") =
      (str "<title>My page  </title>", str ":ssg-title My page  \n\nbody") :=
  (addTitleFromTag_trailing (str "Site") (str "<title>{{from-tag}}</title>") []
    (str ":ssg-title My page") (str "  ") (str "My page  ") (str "body") (by decide)
    (by intro c h; have hc : c = 101 := by
          have : (str ":ssg-title My page").getLast? = some 101 := by decide
          rw [this] at h
          exact (Option.some.inj h).symm
        omega)
    (by decide) (by decide) (by decide) (by decide) (by decide)).trans (by decide)


/-! ## Targets are one-to-one -/

theorem extLoop_spec (l acc : List Nat) :
    extLoop l acc = [] ∨ ∃ l1 l2, l = l1 ++ 46 :: l2 ∧ extLoop l acc = 46 :: (l1.reverse ++ acc) := by
  induction l generalizing acc with
  | nil => left; rfl
  | cons c rest ih =>
    by_cases h47 : c = 47
    · left; simp [extLoop, h47]
    · by_cases h46 : c = 46
      · right
        exact ⟨[], rest, by simp [h46], by simp [extLoop, h46]⟩
      · have hstep : extLoop (c :: rest) acc = extLoop rest (c :: acc) := by
          simp [extLoop, h47, h46]
        rw [hstep]
        rcases ih (c :: acc) with h | ⟨l1, l2, hl, hr⟩
        · exact Or.inl h
        · right
          exact ⟨c :: l1, l2, by simp [hl], by simp [hr]⟩

/-- A path ends with its extension. -/
theorem Ext_suffix (p : GoString) : Ext p = [] ∨ ∃ b, p = b ++ Ext p := by
  unfold Ext
  rcases extLoop_spec p.reverse [] with h | ⟨l1, l2, hl, hr⟩
  · exact Or.inl h
  · right
    refine ⟨l2.reverse, ?_⟩
    rw [hr, List.append_nil]
    have := congrArg List.reverse hl
    rw [List.reverse_reverse] at this
    rw [this]
    simp

theorem extLoop_run (u rest acc : List Nat) (h46 : 46 ∉ u) (h47 : 47 ∉ u) :
    extLoop (u ++ 46 :: rest) acc = 46 :: (u.reverse ++ acc) := by
  induction u generalizing acc with
  | nil => simp [extLoop]
  | cons c u ih =>
    have hc47 : c ≠ 47 := fun h => h47 (by simp [h])
    have hc46 : c ≠ 46 := fun h => h46 (by simp [h])
    have hstep : extLoop (c :: u ++ 46 :: rest) acc = extLoop (u ++ 46 :: rest) (c :: acc) := by
      simp [extLoop, hc47, hc46]
    rw [hstep, ih (c :: acc) (fun h => h46 (List.mem_cons_of_mem _ h))
      (fun h => h47 (List.mem_cons_of_mem _ h))]
    simp

theorem Ext_append_html (b : GoString) : Ext (b ++ str ".html") = str ".html" := by
  have h : str ".html" = 46 :: str "html" := by decide
  rw [h]
  unfold Ext
  rw [List.reverse_append, List.reverse_cons, List.append_assoc]
  have := extLoop_run (str "html").reverse b.reverse [] (by decide) (by decide)
  simpa using this

theorem TrimSuffix_append (b suf : GoString) : TrimSuffix (b ++ suf) suf = b := by
  have h : HasSuffix (b ++ suf) suf = true :=
    List.isSuffixOf_iff_suffix.2 (List.suffix_append b suf)
  simp [TrimSuffix, h, len]

theorem suffix_after_slash (t a r : List Nat) (h : t <:+ a ++ 47 :: r) (h47 : 47 ∉ t) :
    t <:+ r := by
  have h2 : (47 :: r) <:+ a ++ 47 :: r := List.suffix_append a (47 :: r)
  rcases List.suffix_or_suffix_of_suffix h h2 with h3 | h3
  · rcases List.suffix_cons_iff.1 h3 with h4 | h4
    · exact absurd (by rw [h4]; exact List.mem_cons_self _ _) h47
    · exact h4
  · exact absurd (h3.subset (List.mem_cons_self _ _)) h47

/-- The two ways in which `core` arrives at a target. -/
theorem core_target (env : Env) (s : Ssg) (p : GoString) (data : Bytes) (d : DirEntry)
    (o : OutputFile) (h : s.core env p data d = .ok o) :
    ∃ t, mirrorPath env s.Src s.Dst p = .ok t ∧
      (((Ext p ≠ str ".md" ∨ ChangeExt p (str ".md") (str ".html") ∈ s.preferred) ∧
          o.target = t) ∨
        (Ext p = str ".md" ∧ ChangeExt p (str ".md") (str ".html") ∉ s.preferred ∧
          o.target = ChangeExt t (str ".md") (str ".html"))) := by
  unfold Ssg.core at h
  split at h
  · cases h
  · split at h
    · cases h
    · split at h
      · rename_i hcond
        split at h
        · cases h
        · rename_i t ht
          cases h
          refine ⟨t, ht, Or.inl ⟨?_, rfl⟩⟩
          simpa [Set.Contains] using hcond
      · rename_i hcond
        split at h
        · cases h
        · rename_i t ht
          simp only at h
          split at h
          · cases h
          · cases h
            refine ⟨t, ht, Or.inr ⟨?_, ?_, rfl⟩⟩
            · by_contra hne
              exact hcond (Or.inl hne)
            · intro hmem
              exact hcond (Or.inr (by simpa [Set.Contains] using hmem))

/-- A path `src/r` with the extension ".md" is `src/c.md`, and its mirror loses the
extension with it. -/
theorem md_mirror (src dst r p : GoString) (hp : p = src ++ str "/" ++ r)
    (hext : Ext p = str ".md") :
    ∃ c, r = c ++ str ".md" ∧
      ChangeExt p (str ".md") (str ".html") = src ++ str "/" ++ c ++ str ".html" ∧
      ChangeExt (dst ++ str "/" ++ r) (str ".md") (str ".html") =
        dst ++ str "/" ++ c ++ str ".html" := by
  have hsl : str "/" = [47] := by decide
  have hsuf : str ".md" <:+ p := by
    rcases Ext_suffix p with h | ⟨b, hb⟩
    · rw [hext] at h
      exact absurd h (by decide)
    · rw [hext] at hb
      exact ⟨b, hb.symm⟩
  have hsuf2 : str ".md" <:+ r := by
    apply suffix_after_slash (str ".md") src r _ (by decide)
    rw [hp, hsl] at hsuf
    simpa using hsuf
  obtain ⟨c, hc⟩ := hsuf2
  refine ⟨c, hc.symm, ?_, ?_⟩
  · unfold ChangeExt
    rw [hp, ← hc, ← List.append_assoc, TrimSuffix_append]
  · unfold ChangeExt
    rw [← hc, ← List.append_assoc, TrimSuffix_append]

/-- Claim C32: two calls of `core` in a build whose `mirrorPath` maps `src/r` to `dst/r`,
on different paths, give different targets, provided the preferred set at each call
holds the other path when that has the extension ".html".  A converted `a.md` does not
collide with a copied `a.html`: with `a.html` in the preferred set `a.md` is copied. -/
theorem targets_one_to_one (env : Env) (s1 s2 : Ssg) (p1 p2 : GoString) (data1 data2 : Bytes)
    (d1 d2 : DirEntry) (o1 o2 : OutputFile)
    (hsrc : s1.Src = s2.Src) (hdst : s1.Dst = s2.Dst) (hm : Mirrors env s1.Src s1.Dst)
    (hpref1 : Ext p2 = str ".html" → p2 ∈ s1.preferred)
    (hpref2 : Ext p1 = str ".html" → p1 ∈ s2.preferred)
    (h1 : s1.core env p1 data1 d1 = .ok o1) (h2 : s2.core env p2 data2 d2 = .ok o2)
    (hne : p1 ≠ p2) : o1.target ≠ o2.target := by
  obtain ⟨t1, hm1, hc1⟩ := core_target env s1 p1 data1 d1 o1 h1
  obtain ⟨t2, hm2, hc2⟩ := core_target env s2 p2 data2 d2 o2 h2
  rw [← hsrc, ← hdst] at hm2
  obtain ⟨r1, hp1, ht1⟩ := hm p1 t1 hm1
  obtain ⟨r2, hp2, ht2⟩ := hm p2 t2 hm2
  intro heq
  rcases hc1 with ⟨_, ho1⟩ | ⟨he1, hn1, ho1⟩
  · rcases hc2 with ⟨_, ho2⟩ | ⟨he2, hn2, ho2⟩
    · rw [ho1, ho2, ht1, ht2] at heq
      have : r1 = r2 := List.append_cancel_left heq
      exact hne (by rw [hp1, hp2, this])
    · obtain ⟨c2, hr2, hch2, hct2⟩ := md_mirror s1.Src s1.Dst r2 p2 hp2 he2
      rw [ho1, ho2, ht1, ht2, hct2, List.append_assoc (s1.Dst ++ str "/")] at heq
      have hr1 : r1 = c2 ++ str ".html" := List.append_cancel_left heq
      have hp1' : p1 = ChangeExt p2 (str ".md") (str ".html") := by
        rw [hch2, hp1, hr1, List.append_assoc (s1.Src ++ str "/")]
      have hext : Ext p1 = str ".html" := by
        rw [hp1, hr1, ← List.append_assoc]
        exact Ext_append_html _
      exact hn2 (by rw [← hp1']; exact hpref2 hext)
  · obtain ⟨c1, hr1, hch1, hct1⟩ := md_mirror s1.Src s1.Dst r1 p1 hp1 he1
    rcases hc2 with ⟨_, ho2⟩ | ⟨he2, hn2, ho2⟩
    · rw [ho1, ho2, ht1, ht2, hct1, List.append_assoc (s1.Dst ++ str "/")] at heq
      have hr2 : r2 = c1 ++ str ".html" := (List.append_cancel_left heq).symm
      have hp2' : p2 = ChangeExt p1 (str ".md") (str ".html") := by
        rw [hch1, hp2, hr2, List.append_assoc (s1.Src ++ str "/")]
      have hext : Ext p2 = str ".html" := by
        rw [hp2, hr2, ← List.append_assoc]
        exact Ext_append_html _
      exact hn1 (by rw [← hp2']; exact hpref1 hext)
    · obtain ⟨c2, hr2, hch2, hct2⟩ := md_mirror s1.Src s1.Dst r2 p2 hp2 he2
      rw [ho1, ho2, ht1, ht2, hct1, hct2] at heq
      have h3 : s1.Dst ++ str "/" ++ c1 = s1.Dst ++ str "/" ++ c2 := List.append_cancel_right heq
      have : c1 = c2 := List.append_cancel_left h3
      exact hne (by rw [hp1, hp2, hr1, hr2, this])


theorem mirrors_relBelow (env : Env) (src dst : GoString) (hrel : env.Rel = relBelow)
    (hjoin : env.Join = joinClean) : Mirrors env src dst := by
  intro p t h
  unfold mirrorPath at h
  rw [hrel, hjoin] at h
  by_cases hpre : HasPrefix p (src ++ str "/") = true
  · have hr : relBelow src p = .ok (p.drop (len src + 1)) := by simp [relBelow, hpre]
    rw [hr] at h
    simp only [Except.ok.injEq] at h
    obtain ⟨r, hr2⟩ := List.isPrefixOf_iff_prefix.1 hpre
    refine ⟨r, hr2.symm, ?_⟩
    rw [← h, ← hr2]
    unfold joinClean
    have hl : len src + 1 = (src ++ str "/").length := by
      have h1 : (str "/").length = 1 := by decide
      simp [len, h1]
    rw [hl, List.drop_left]
  · have hr : relBelow src p =
        .error (other (str "Rel: can't make " ++ p ++ str " relative to " ++ src)) := by
      simp [relBelow, hpre]
    rw [hr] at h
    cases h

/-- Instance of claim C32 on the sample tree, after `src` has been collected: `foo.md`,
which has `foo.html` beside it, is copied to `dst/foo.md` and `foo.html` to
`dst/foo.html`. -/
theorem targets_one_to_one_witness :
    (Output (str "dst/foo.md") (str "src/foo.md") fooMd 0o644).target ≠
      (Output (str "dst/foo.html") (str "src/foo.html") fooHtml 0o644).target :=
  targets_one_to_one fooEnv (fooSsg.walk fooEnv (str "src") srcEntry none).1
    (fooSsg.walk fooEnv (str "src") srcEntry none).1 (str "src/foo.md") (str "src/foo.html")
    fooMd fooHtml (fileEntry (str "foo.md")) (fileEntry (str "foo.html"))
    (Output (str "dst/foo.md") (str "src/foo.md") fooMd 0o644)
    (Output (str "dst/foo.html") (str "src/foo.html") fooHtml 0o644)
    rfl rfl (mirrors_relBelow fooEnv _ _ rfl rfl) (fun _ => by decide)
    (fun h => absurd h (by decide)) (by decide) (by decide) (by decide)

/-! ## A second build on the same builder -/

theorem storesSub_refl (a : Ssg) : StoresSub a a :=
  ⟨fun _ h => h, fun _ h => h, fun _ h => h⟩

theorem storesSub_trans {a b c : Ssg} (h1 : StoresSub a b) (h2 : StoresSub b c) :
    StoresSub a c :=
  ⟨fun k h => h2.1 k (h1.1 k h), fun k h => h2.2.1 k (h1.2.1 k h),
    fun x h => h2.2.2 x (h1.2.2 x h)⟩

theorem sameStores_trans {a b c : Ssg} (h1 : SameStores a b) (h2 : SameStores b c) :
    SameStores a c :=
  ⟨h1.1.trans h2.1, h1.2.1.trans h2.2.1, h1.2.2.trans h2.2.2⟩

theorem isDuplicate_ne_skip (e : GoError) (h : IsDuplicate e) :
    e ≠ SkipDir ∧ e ≠ SkipAll := by
  rcases h with ⟨p, hp⟩ | ⟨p, hp⟩ <;> subst hp <;>
    exact ⟨fun h => (by cases h), fun h => (by cases h)⟩

theorem afterCallback_duplicate (d : DirEntry) (e : GoError) (h : IsDuplicate e) :
    afterCallback d e = some e := by
  have hne := (isDuplicate_ne_skip e h).1
  simp [afterCallback, hne]

theorem GoMap.get_of_mem_keys {T : Type} (m : GoMap T) (key : GoString)
    (h : key ∈ m.map Prod.fst) : ∃ v, m.get key = some v := by
  induction m with
  | nil => simp at h
  | cons hd tl ih =>
    obtain ⟨k, w⟩ := hd
    by_cases hk : k = key
    · exact ⟨w, by simp [GoMap.get, hk]⟩
    · simp only [List.map_cons, List.mem_cons] at h
      rcases h with h | h
      · exact absurd h.symm hk
      · obtain ⟨v, hv⟩ := ih h
        exact ⟨v, by simp [GoMap.get, hk, hv]⟩

theorem GoMap.mem_keys_of_get {T : Type} (m : GoMap T) (key : GoString) (v : T)
    (h : m.get key = some v) : key ∈ m.map Prod.fst := by
  induction m with
  | nil => simp [GoMap.get] at h
  | cons hd tl ih =>
    obtain ⟨k, w⟩ := hd
    by_cases hk : k = key
    · simp [hk]
    · simp only [GoMap.get, hk, if_false] at h
      simp only [List.map_cons, List.mem_cons]
      exact Or.inr (ih h)

theorem perDir.add_dup {T : Type} (p : perDir T) (path : GoString) (v : T)
    (h : path ∈ p.values.map Prod.fst) :
    p.add path v = (p, some (other (str "found duplicate path '" ++ path ++ str "'"))) := by
  obtain ⟨w, hw⟩ := GoMap.get_of_mem_keys p.values path h
  simp [perDir.add, hw]

theorem perDir.add_keys {T : Type} (p : perDir T) (path : GoString) (v : T) :
    path ∈ (p.add path v).1.values.map Prod.fst ∧
    ∀ k ∈ p.values.map Prod.fst, k ∈ (p.add path v).1.values.map Prod.fst := by
  unfold perDir.add
  cases hg : p.values.get path with
  | some w => exact ⟨GoMap.mem_keys_of_get p.values path w hg, fun k h => h⟩
  | none =>
    refine ⟨?_, fun k h => ?_⟩
    · simp
    · simp only [List.map_append, List.mem_append]
      exact Or.inl h

theorem Set.Insert_mem (s : Set) (v : GoString) :
    v ∈ (s.Insert v).1 ∧ ∀ x ∈ s, x ∈ (s.Insert v).1 := by
  unfold Set.Insert
  by_cases h : v ∈ s
  · rw [if_pos h]
    exact ⟨h, fun x hx => hx⟩
  · rw [if_neg h]
    exact ⟨List.mem_append_right _ (List.mem_singleton_self v),
      fun x hx => List.mem_append_left _ hx⟩

theorem Set.Insert_dup (s : Set) (v : GoString) (h : v ∈ s) : s.Insert v = (s, true) := by
  simp [Set.Insert, h]

/-- The loop of `collect` only adds to the stores. -/
theorem collectLoop_sub (env : Env) (path : GoString) (children : List DirEntry) (s : Ssg) :
    StoresSub s (collectLoop env path children s).1 := by
  induction children generalizing s with
  | nil => exact storesSub_refl s
  | cons child rest ih =>
    have hH : ∀ v, StoresSub s { s with headers := (s.headers.add path v).1 } := fun v =>
      ⟨(perDir.add_keys s.headers path v).2, fun _ h => h, fun _ h => h⟩
    have hF : ∀ v, StoresSub s { s with footers := (s.footers.add path v).1 } := fun v =>
      ⟨fun _ h => h, (perDir.add_keys s.footers path v).2, fun _ h => h⟩
    have hP : ∀ v, StoresSub s { s with preferred := (s.preferred.Insert v).1 } := fun v =>
      ⟨fun _ h => h, fun _ h => h, (Set.Insert_mem s.preferred v).2⟩
    simp only [collectLoop]
    split
    · split
      · exact storesSub_refl s
      · rename_i data _
        have h0 := hH { Buffer := data, titleFrom := GetTitleFrom data }
        split
        · rename_i hs err heq
          rw [heq] at h0
          exact h0
        · rename_i hs heq
          rw [heq] at h0
          exact storesSub_trans h0 (ih _)
    · split
      · split
        · exact storesSub_refl s
        · rename_i data _
          have h0 := hF data
          split
          · rename_i fs err heq
            rw [heq] at h0
            exact h0
          · rename_i fs heq
            rw [heq] at h0
            exact storesSub_trans h0 (ih _)
      · split
        · exact ih s
        · have h0 := hP (env.Join path child.name)
          split
          · rename_i pref heq
            rw [heq] at h0
            exact h0
          · rename_i pref heq
            rw [heq] at h0
            exact storesSub_trans h0 (ih _)

theorem walk_static (env : Env) (s : Ssg) (path : GoString) (d : DirEntry)
    (err : Option GoError) :
    (s.walk env path d err).1.Src = s.Src ∧ (s.walk env path d err).1.Dst = s.Dst ∧
    (s.walk env path d err).1.Title = s.Title ∧ (s.walk env path d err).1.Url = s.Url ∧
    (s.walk env path d err).1.options = s.options ∧
    (s.walk env path d err).1.ssgignores = s.ssgignores := by
  rcases walk_shape env s path d err with h | h | ⟨_, data, _, h | ⟨st, out, _, _, h⟩⟩
  · rw [h]; exact ⟨rfl, rfl, rfl, rfl, rfl, rfl⟩
  · rw [h]
    obtain ⟨_, h1, h2, h3, h4, h5, h6⟩ := collect_fields env s path
    exact ⟨h3, h4, h5, h6, h1, h2⟩
  · rw [h]; exact ⟨rfl, rfl, rfl, rfl, rfl, rfl⟩
  · rw [h]; exact ⟨rfl, rfl, rfl, rfl, rfl, rfl⟩

/-- One call of `walk` only adds to the stores. -/
theorem walk_sub (env : Env) (s : Ssg) (path : GoString) (d : DirEntry) (err : Option GoError) :
    StoresSub s (s.walk env path d err).1 := by
  rcases walk_shape env s path d err with h | h | ⟨_, data, _, h | ⟨st, out, _, _, h⟩⟩
  · rw [h]; exact storesSub_refl s
  · rw [h]
    unfold Ssg.collect
    split
    · exact storesSub_refl s
    · exact collectLoop_sub env path _ s
  · rw [h]; exact storesSub_refl s
  · rw [h]; exact storesSub_refl s

theorem runHooksGenerate_ne_error (path : GoString) (gs : List HookGenerate)
    (h : HooksGenerateTotal gs) (i : Nat) (buf : Bytes) (e : GoError) :
    runHooksGenerate path gs i buf ≠ .error e := by
  induction gs generalizing i buf with
  | nil => intro hc; cases hc
  | cons g rest ih =>
    obtain ⟨b', hb⟩ := h g (List.mem_cons_self _ _) buf
    simp only [runHooksGenerate, hb]
    exact ih (fun h' hm => h h' (List.mem_cons_of_mem _ hm)) (i + 1) b'

/-- Whether `core` fails, and with which error, is settled by the roots and the options of
the builder when no generate hook fails. -/
theorem core_outcome (env : Env) (a : Ssg) (p : GoString) (data : Bytes) (d : DirEntry)
    (htot : HooksGenerateTotal a.options.hookGenerate) :
    (∃ e, ∀ s : Ssg, s.Src = a.Src → s.Dst = a.Dst → s.options = a.options →
      s.core env p data d = .error e) ∨
    (∀ s : Ssg, s.Src = a.Src → s.Dst = a.Dst → s.options = a.options →
      ∃ o, s.core env p data d = .ok o) := by
  cases hi : d.info with
  | error e =>
    left
    exact ⟨e, fun s _ _ _ => by simp only [Ssg.core, hi]⟩
  | ok info =>
    cases hh : runHooks p a.options.hooks 0 data with
    | error e =>
      left
      refine ⟨e, fun s _ _ h3 => ?_⟩
      rw [← h3] at hh
      simp only [Ssg.core, hi, hh]
    | ok data1 =>
      cases hm : mirrorPath env a.Src a.Dst p with
      | error e =>
        left
        refine ⟨e, fun s h1 h2 h3 => ?_⟩
        rw [← h3] at hh
        rw [← h1, ← h2] at hm
        simp only [Ssg.core, hi, hh, hm, ite_self]
      | ok target =>
        right
        intro s h1 h2 h3
        rw [← h3] at hh htot
        rw [← h1, ← h2] at hm
        simp only [Ssg.core, hi, hh, hm]
        split
        · exact ⟨_, rfl⟩
        · split
          · rename_i err heq
            exact absurd heq (runHooksGenerate_ne_error _ _ htot _ _ _)
          · exact ⟨_, rfl⟩

/-- A call of `walk` on a file changes the sink only. -/
theorem walk_file_form (env : Env) (s : Ssg) (path : GoString) (d : DirEntry)
    (hdir : d.isDir = false) :
    ∃ res, (s.walk env path d none).1 = { s with result := res } := by
  simp only [Ssg.walk, hdir, Bool.false_eq_true, if_false]
  repeat' split
  all_goals exact ⟨_, rfl⟩

/-- The error a call of `walk` on a file returns is settled by the roots, the options and
the ignore predicate of the builder when no generate hook fails. -/
theorem walk_file_error (env : Env) (a : Ssg) (path : GoString) (d : DirEntry)
    (hdir : d.isDir = false) (htot : HooksGenerateTotal a.options.hookGenerate) :
    ∃ E, ∀ s : Ssg, s.Src = a.Src → s.Dst = a.Dst → s.options = a.options →
      s.ssgignores = a.ssgignores → (s.walk env path d none).2 = E := by
  rcases hsi : shouldIgnore env a.ssgignores path (Base path) d with ⟨ig, e⟩
  cases e with
  | some e =>
    refine ⟨some e, fun s _ _ _ h4 => ?_⟩
    rw [← h4] at hsi
    simp [Ssg.walk, hdir, hsi]
  | none =>
    cases ig with
    | true =>
      refine ⟨none, fun s _ _ _ h4 => ?_⟩
      rw [← h4] at hsi
      simp [Ssg.walk, hdir, hsi]
    | false =>
      by_cases hm : Base path = MarkerHeader ∨ Base path = MarkerFooter ∨ Base path = SsgIgnore
      · refine ⟨none, fun s _ _ _ h4 => ?_⟩
        rw [← h4] at hsi
        simp [Ssg.walk, hdir, hsi, hm]
      · cases hrf : env.ReadFile path with
        | error e =>
          refine ⟨some e, fun s _ _ _ h4 => ?_⟩
          rw [← h4] at hsi
          simp [Ssg.walk, hdir, hsi, hm, hrf]
        | ok data =>
          cases hrp : runPipelines a.options.pipelines 0 path data d with
          | error e =>
            refine ⟨some e, fun s _ _ h3 h4 => ?_⟩
            rw [← h4] at hsi
            rw [← h3] at hrp
            simp only [Ssg.walk, hdir, hsi, hm, hrf, Bool.false_eq_true, if_false, hrp]
          | ok st =>
            by_cases hsk : st.skipCore = true
            · refine ⟨none, fun s _ _ h3 h4 => ?_⟩
              rw [← h4] at hsi
              rw [← h3] at hrp
              simp only [Ssg.walk, hdir, hsi, hm, hrf, Bool.false_eq_true, if_false, hrp, hsk,
                if_true]
            · rcases core_outcome env a st.path st.data st.d htot with ⟨e, he⟩ | hok
              · refine ⟨some (wrap (str "core error: ") e), fun s h1 h2 h3 h4 => ?_⟩
                have hc : (recordInput s path).core env st.path st.data st.d = .error e :=
                  he (recordInput s path) h1 h2 h3
                rw [← h4] at hsi
                rw [← h3] at hrp
                simp only [Ssg.walk, hdir, hsi, hm, hrf, Bool.false_eq_true, if_false, hrp, hsk]
                split
                · rename_i err heq
                  have hee : Except.error err =
                      (Except.error e : Except GoError OutputFile) := heq.symm.trans hc
                  cases hee
                  rfl
                · rename_i output heq
                  have hee : Except.ok output =
                      (Except.error e : Except GoError OutputFile) := heq.symm.trans hc
                  cases hee
              · refine ⟨none, fun s h1 h2 h3 h4 => ?_⟩
                obtain ⟨out, hc⟩ := hok (recordInput s path) h1 h2 h3
                rw [← h4] at hsi
                rw [← h3] at hrp
                simp only [Ssg.walk, hdir, hsi, hm, hrf, Bool.false_eq_true, if_false, hrp, hsk]
                split
                · rename_i err heq
                  have hee : Except.error err =
                      (Except.ok out : Except GoError OutputFile) := heq.symm.trans hc
                  cases hee
                · rfl

/-- The loop of `collect` in the second build: it returns a duplicate-registration error
as soon as the first build has registered a child, and goes the way of the first until
then. -/
theorem collectLoop_second (env : Env) (S : Ssg) (path : GoString) (children : List DirEntry)
    (a : Ssg) (rb : buildOutput)
    (hsub : StoresSub (collectLoop env path children a).1 S) :
    SecondOutcome S (collectLoop env path children a) a
      (some (collectLoop env path children (a.second S rb))) := by
  induction children generalizing a with
  | nil => exact Or.inl ⟨rb, rfl, rfl, rfl, rfl⟩
  | cons child rest ih =>
    have hne : MarkerFooter ≠ MarkerHeader := by decide
    by_cases hb1 : child.name = MarkerHeader
    · cases hrf : env.ReadFile (env.Join path child.name) with
      | error e =>
        rw [hb1] at hrf
        have h1 : collectLoop env path (child :: rest) a = (a, some e) := by
          simp [collectLoop, hb1, hrf]
        have h2 : collectLoop env path (child :: rest) (a.second S rb) =
            (a.second S rb, some e) := by
          simp [collectLoop, hb1, hrf]
        rw [h1, h2]
        exact Or.inl ⟨rb, rfl, rfl, rfl, rfl⟩
      | ok data =>
        rw [hb1] at hrf
        right
        have hkey : path ∈ (collectLoop env path (child :: rest) a).1.headers.values.map
            Prod.fst := by
          have hk := (perDir.add_keys a.headers path
            { Buffer := data, titleFrom := GetTitleFrom data }).1
          rcases ha : a.headers.add path { Buffer := data, titleFrom := GetTitleFrom data } with
            ⟨hs, e⟩
          rw [ha] at hk
          cases e with
          | some err =>
            have h1 : collectLoop env path (child :: rest) a =
                ({ a with headers := hs }, some err) := by
              simp [collectLoop, hb1, hrf, ha]
            rw [h1]
            exact hk
          | none =>
            have h1 : collectLoop env path (child :: rest) a =
                collectLoop env path rest { a with headers := hs } := by
              simp [collectLoop, hb1, hrf, ha]
            rw [h1]
            exact (collectLoop_sub env path rest _).1 path hk
        have hdup : (a.second S rb).headers.add path
            { Buffer := data, titleFrom := GetTitleFrom data } =
            (S.headers, some (other (str "found duplicate path '" ++ path ++ str "'"))) :=
          perDir.add_dup S.headers path _ (hsub.1 path hkey)
        refine ⟨{ a.second S rb with headers := S.headers },
          other (str "found duplicate path '" ++ path ++ str "'"), ?_, Or.inl ⟨path, rfl⟩⟩
        simp only [collectLoop, hb1, hrf, hdup, if_true]
    · by_cases hb2 : child.name = MarkerFooter
      · cases hrf : env.ReadFile (env.Join path child.name) with
        | error e =>
          rw [hb2] at hrf
          have h1 : collectLoop env path (child :: rest) a = (a, some e) := by
            simp [collectLoop, hne, hb2, hrf]
          have h2 : collectLoop env path (child :: rest) (a.second S rb) =
              (a.second S rb, some e) := by
            simp [collectLoop, hne, hb2, hrf]
          rw [h1, h2]
          exact Or.inl ⟨rb, rfl, rfl, rfl, rfl⟩
        | ok data =>
          rw [hb2] at hrf
          right
          have hkey : path ∈ (collectLoop env path (child :: rest) a).1.footers.values.map
              Prod.fst := by
            have hk := (perDir.add_keys a.footers path data).1
            rcases ha : a.footers.add path data with ⟨fs, e⟩
            rw [ha] at hk
            cases e with
            | some err =>
              have h1 : collectLoop env path (child :: rest) a =
                  ({ a with footers := fs }, some err) := by
                simp [collectLoop, hne, hb2, hrf, ha]
              rw [h1]
              exact hk
            | none =>
              have h1 : collectLoop env path (child :: rest) a =
                  collectLoop env path rest { a with footers := fs } := by
                simp [collectLoop, hne, hb2, hrf, ha]
              rw [h1]
              exact (collectLoop_sub env path rest _).2.1 path hk
          have hdup : (a.second S rb).footers.add path data =
              (S.footers, some (other (str "found duplicate path '" ++ path ++ str "'"))) :=
            perDir.add_dup S.footers path _ (hsub.2.1 path hkey)
          refine ⟨{ a.second S rb with footers := S.footers },
            other (str "found duplicate path '" ++ path ++ str "'"), ?_, Or.inl ⟨path, rfl⟩⟩
          simp only [collectLoop, hne, hb2, hrf, hdup, if_true, if_false]
      · by_cases hext : Ext child.name ≠ str ".html"
        · have h1 : collectLoop env path (child :: rest) a = collectLoop env path rest a := by
            simp [collectLoop, hb1, hb2, hext]
          have h2 : collectLoop env path (child :: rest) (a.second S rb) =
              collectLoop env path rest (a.second S rb) := by
            simp [collectLoop, hb1, hb2, hext]
          rw [h1] at hsub ⊢
          rw [h2]
          exact ih a hsub
        · right
          have hkey : env.Join path child.name ∈
              (collectLoop env path (child :: rest) a).1.preferred := by
            have hk := (Set.Insert_mem a.preferred (env.Join path child.name)).1
            rcases hins : a.preferred.Insert (env.Join path child.name) with ⟨pref, dup⟩
            rw [hins] at hk
            cases dup with
            | true =>
              have h1 : collectLoop env path (child :: rest) a =
                  ({ a with preferred := pref },
                    some (other (str "duplicate html file " ++ path))) := by
                simp only [collectLoop, hb1, hb2, hext, hins, if_false]
              rw [h1]
              exact hk
            | false =>
              have h1 : collectLoop env path (child :: rest) a =
                  collectLoop env path rest { a with preferred := pref } := by
                simp only [collectLoop, hb1, hb2, hext, hins, if_false]
              rw [h1]
              exact (collectLoop_sub env path rest _).2.2 _ hk
          have hdup : (a.second S rb).preferred.Insert (env.Join path child.name) =
              (S.preferred, true) :=
            Set.Insert_dup S.preferred _ (hsub.2.2 _ hkey)
          refine ⟨{ a.second S rb with preferred := S.preferred },
            other (str "duplicate html file " ++ path), ?_, Or.inr ⟨path, rfl⟩⟩
          simp only [collectLoop, hb1, hb2, hext, hdup, if_false]

/-- One call of `walk` in the second build. -/
theorem walk_second (env : Env) (S a : Ssg) (rb : buildOutput) (path : GoString)
    (d : DirEntry) (err : Option GoError)
    (htot : HooksGenerateTotal a.options.hookGenerate)
    (hsub : StoresSub (a.walk env path d err).1 S) :
    SecondOutcome S (a.walk env path d err) a
      (some ((a.second S rb).walk env path d err)) := by
  cases err with
  | some e => exact Or.inl ⟨rb, rfl, rfl, rfl, rfl⟩
  | none =>
    by_cases hdir : d.isDir = true
    · have h1 : a.walk env path d none = a.collect env path := by simp [Ssg.walk, hdir]
      have h2 : (a.second S rb).walk env path d none = (a.second S rb).collect env path := by
        simp [Ssg.walk, hdir]
      rw [h1] at hsub ⊢
      rw [h2]
      cases hrd : env.ReadDir path with
      | error e =>
        have h3 : a.collect env path = (a, some e) := by simp [Ssg.collect, hrd]
        have h4 : (a.second S rb).collect env path = (a.second S rb, some e) := by
          simp [Ssg.collect, hrd]
        rw [h3, h4]
        exact Or.inl ⟨rb, rfl, rfl, rfl, rfl⟩
      | ok children =>
        have h3 : a.collect env path = collectLoop env path children a := by
          simp [Ssg.collect, hrd]
        have h4 : (a.second S rb).collect env path =
            collectLoop env path children (a.second S rb) := by
          simp [Ssg.collect, hrd]
        rw [h3] at hsub ⊢
        rw [h4]
        exact collectLoop_second env S path children a rb hsub
    · have hdir' : d.isDir = false := by simpa using hdir
      obtain ⟨E, hE⟩ := walk_file_error env a path d hdir' htot
      obtain ⟨ra, hra⟩ := walk_file_form env a path d hdir'
      obtain ⟨rb1, hrb⟩ := walk_file_form env (a.second S rb) path d hdir'
      left
      refine ⟨rb1, ?_, ?_⟩
      · have hfst : ((a.second S rb).walk env path d none).1 =
            (a.walk env path d none).1.second S rb1 := by
          rw [hrb, hra]
          rfl
        have hsnd : ((a.second S rb).walk env path d none).2 = (a.walk env path d none).2 :=
          (hE (a.second S rb) rfl rfl rfl rfl).trans (hE a rfl rfl rfl rfl).symm
        exact congrArg some (Prod.ext hfst hsnd)
      · rw [hra]
        exact ⟨rfl, rfl, rfl⟩

theorem walkDir_sub (env : Env) (fuel : Nat) (path : GoString) (d : DirEntry) (s : Ssg)
    (r : Ssg × Option GoError) (h : walkDir env (walkFn env) fuel path d s = some r) :
    StoresSub s r.1 ∧ r.1.options = s.options :=
  walkDir_invariant env (walkFn env) (fun t => StoresSub s t ∧ t.options = s.options)
    (fun t p c e ht => ⟨storesSub_trans ht.1 (walk_sub env t p c e),
      (walk_static env t p c e).2.2.2.2.1.trans ht.2⟩)
    fuel path d s r ⟨storesSub_refl s, rfl⟩ h

theorem walkChildren_sub (env : Env) (fuel : Nat) (path : GoString) (dirs : List DirEntry)
    (s : Ssg) (r : Ssg × Option GoError)
    (h : walkChildren env (walkDir env (walkFn env) fuel) path dirs s = some r) :
    StoresSub s r.1 :=
  walkChildren_invariant env _ (fun t => StoresSub s t)
    (fun p c t r1 ht hr => storesSub_trans ht (walkDir_sub env fuel p c t r1 hr).1) path dirs s r
    (storesSub_refl s) h

theorem walkChildren_second (env : Env) (S : Ssg) (fuel : Nat)
    (ih : ∀ (path : GoString) (d : DirEntry) (a : Ssg) (rb : buildOutput)
      (r1 : Ssg × Option GoError), HooksGenerateTotal a.options.hookGenerate →
      walkDir env (walkFn env) fuel path d a = some r1 → StoresSub r1.1 S →
      SecondOutcome S r1 a (walkDir env (walkFn env) fuel path d (a.second S rb)))
    (path : GoString) (dirs : List DirEntry) (a : Ssg) (rb : buildOutput)
    (r1 : Ssg × Option GoError) (htot : HooksGenerateTotal a.options.hookGenerate)
    (h : walkChildren env (walkDir env (walkFn env) fuel) path dirs a = some r1)
    (hsub : StoresSub r1.1 S) :
    SecondOutcome S r1 a
      (walkChildren env (walkDir env (walkFn env) fuel) path dirs (a.second S rb)) := by
  induction dirs generalizing a rb with
  | nil =>
    simp only [walkChildren, Option.some.injEq] at h
    subst h
    exact Or.inl ⟨rb, rfl, rfl, rfl, rfl⟩
  | cons d1 rest ihl =>
    rw [walkChildren] at h
    cases hr : walkDir env (walkFn env) fuel (env.Join path d1.name) d1 a with
    | none => rw [hr] at h; cases h
    | some q =>
      obtain ⟨a1, e1⟩ := q
      rw [hr] at h
      have hopt1 : a1.options = a.options := (walkDir_sub env fuel _ _ a _ hr).2
      have htot1 : HooksGenerateTotal a1.options.hookGenerate := by rw [hopt1]; exact htot
      have hsub1 : StoresSub a1 S := by
        cases e1 with
        | none => exact storesSub_trans (walkChildren_sub env fuel path rest a1 r1 h) hsub
        | some err =>
          simp only at h
          split at h
          · cases h; exact hsub
          · cases h; exact hsub
      rcases ih (env.Join path d1.name) d1 a rb (a1, e1) htot hr hsub1 with
        ⟨rb1, hb, hsame⟩ | ⟨b1, e, hb, hdup⟩
      · rw [walkChildren, hb]
        cases e1 with
        | none =>
          rcases ihl a1 rb1 htot1 h with ⟨rb2, h2, hs2⟩ | hx
          · exact Or.inl ⟨rb2, h2, sameStores_trans hs2 hsame⟩
          · exact Or.inr hx
        | some err =>
          simp only at h ⊢
          by_cases hskip : err = SkipDir
          · simp only [hskip, if_true] at h ⊢
            cases h
            exact Or.inl ⟨rb1, rfl, hsame⟩
          · simp only [hskip, if_false] at h ⊢
            cases h
            exact Or.inl ⟨rb1, rfl, hsame⟩
      · rw [walkChildren, hb]
        have hne := (isDuplicate_ne_skip e hdup).1
        simp only [hne, if_false]
        exact Or.inr ⟨b1, e, rfl, hdup⟩

theorem walkDir_second (env : Env) (S : Ssg) (fuel : Nat) :
    ∀ (path : GoString) (d : DirEntry) (a : Ssg) (rb : buildOutput)
      (r1 : Ssg × Option GoError), HooksGenerateTotal a.options.hookGenerate →
      walkDir env (walkFn env) fuel path d a = some r1 → StoresSub r1.1 S →
      SecondOutcome S r1 a (walkDir env (walkFn env) fuel path d (a.second S rb)) := by
  induction fuel with
  | zero =>
    intro path d a rb r1 _ h
    simp [walkDir] at h
  | succ fuel ih =>
    intro path d a rb r1 htot h hsub
    have hsubA : StoresSub a r1.1 := (walkDir_sub env (fuel + 1) path d a r1 h).1
    rcases hf : a.walk env path d none with ⟨a1, e1⟩
    have hf' : walkFn env a path d none = (a1, e1) := hf
    have hopt1 : a1.options = a.options := by
      have h0 := (walk_static env a path d none).2.2.2.2.1
      rw [hf] at h0
      exact h0
    have htot1 : HooksGenerateTotal a1.options.hookGenerate := by rw [hopt1]; exact htot
    have w1 : ∀ (t : Ssg) (e2 : GoError), walkFn env t path d (some e2) = (t, some e2) :=
      fun _ _ => rfl
    rw [walkDir, hf'] at h
    have hsub1 : StoresSub a1 S := by
      cases e1 with
      | some err =>
        simp only [Option.some.injEq] at h
        subst h
        exact hsub
      | none =>
        simp only at h
        split at h
        · cases h; exact hsub
        · split at h
          · rw [w1] at h
            cases h
            exact hsub
          · exact storesSub_trans (walkChildren_sub env fuel path _ a1 r1 h) hsub
    have hstep := walk_second env S a rb path d none htot (by rw [hf]; exact hsub1)
    rw [hf] at hstep
    rcases hstep with ⟨rb1, hb, hsame⟩ | ⟨b1, e, hb, hdup⟩
    · have hb' : walkFn env (a.second S rb) path d none = (a1.second S rb1, e1) :=
        Option.some.inj hb
      rw [walkDir, hb']
      cases e1 with
      | some err =>
        cases h
        exact Or.inl ⟨rb1, rfl, hsame⟩
      | none =>
        simp only at h ⊢
        by_cases hdir : d.isDir = false
        · simp only [hdir, if_true] at h ⊢
          cases h
          exact Or.inl ⟨rb1, rfl, hsame⟩
        · simp only [hdir, if_false] at h ⊢
          cases hrd : env.ReadDir path with
          | error e2 =>
            rw [hrd] at h
            simp only [w1] at h ⊢
            cases h
            exact Or.inl ⟨rb1, rfl, hsame⟩
          | ok dirs =>
            rw [hrd] at h
            simp only at h ⊢
            rcases walkChildren_second env S fuel ih path dirs a1 rb1 r1 htot1 h hsub with
              ⟨rb2, h2, hs2⟩ | hx
            · exact Or.inl ⟨rb2, h2, sameStores_trans hs2 hsame⟩
            · exact Or.inr hx
    · have hb' : walkFn env (a.second S rb) path d none = (b1, some e) := Option.some.inj hb
      rw [walkDir, hb']
      simp only [afterCallback_duplicate d e hdup]
      exact Or.inr ⟨b1, e, rfl, hdup⟩

theorem WalkDir_second (env : Env) (S : Ssg) (fuel : Nat) (root : GoString) (a : Ssg)
    (rb : buildOutput) (r1 : Ssg × Option GoError)
    (htot : HooksGenerateTotal a.options.hookGenerate)
    (h : WalkDir env (walkFn env) fuel root a = some r1) (hsub : StoresSub r1.1 S) :
    SecondOutcome S r1 a (WalkDir env (walkFn env) fuel root (a.second S rb)) := by
  cases hl : env.Lstat root with
  | error e =>
    have h1 : WalkDir env (walkFn env) fuel root a =
        if e = SkipDir ∨ e = SkipAll then some (a, none) else some (a, some e) := by
      simp only [WalkDir, hl]
      rfl
    have h2 : WalkDir env (walkFn env) fuel root (a.second S rb) =
        if e = SkipDir ∨ e = SkipAll then some (a.second S rb, none)
        else some (a.second S rb, some e) := by
      simp only [WalkDir, hl]
      rfl
    rw [h1] at h
    rw [h2]
    by_cases hskip : e = SkipDir ∨ e = SkipAll
    · simp only [hskip, if_true] at h ⊢
      cases h
      exact Or.inl ⟨rb, rfl, rfl, rfl, rfl⟩
    · simp only [hskip, if_false] at h ⊢
      cases h
      exact Or.inl ⟨rb, rfl, rfl, rfl, rfl⟩
  | ok info =>
    have h1 : ∀ t : Ssg, WalkDir env (walkFn env) fuel root t =
        (match walkDir env (walkFn env) fuel root (FileInfoToDirEntry info) t with
        | none => none
        | some (s, some err) =>
          if err = SkipDir ∨ err = SkipAll then some (s, none) else some (s, some err)
        | some (s, none) => some (s, none)) := by
      intro t
      simp only [WalkDir, hl]
      rcases walkDir env (walkFn env) fuel root (FileInfoToDirEntry info) t with
        _ | ⟨s, _ | e⟩ <;> rfl
    rw [h1] at h ⊢
    cases hw : walkDir env (walkFn env) fuel root (FileInfoToDirEntry info) a with
    | none => rw [hw] at h; cases h
    | some q =>
      obtain ⟨a1, e1⟩ := q
      rw [hw] at h
      have hsub1 : StoresSub a1 S := by
        cases e1 with
        | none => cases h; exact hsub
        | some err =>
          simp only at h
          split at h
          · cases h; exact hsub
          · cases h; exact hsub
      rcases walkDir_second env S fuel root (FileInfoToDirEntry info) a rb (a1, e1) htot hw
        hsub1 with ⟨rb1, hb, hsame⟩ | ⟨b1, e, hb, hdup⟩
      · rw [hb]
        cases e1 with
        | none =>
          cases h
          exact Or.inl ⟨rb1, rfl, hsame⟩
        | some err =>
          simp only at h ⊢
          by_cases hskip : err = SkipDir ∨ err = SkipAll
          · simp only [hskip, if_true] at h ⊢
            cases h
            exact Or.inl ⟨rb1, rfl, hsame⟩
          · simp only [hskip, if_false] at h ⊢
            cases h
            exact Or.inl ⟨rb1, rfl, hsame⟩
      · rw [hb]
        have hne := isDuplicate_ne_skip e hdup
        have hskip : ¬ (e = SkipDir ∨ e = SkipAll) := fun hc => hc.elim hne.1 hne.2
        simp only [hskip, if_false]
        exact Or.inr ⟨b1, e, rfl, hdup⟩

/-- Claim C34 as stated fails for a builder with a generate hook that may fail: in the
tree of `lateEnv` the first build registers the header of `src/z` and succeeds; the second
build on the same builder gives `src/a.md`, which a stage files under `src/z`, that
header, the generate hook rejects the page, and the error returned is that of the hook, not
a duplicate-registration error. -/
theorem second_build_counterexample :
    (build lateEnv 3 lateSsg none).map
        (fun r => (r.1.headers.values.map Prod.fst, r.2.1, r.2.2.2)) =
      some ([str "src/z"], [str "src/a.md"], none) ∧
    (build lateEnv 3 lateSsg none).bind
        (fun r => (build lateEnv 3 r.1 none).map (fun r2 => (r2.2.1, r2.2.2.1, r2.2.2.2))) =
      some ([], [], some (wrap (str "core error: ")
        (wrap (str "hooksGenerate[0] error when building src/z/a.md: ")
          (other (str "unexpected header"))))) ∧
    ¬ IsDuplicate (wrap (str "core error: ")
        (wrap (str "hooksGenerate[0] error when building src/z/a.md: ")
          (other (str "unexpected header")))) := by
  refine ⟨by decide, by decide, ?_⟩
  intro h
  rcases h with ⟨p, hp⟩ | ⟨p, hp⟩ <;> cases hp

/-- Claim C34, amended: `build` resets the sink and keeps the header store, the footer
store and the preferred set.  For a builder none of whose generate hooks fails, when a
first `build` has returned and has registered a header marker, a footer marker or an .html
file, a second `build` on the builder it left, over the same source tree, returns a
duplicate-registration error, no input files and no outputs. -/
theorem second_build_fails (env : Env) (fuel : Nat) (s : Ssg) (o o2 : Option (List OutputFile))
    (r1 : Ssg × List GoString × List OutputFile × Option GoError)
    (htot : HooksGenerateTotal s.options.hookGenerate)
    (h1 : build env fuel s o = some r1) (hreg : ¬ SameStores r1.1 s) :
    SameStores (resetResult r1.1 o2) r1.1 ∧
    ∃ s2 err, build env fuel r1.1 o2 = some (s2, [], [], some err) ∧ IsDuplicate err := by
  refine ⟨⟨rfl, rfl, rfl⟩, ?_⟩
  have hb : ∀ (t : Ssg) (w : Option (List OutputFile)), build env fuel t w =
      (match WalkDir env (walkFn env) fuel t.Src (resetResult t w) with
      | none => none
      | some (s, some err) => some (s, [], [], some err)
      | some (s, none) => some (s, s.result.files, s.result.cache, none)) := fun _ _ => rfl
  rw [hb] at h1
  cases hw : WalkDir env (walkFn env) fuel s.Src (resetResult s o) with
  | none => rw [hw] at h1; cases h1
  | some q =>
    obtain ⟨S, e1⟩ := q
    have hS : r1.1 = S := by
      rw [hw] at h1
      cases e1 with
      | none => cases h1; rfl
      | some e => cases h1; rfl
    rw [hS] at hreg ⊢
    have hst := WalkDir_invariant env (walkFn env)
      (fun t => t.Src = s.Src ∧ t.Dst = s.Dst ∧ t.Title = s.Title ∧ t.Url = s.Url ∧
        t.options = s.options ∧ t.ssgignores = s.ssgignores)
      (fun t p c e ht => by
        obtain ⟨k1, k2, k3, k4, k5, k6⟩ := walk_static env t p c e
        exact ⟨k1.trans ht.1, k2.trans ht.2.1, k3.trans ht.2.2.1, k4.trans ht.2.2.2.1,
          k5.trans ht.2.2.2.2.1, k6.trans ht.2.2.2.2.2⟩)
      fuel s.Src (resetResult s o) (S, e1) ⟨rfl, rfl, rfl, rfl, rfl, rfl⟩ hw
    obtain ⟨g1, g2, g3, g4, g5, g6⟩ := hst
    simp only at g1 g2 g3 g4 g5 g6
    have hstart : (resetResult s o).second S (resetResult S o2).result = resetResult S o2 := by
      obtain ⟨Src, Dst, Title, Url, options, ssgignores, headers, footers, preferred,
        result⟩ := S
      simp only at g1 g2 g3 g4 g5 g6
      subst g1 g2 g3 g4 g5 g6
      rfl
    have hsec := WalkDir_second env S fuel s.Src (resetResult s o) (resetResult S o2).result
      (S, e1) htot hw (storesSub_refl S)
    rw [hstart, ← g1] at hsec
    rcases hsec with ⟨rb, _, hsame⟩ | ⟨b, e, hb2, hdup⟩
    · exact absurd hsame hreg
    · refine ⟨b, e, ?_, hdup⟩
      rw [hb, hb2]

theorem second_build_fails_witness :
    HooksGenerateTotal fooSsg.options.hookGenerate ∧
    ∃ r1, build fooEnv 2 fooSsg none = some r1 ∧ r1.1.preferred = [str "src/foo.html"] ∧
      ¬ SameStores r1.1 fooSsg ∧
      SameStores (resetResult r1.1 none) r1.1 ∧
      ∃ s2 err, build fooEnv 2 r1.1 none = some (s2, [], [], some err) ∧ IsDuplicate err :=
  have htot : HooksGenerateTotal fooSsg.options.hookGenerate := fun h hm => by cases hm
  have hsome : (build fooEnv 2 fooSsg none).isSome = true := by decide
  have h1 : build fooEnv 2 fooSsg none = some ((build fooEnv 2 fooSsg none).get hsome) :=
    (Option.some_get hsome).symm
  have hpref : ((build fooEnv 2 fooSsg none).get hsome).1.preferred = [str "src/foo.html"] :=
    rfl
  have hreg : ¬ SameStores ((build fooEnv 2 fooSsg none).get hsome).1 fooSsg := fun hs => by
    have h2 := hs.2.2
    rw [hpref] at h2
    cases h2
  ⟨htot, _, h1, hpref, hreg, second_build_fails fooEnv 2 fooSsg none none _ htot h1 hreg⟩


end ssg
